import Mathlib

/-!
# Protostripe: the beat-synchronised layer sequencer

A shallow embedding of `src/sequencer.cpp`, `src/sequencer.h` and `src/layer.h`, and of
the block animation and the tempo keys of `src/ofApp.cpp` and `src/ofApp.h`.

Conventions of the embedding.

* C++ `int` and `short` values are mathematical integers (`Int`).  Signed overflow is
  undefined behaviour in C++, so the embedding describes the executions in which no
  signed operation overflows.  Signed `/` and `%` truncate towards zero: `Int.tdiv`
  and `Int.tmod`.
* `unsigned int` values (`now` and every event date) are naturals below `2^32`; every
  unsigned operation is reduced modulo `2^32` by `toU32`.
* Everything the sequencer sends out (timed events handed to the FluidSynth sequencer,
  `allNotesOff` calls on the synthesizer, invocations of the registered handler) is
  recorded, in program order, as a list of `Event`s.
* `ofMutex` locking has no effect on a single-threaded execution and is left out.
* `std::map<int, Layer>` is an association list kept in ascending key order, which is
  the iteration order of the C++ container.
-/

namespace Protostripe

/-! ## Data model (`layer.h`) -/

/-- The building block of a layer (`struct Note`).  The field `pitch` is declared `float`
in the source and is converted to `short` when the note is sent; the application only
stores integral MIDI pitches in it, so it is an integer here. -/
structure Note where
  pitch : Int
  velocity : Int
  msOffset : Int
  msDuration : Int
  position : Int
deriving DecidableEq, Repr

/-- A voicing layer (`struct Layer`). -/
structure Layer where
  notes : List Note
  beatStart : Int
  beatCount : Int
  muted : Bool
  channel : Int
deriving DecidableEq, Repr

/-- The constructor `Layer() : muted(false), beatStart(-1) {}`; the fields the
constructor leaves uninitialised are supplied by the caller. -/
def Layer.new (notes : List Note) (beatCount channel : Int) : Layer :=
  { notes := notes, beatStart := -1, beatCount := beatCount, muted := false, channel := channel }

/-! ## Observable effects -/

/-- Everything a sequencer operation sends to its collaborators. -/
inductive Event where
  /-- `fluid_event_noteon` sent with `fluid_sequencer_send_at` at an absolute date. -/
  | noteOn (dest channel key velocity : Int) (date : Nat)
  /-- `fluid_event_noteoff` sent with `fluid_sequencer_send_at` at an absolute date. -/
  | noteOff (dest channel key : Int) (date : Nat)
  /-- `fluid_event_timer` sent with `fluid_sequencer_send_at` at an absolute date. -/
  | timer (dest : Int) (date : Nat)
  /-- A call `handler(callData, channel, position, velocity, distance, duration)`. -/
  | handlerCall (fn data : Nat) (channel position velocity distance duration : Int)
  /-- A call `fluid -> allNotesOff(channel)`. -/
  | allNotesOff (channel : Int)
deriving DecidableEq, Repr

/-- Whether an event is a timer event. -/
def Event.isTimer : Event → Bool
  | Event.timer _ _ => true
  | _ => false

/-! ## The channel map (`std::map<int, Layer>`) -/

/-- The channel map, in ascending key order. -/
abbrev ChannelMap := List (Int × Layer)

/-- The lookup `channels.find(k)`: the layer stored under key `k`, if any. -/
def ChannelMap.find (k : Int) : ChannelMap → Option Layer
  | [] => none
  | (k', v) :: rest => if k = k' then some v else ChannelMap.find k rest

/-- The member function `channels.count(k)`. -/
def ChannelMap.count (k : Int) (m : ChannelMap) : Nat :=
  match ChannelMap.find k m with
  | some _ => 1
  | none => 0

/-- The assignment `channels[k] = v`: replaces the value stored under `k`, or inserts a
new entry at its place in key order. -/
def ChannelMap.assign (k : Int) (v : Layer) : ChannelMap → ChannelMap
  | [] => [(k, v)]
  | (k', v') :: rest =>
    if k < k' then (k, v) :: (k', v') :: rest
    else if k = k' then (k, v) :: rest
    else (k', v') :: ChannelMap.assign k v rest

/-- The keys of the map, in iteration order. -/
def ChannelMap.keys (m : ChannelMap) : List Int := m.map Prod.fst

/-- The representation invariant of `std::map`: keys strictly ascending (hence unique). -/
def ChannelMap.Ordered (m : ChannelMap) : Prop := (ChannelMap.keys m).Pairwise (· < ·)

/-! ## The sequencer (`sequencer.h`, `sequencer.cpp`) -/

/-- The part of `Synthesizer` the sequencer reads: the FluidSynth handle `synth`
(`none` is `NULL`).  The class is declared in `synthesizer.h`. -/
structure Synthesizer where
  synth : Option Nat
deriving DecidableEq, Repr

/-- The data members of `class Sequencer`.  Pointers are addresses, `none` is `NULL`. -/
structure Sequencer where
  handler : Nat
  callData : Nat
  channels : ChannelMap
  mySeqID : Int
  synthSeqID : Int
  now : Nat
  globalBeatCount : Int
  beatsPerMeasure : Int
  beatsPerMinute : Int
  msPerBeat : Int
  sequencer : Option Nat
  fluid : Option Synthesizer
deriving DecidableEq, Repr

/-- What the FluidSynth library returns to `init`: the new sequencer object, the two
client identifiers and the current tick of the sequencer clock. -/
structure Backend where
  newSequencer : Option Nat
  synthSeqID : Int
  mySeqID : Int
  tick : Nat
deriving DecidableEq, Repr

/-- Conversion of an integer to `unsigned int`: reduction modulo `2^32`. -/
def toU32 (x : Int) : Nat := (x % 4294967296).toNat

/-- The event built by `Sequencer::sendNoteOn(channel, key, velocity, date)`. -/
def Sequencer.sendNoteOn (s : Sequencer) (channel key velocity : Int) (date : Nat) : Event :=
  Event.noteOn s.synthSeqID channel key velocity date

/-- The event built by `Sequencer::sendNoteOff(channel, key, date)`. -/
def Sequencer.sendNoteOff (s : Sequencer) (channel key : Int) (date : Nat) : Event :=
  Event.noteOff s.synthSeqID channel key date

/-- The test of line 140 of `sequencer.cpp` under which the note loop executes `continue`. -/
def noteSkipped (msPerBeat beatPosDiff : Int) (note : Note) : Bool :=
  decide (note.msOffset < beatPosDiff) || decide (note.msOffset ≥ beatPosDiff + msPerBeat)

/-- The three statements of the note loop that follow the `continue` test (lines 142 to 147):
`sendNoteOn`, `sendNoteOff` and the handler call, in program order. -/
def Sequencer.dispatchNote (s : Sequencer) (channel beatPosDiff : Int) (note : Note) : List Event :=
  let distFromRealNow := note.msOffset - beatPosDiff + s.msPerBeat.tdiv 2
  [ s.sendNoteOn channel note.pitch note.velocity (toU32 (s.now + note.msOffset - beatPosDiff)),
    s.sendNoteOff channel note.pitch (toU32 (s.now + note.msOffset - beatPosDiff + note.msDuration)),
    Event.handlerCall s.handler s.callData channel note.position note.velocity distFromRealNow
      note.msDuration ]

/-- The inner loop of `scheduleLayers` (lines 138 to 148) over the notes still to visit;
`log` holds the events sent so far. -/
def Sequencer.scheduleNotes (s : Sequencer) (channel beatPosDiff : Int) :
    List Note → List Event → List Event
  | [], log => log
  | note :: rest, log =>
    if noteSkipped s.msPerBeat beatPosDiff note then
      Sequencer.scheduleNotes s channel beatPosDiff rest log
    else
      Sequencer.scheduleNotes s channel beatPosDiff rest (log ++ s.dispatchNote channel beatPosDiff note)

/-- The body of the outer loop of `scheduleLayers` (lines 115 to 148) for one layer
`current`: returns the layer as the body leaves it and the extended log. -/
def Sequencer.scheduleLayer (s : Sequencer) (current : Layer) (log : List Event) :
    Layer × List Event :=
  let channel := current.channel
  let beatStart := current.beatStart
  let beatCount := current.beatCount
  if current.muted then (current, log)
  else if beatCount = 0 then (current, log)
  else
    let current := if beatStart = -1 then { current with beatStart := s.globalBeatCount } else current
    let beatPos := (s.globalBeatCount - current.beatStart).tmod beatCount
    let beatPosDiff := s.msPerBeat * beatPos
    (current, s.scheduleNotes channel beatPosDiff current.notes log)

/-- The outer loop of `scheduleLayers` (line 114) over the map entries still to visit.
`&channels[iterator -> first]` is the layer of the entry the iterator points at. -/
def Sequencer.scheduleChannels (s : Sequencer) : ChannelMap → List Event → ChannelMap × List Event
  | [], log => ([], log)
  | (k, current) :: rest, log =>
    let r := s.scheduleLayer current log
    let rs := Sequencer.scheduleChannels s rest r.2
    ((k, r.1) :: rs.1, rs.2)

/-- `Sequencer::scheduleTimer`: advances `now` by half a beat and sends the timer event. -/
def Sequencer.scheduleTimer (s : Sequencer) (log : List Event) : Sequencer × List Event :=
  let s1 := { s with now := toU32 (s.now + s.msPerBeat.tdiv 2) }
  (s1, log ++ [Event.timer s1.mySeqID s1.now])

/-- The first two statements of `scheduleLayers` (lines 107 and 108). -/
def Sequencer.advance (s : Sequencer) : Sequencer :=
  { s with now := toU32 (s.now + s.msPerBeat.tdiv 2), globalBeatCount := s.globalBeatCount + 1 }

/-- `Sequencer::scheduleLayers`: one tick.  Returns the new state and the events sent. -/
def Sequencer.scheduleLayers (s : Sequencer) : Sequencer × List Event :=
  let s1 := s.advance
  let r := s1.scheduleChannels s1.channels []
  Sequencer.scheduleTimer { s1 with channels := r.1 } r.2

/-- `Sequencer::callback`: the timer fired, run the next tick. -/
def Sequencer.callback (s : Sequencer) : Sequencer × List Event := s.scheduleLayers

/-- `Sequencer::writeLayer(channel, layer)`. -/
def Sequencer.writeLayer (s : Sequencer) (channel : Int) (layer : Layer) : Sequencer × List Event :=
  ({ s with channels := ChannelMap.assign channel layer s.channels }, [])

/-- `Sequencer::toggleLayerIfExists(channel)`. -/
def Sequencer.toggleLayerIfExists (s : Sequencer) (channel : Int) : Sequencer × List Event :=
  if ChannelMap.count channel s.channels = 0 then (s, [])
  else
    match ChannelMap.find channel s.channels with
    | none => (s, [])
    | some l =>
      let oldState := l.muted
      let l1 := { l with muted := !oldState }
      let l2 := if !oldState then { l1 with beatStart := -1 }
                else { l1 with beatStart := s.globalBeatCount }
      ({ s with channels := ChannelMap.assign channel l2 s.channels }, [Event.allNotesOff channel])

/-- `Sequencer::getGlobalBeatCount`. -/
def Sequencer.getGlobalBeatCount (s : Sequencer) : Int := s.globalBeatCount

/-- `Sequencer::init(synth, beatsMinute, call, data)`.  The result is `none` when the
division `60000 / beatsPerMinute` divides by zero; otherwise it is the returned boolean,
the new state and the events sent. -/
def Sequencer.init (s : Sequencer) (env : Backend) (synth : Synthesizer) (beatsMinute : Int)
    (call data : Nat) : Option (Bool × Sequencer × List Event) :=
  if synth.synth = none then some (false, s, [])
  else if s.sequencer ≠ none then some (false, s, [])
  else if beatsMinute = 0 then none
  else
    let s1 := { s with beatsPerMinute := beatsMinute, msPerBeat := (60000 : Int).tdiv beatsMinute }
    let s2 := { s1 with sequencer := env.newSequencer }
    let s3 := { s2 with fluid := some synth }
    let s4 := { s3 with synthSeqID := env.synthSeqID, mySeqID := env.mySeqID }
    let s5 := { s4 with now := env.tick, globalBeatCount := -1, handler := call, callData := data }
    let r := s5.scheduleLayers
    some (decide (r.1.sequencer ≠ none), r.1, r.2)

/-- The constructor `Sequencer()`: `sequencer` is `NULL`, the map is empty, and the
other members hold whatever the storage held (`junk`). -/
def Sequencer.new (junk : Sequencer) : Sequencer :=
  { junk with sequencer := none, channels := [] }

/-- The events sent by `Sequencer::~Sequencer`: one `allNotesOff` per map key. -/
def Sequencer.destroy (s : Sequencer) : List Event :=
  (ChannelMap.keys s.channels).map Event.allNotesOff

/-! ## Calls, runs and observations -/

/-- The events the loop body of `scheduleLayers` sends when it visits `note` while
processing `current`: the body run on the layer holding that note alone. -/
def Sequencer.noteEvents (s : Sequencer) (current : Layer) (note : Note) : List Event :=
  (s.scheduleLayer { current with notes := [note] } []).2

/-- The calls that reach an initialised sequencer: the timer firing (`callback`), and
the two public mutators. -/
inductive Op where
  | tick
  | write (channel : Int) (layer : Layer)
  | toggle (channel : Int)
deriving DecidableEq, Repr

/-- Runs one call. -/
def Sequencer.step (s : Sequencer) : Op → Sequencer × List Event
  | Op.tick => s.callback
  | Op.write channel layer => s.writeLayer channel layer
  | Op.toggle channel => s.toggleLayerIfExists channel

/-- The state after a sequence of calls. -/
def Sequencer.run (s : Sequencer) : List Op → Sequencer
  | [] => s
  | op :: ops => Sequencer.run (s.step op).1 ops

/-- Whether the call writes or toggles channel `c`. -/
def Op.touches (c : Int) : Op → Bool
  | Op.tick => false
  | Op.write channel _ => decide (channel = c)
  | Op.toggle channel => decide (channel = c)

/-- The number of ticks in a sequence of calls. -/
def tickCount : List Op → Nat
  | [] => 0
  | Op.tick :: ops => tickCount ops + 1
  | _ :: ops => tickCount ops

/-- The states of a running sequencer: those a successful `init` returns, and those
reached from them by timer firings, writes and toggles. -/
inductive Running : Sequencer → Prop where
  | init (s0 : Sequencer) (env : Backend) (synth : Synthesizer) (beatsMinute : Int)
      (call data : Nat) (s : Sequencer) (ev : List Event)
      (h : s0.init env synth beatsMinute call data = some (true, s, ev)) : Running s
  | step (s : Sequencer) (op : Op) (h : Running s) : Running (s.step op).1

/-- Whether the tick run from state `s` dispatches `note` when it processes the layer
stored under key `c`: the loop body sends something for it. -/
def Sequencer.tickDispatches (s : Sequencer) (c : Int) (note : Note) : Bool :=
  match ChannelMap.find c s.channels with
  | none => false
  | some l => decide (s.advance.noteEvents l note ≠ [])

/-! ## Concrete inputs used to evaluate the embedding -/

/-- The storage of a `Sequencer` object before its constructor runs. -/
def exampleStorage : Sequencer :=
  { handler := 0, callData := 0, channels := [], mySeqID := 0, synthSeqID := 0, now := 0,
    globalBeatCount := 77, beatsPerMeasure := 0, beatsPerMinute := 0, msPerBeat := 0,
    sequencer := some 9, fluid := none }

/-- A backend whose calls all succeed; its clock reads 1000. -/
def exampleBackend : Backend :=
  { newSequencer := some 1, synthSeqID := 10, mySeqID := 11, tick := 1000 }

/-- A synthesizer with a valid FluidSynth handle. -/
def exampleSynth : Synthesizer := { synth := some 5 }

/-- The metronome layer `ofApp::buildSequencer` writes at 120 beats per minute and 4 beats
per measure. -/
def metronome : Layer :=
  Layer.new [⟨70, 127, 0, 250, 0⟩, ⟨60, 127, 500, 250, 0⟩, ⟨60, 127, 1000, 250, 0⟩,
    ⟨60, 127, 1500, 250, 0⟩] 4 2

/-- The state `init` returns at 120 beats per minute on a fresh sequencer. -/
def runningState : Sequencer :=
  { handler := 7, callData := 8, channels := [], mySeqID := 11, synthSeqID := 10, now := 1500,
    globalBeatCount := 0, beatsPerMeasure := 0, beatsPerMinute := 120, msPerBeat := 500,
    sequencer := some 1, fluid := some exampleSynth }

/-- The running sequencer after `writeLayer(2, metronome)`. -/
def metronomeWritten : Sequencer :=
  { runningState with channels := [(2, metronome)] }

/-- The down-beat note of the metronome. -/
def downBeat : Note := ⟨70, 127, 0, 250, 0⟩

/-- A running sequencer holding the metronome on channel 2 and a muted layer on
channel 5. -/
def twoLayers : Sequencer :=
  { runningState with
    channels := [(2, metronome), (5, { notes := [downBeat], beatStart := -1, beatCount := 2, muted := true, channel := 5 })] }

/-! ## Observations used by the later claims -/

/-- The channel an event is addressed to; a timer event has none. -/
def Event.channel? : Event → Option Int
  | Event.noteOn _ channel _ _ _ => some channel
  | Event.noteOff _ channel _ _ => some channel
  | Event.timer _ _ => none
  | Event.handlerCall _ _ channel _ _ _ _ => some channel
  | Event.allNotesOff channel => some channel

/-- The key of a note-on event; every other event has none. -/
def Event.noteOnKey? : Event → Option Int
  | Event.noteOn _ _ key _ _ => some key
  | _ => none

/-- Whether an event is a call of the registered handler. -/
def Event.isHandlerCall : Event → Bool
  | Event.handlerCall _ _ _ _ _ _ _ => true
  | _ => false

/-- The events the tick run from state `s` sends while it processes the layer stored
under key `c` (none when the key holds no layer). -/
def Sequencer.layerEvents (s : Sequencer) (c : Int) : List Event :=
  match ChannelMap.find c s.channels with
  | none => []
  | some l => (s.advance.scheduleLayer l []).2

/-- The value of `beatPos` the tick run from state `s` computes for the layer stored under
key `c`, when that layer is active. -/
def Sequencer.tickBeatPos (s : Sequencer) (c : Int) : Option Int :=
  match ChannelMap.find c s.channels with
  | none => none
  | some l =>
    if l.muted then none
    else if l.beatCount = 0 then none
    else some ((s.advance.globalBeatCount - (s.advance.scheduleLayer l []).1.beatStart).tmod
      l.beatCount)

/-- A one-note layer whose `channel` member is `-3`. -/
def strayLayer : Layer := Layer.new [downBeat] 4 (-3)

/-- The running sequencer at beat 0 holding the metronome anchored at beat 0. -/
def anchoredMetronome : Sequencer :=
  { runningState with channels := [(2, { metronome with beatStart := 0 })] }

/-- The events sent for the layer stored under key `c` by `n` consecutive ticks, the
first of them run from state `s`. -/
def Sequencer.consecutiveLayerEvents (s : Sequencer) (c : Int) : Nat → List Event
  | 0 => []
  | n + 1 => s.layerEvents c ++ Sequencer.consecutiveLayerEvents s.scheduleLayers.1 c n

/-- The events returned by `n` consecutive ticks, the first of them run from state `s`. -/
def Sequencer.consecutiveTickEvents (s : Sequencer) : Nat → List Event
  | 0 => []
  | n + 1 => (s.step Op.tick).2 ++ Sequencer.consecutiveTickEvents (s.step Op.tick).1 n

/-- A four-beat layer for channel 3 holding one note at offset 499 and one at offset
500, the two sides of the upper end of the window `[0, 500)`. -/
def boundaryLayer : Layer := Layer.new [⟨60, 127, 499, 250, 0⟩, ⟨61, 127, 500, 250, 0⟩] 4 3

/-- The running sequencer (120 beats per minute) after `writeLayer(3, boundaryLayer)`. -/
def boundaryWritten : Sequencer :=
  { runningState with channels := [(3, boundaryLayer)] }

/-- A four-beat layer for channel 2 holding two notes, at offsets 0 and 500. -/
def twoNoteLayer : Layer := Layer.new [⟨70, 127, 0, 250, 0⟩, ⟨60, 127, 500, 250, 0⟩] 4 2

/-- The running sequencer (120 beats per minute) after `writeLayer(2, twoNoteLayer)`. -/
def twoNoteWritten : Sequencer :=
  { runningState with channels := [(2, twoNoteLayer)] }

/-- The running sequencer at beat 0 holding the two-note layer with `beatStart = 5`, an
anchor four beats after the next tick. -/
def twoNoteAhead : Sequencer :=
  { runningState with channels := [(2, { twoNoteLayer with beatStart := 5 })] }

/-! ## The visual store (`layer.h`, `ofApp.h`, `ofApp.cpp`)

The block fractions are C++ `float`s.  The type `float` and its arithmetic belong to the
language, not to the repository, so they are parameters of the embedding: `F` stands for
the set of `float` values and `FloatOps F` for the operations the source applies to them.
What is proved for every `FloatOps` holds whatever the arithmetic does, rounding
included.  Two arithmetics are given: exact arithmetic on the rationals, and IEEE 754
binary32 arithmetic, which is `float` on x86-64 and ARM64. -/

/-- The operations on `float` that `ofApp::noteHandler` and `ofApp::update` use:
conversion from `int`, `+`, `-`, unary `-`, `/`, `<` (with `a > b` read as `b < a`), and
the constants `1.0`, `1.5`, `-0.5` and `127.0`. -/
structure FloatOps (F : Type) where
  ofInt : Int → F
  add : F → F → F
  sub : F → F → F
  neg : F → F
  div : F → F → F
  lt : F → F → Bool
  one : F
  oneAndHalf : F
  minusHalf : F
  c127 : F

/-- Facts of IEEE arithmetic used for a zero time step: `<` is irreflexive, and the
quotient of the integer 0 by a non-zero integer is a zero, which added to or subtracted
from a value leaves that value. -/
structure FloatOps.Lawful {F : Type} (A : FloatOps F) : Prop where
  lt_irrefl : ∀ x : F, A.lt x x = false
  add_zero_quotient : ∀ (n : Int) (x : F), n ≠ 0 → A.add x (A.div (A.ofInt 0) (A.ofInt n)) = x
  sub_zero_quotient : ∀ (n : Int) (x : F), n ≠ 0 → A.sub x (A.div (A.ofInt 0) (A.ofInt n)) = x

/-- Exact arithmetic on the rationals. -/
def exactOps : FloatOps ℚ :=
  { ofInt := fun n => (n : ℚ), add := fun x y => x + y, sub := fun x y => x - y,
    neg := fun x => -x, div := fun x y => x / y, lt := fun x y => decide (x < y),
    one := 1, oneAndHalf := 3 / 2, minusHalf := -(1 / 2), c127 := 127 }

/-- A graphical note (`struct Block`).  The member `color` is recorded as the index
`position % 5` into the colour table of `noteHandler`. -/
structure Block (F : Type) where
  posFrac : F
  sizeFrac : F
  color : Int
  velFrac : F
  finalized : Bool
deriving DecidableEq, Repr

/-- A stripe (`struct LayerStripe`).  The vector of `Block*` is the list of the blocks
pointed at; no block is ever pointed at from two stripes. -/
structure LayerStripe (F : Type) where
  blocks : List (Block F)
  lastTime : Int
  horizontal : Bool
  forward : Bool
  posFrac : F
  sizeFrac : F
  visible : Bool
deriving DecidableEq, Repr

/-- The members of `class ofApp` that `noteHandler` and `update` read and write. -/
structure ofApp (F : Type) where
  beatsPerMinute : Int
  beatsPerMeasure : Int
  screenSize : Int
  stripes : List (LayerStripe F)
deriving DecidableEq, Repr

/-- The statement `stripes[i].blocks.push_back(block)`; indexing past the end of the
vector is undefined and leaves the list alone here. -/
def pushBlock {F : Type} (stripes : List (LayerStripe F)) (i : Nat) (block : Block F) :
    List (LayerStripe F) :=
  match stripes[i]? with
  | none => stripes
  | some st => stripes.set i { st with blocks := st.blocks ++ [block] }

/-- `ofApp::noteHandler(instance, channel, position, velocity, distance, duration)`.
The result is `none` when the execution is undefined: division by a zero tempo, or a
stripe index outside the vector.  Otherwise it is the new state and the returned vector
of the two new blocks. -/
def ofApp.noteHandler {F : Type} (A : FloatOps F) (app : ofApp F)
    (channel position velocity distance duration : Int) : Option (ofApp F × List (Block F)) :=
  if app.beatsPerMinute = 0 then none
  else
    let msPerBeat := (60000 : Int).tdiv app.beatsPerMinute
    let channel := channel - 1
    let msScreen := A.ofInt (app.screenSize * msPerBeat * app.beatsPerMeasure)
    let posFrac := A.div (A.ofInt distance) msScreen
    let sizeFrac := A.div (A.ofInt duration) msScreen
    if channel < 0 then none
    else
      match app.stripes[channel.toNat]?, app.stripes[(channel + 8).toNat]? with
      | some stripeA, some stripeB =>
        let posFracDirectedA :=
          if stripeA.forward then A.sub (A.neg sizeFrac) posFrac else A.add A.one posFrac
        let posFracDirectedB :=
          if stripeB.forward then A.sub (A.neg sizeFrac) posFrac else A.add A.one posFrac
        let color := position.tmod 5
        let finalized := decide (channel ≠ 0)
        let velFrac := A.div (A.ofInt velocity) A.c127
        let blockA : Block F :=
          { posFrac := posFracDirectedA, sizeFrac := sizeFrac, color := color,
            velFrac := velFrac, finalized := finalized }
        let blockB : Block F :=
          { posFrac := posFracDirectedB, sizeFrac := sizeFrac, color := color,
            velFrac := velFrac, finalized := finalized }
        let stripes1 := pushBlock app.stripes channel.toNat blockA
        let stripes2 := pushBlock stripes1 (channel + 8).toNat blockB
        some ({ app with stripes := stripes2 }, [blockA, blockB])
      | _, _ => none

/-- The test of lines 275 and 282 of `ofApp.cpp` under which `update` deletes a block. -/
def blockDeleted {F : Type} (A : FloatOps F) (forward : Bool) (block : Block F) : Bool :=
  (forward && A.lt A.oneAndHalf block.posFrac) ||
    (!forward && A.lt (A.add block.posFrac block.sizeFrac) A.minusHalf)

/-- Lines 288 to 303 of `ofApp.cpp`: a block that is not finalized grows, a finalized
block slides. -/
def updateBlock {F : Type} (A : FloatOps F) (forward : Bool) (diff speed : Int)
    (block : Block F) : Block F :=
  if !block.finalized then
    if forward then
      { block with sizeFrac := A.add block.sizeFrac (A.div (A.ofInt diff) (A.ofInt speed)) }
    else
      { block with
        sizeFrac := A.add block.sizeFrac (A.div (A.ofInt diff) (A.ofInt speed)),
        posFrac := A.sub block.posFrac (A.div (A.ofInt diff) (A.ofInt speed)) }
  else
    if forward then
      { block with posFrac := A.add block.posFrac (A.div (A.ofInt diff) (A.ofInt speed)) }
    else
      { block with posFrac := A.sub block.posFrac (A.div (A.ofInt diff) (A.ofInt speed)) }

/-- The inner loop of `update` (lines 271 to 304), `for (j = size - 1; j >= 0; j -= 1)`,
with `n = j + 1` iterations still to run on the vector `blocks`. -/
def blockLoop {F : Type} (A : FloatOps F) (forward : Bool) (diff speed : Int) :
    Nat → List (Block F) → List (Block F)
  | 0, blocks => blocks
  | j + 1, blocks =>
    match blocks[j]? with
    | none => blockLoop A forward diff speed j blocks
    | some block =>
      if forward && A.lt A.oneAndHalf block.posFrac then
        blockLoop A forward diff speed j (blocks.eraseIdx j)
      else if !forward && A.lt (A.add block.posFrac block.sizeFrac) A.minusHalf then
        blockLoop A forward diff speed j (blocks.eraseIdx j)
      else
        blockLoop A forward diff speed j (blocks.set j (updateBlock A forward diff speed block))

/-- The body of the outer loop of `update` (lines 268 to 307) for one stripe. -/
def updateStripe {F : Type} (A : FloatOps F) (now speed : Int) (stripe : LayerStripe F) :
    LayerStripe F :=
  let forward := stripe.forward
  let diff := now - stripe.lastTime
  { stripe with
    blocks := blockLoop A forward diff speed stripe.blocks.length stripe.blocks,
    lastTime := now }

/-- The outer loop of `update` (line 267) over the stripes still to visit. -/
def stripeLoop {F : Type} (A : FloatOps F) (now speed : Int) :
    List (LayerStripe F) → List (LayerStripe F)
  | [] => []
  | stripe :: rest => updateStripe A now speed stripe :: stripeLoop A now speed rest

/-- The value `speed` that `update` computes (lines 260 and 261). -/
def ofApp.speed {F : Type} (app : ofApp F) : Int :=
  app.screenSize * (60000 : Int).tdiv app.beatsPerMinute * app.beatsPerMeasure

/-- `ofApp::update`, with `now` the value `ofGetElapsedTimeMillis()` returns.  The result
is `none` when the tempo is zero (division by zero). -/
def ofApp.update {F : Type} (A : FloatOps F) (app : ofApp F) (now : Int) : Option (ofApp F) :=
  if app.beatsPerMinute = 0 then none
  else
    let msPerBeat := (60000 : Int).tdiv app.beatsPerMinute
    let speed := app.screenSize * msPerBeat * app.beatsPerMeasure
    some { app with stripes := stripeLoop A now speed app.stripes }

/-- A finalized block past the forward threshold (`2 > 1.5`). -/
def sampleGone : Block ℚ := { posFrac := 2, sizeFrac := 1 / 10, color := 0, velFrac := 1, finalized := true }

/-- A finalized block exactly at the forward threshold `1.5`. -/
def sampleEdge : Block ℚ := { posFrac := 3 / 2, sizeFrac := 1 / 10, color := 1, velFrac := 1, finalized := true }

/-- A block that is not finalized, as the free-play channel creates them. -/
def sampleHeld : Block ℚ := { posFrac := 1, sizeFrac := 0, color := 2, velFrac := 1, finalized := false }

/-- A forward stripe last animated at time 100, holding `sampleGone` then `sampleEdge`. -/
def sampleForward : LayerStripe ℚ :=
  { blocks := [sampleGone, sampleEdge], lastTime := 100, horizontal := false, forward := true,
    posFrac := 1 / 40, sizeFrac := 1 / 40, visible := true }

/-- A backward stripe last animated at time 100, holding `sampleHeld`. -/
def sampleBackward : LayerStripe ℚ :=
  { blocks := [sampleHeld], lastTime := 100, horizontal := true, forward := false,
    posFrac := 3 / 40, sizeFrac := 1 / 40, visible := true }

/-- The application at its default tempo (120 beats per minute, 4 beats per measure,
`screenSize = 2`, hence `speed = 4000`) with the two sample stripes. -/
def sampleApp : ofApp ℚ :=
  { beatsPerMinute := 120, beatsPerMeasure := 4, screenSize := 2,
    stripes := [sampleForward, sampleBackward] }

/-- An application at its default tempo with 16 empty stripes, 8 vertical then 8
horizontal, every third one travelling forward. -/
def gridApp : ofApp ℚ :=
  { beatsPerMinute := 120, beatsPerMeasure := 4, screenSize := 2,
    stripes := (List.range 16).map (fun (i : Nat) =>
      { blocks := [], lastTime := 0, horizontal := decide (8 ≤ i), forward := decide (i % 3 = 0),
        posFrac := (2 * (i : ℚ) + 1) / 40, sizeFrac := 1 / 40, visible := true }) }

/-- The number of times `n` can be halved before it drops below 2, at most `fuel`
times. -/
def halvings : Nat → Nat → Nat
  | 0, _ => 0
  | fuel + 1, n => if n < 2 then 0 else halvings fuel (n / 2) + 1

/-- The integer part of the base-2 logarithm of `n / d`, for positive `n` and `d`: the
difference of the bit lengths, lowered by one when `2^e` is above `n / d`. -/
def floorLog2 (n d : Nat) : Int :=
  let e : Int := (halvings n n : Int) - (halvings d d : Int)
  if d * 2 ^ e.toNat ≤ n * 2 ^ (-e).toNat then e else e - 1

/-- Rounding of a rational to the nearest value of the IEEE 754 binary32 format, which
is C++ `float` on x86-64 and ARM64: a significand of 24 bits, exponents from `-126`
(below which the spacing stays `2^-149`), ties going to the even significand.  Numbers
beyond the largest finite binary32 value are outside this model. -/
def roundBinary32 (x : ℚ) : ℚ :=
  if x.num = 0 then 0
  else
    let n := x.num.natAbs
    let d := x.den
    let e := max (floorLog2 n d) (-126)
    let scaledNum := n * 2 ^ (23 - e).toNat
    let scaledDen := d * 2 ^ (e - 23).toNat
    let q := scaledNum / scaledDen
    let r := scaledNum % scaledDen
    let significand :=
      if 2 * r < scaledDen then q
      else if scaledDen < 2 * r then q + 1
      else if q % 2 = 0 then q
      else q + 1
    let v : ℚ := mkRat ((significand * 2 ^ (e - 23).toNat : Nat) : Int) (2 ^ (23 - e).toNat)
    if x.num < 0 then -v else v

/-- The arithmetic of C++ `float` where it is IEEE 754 binary32, on finite values: each
of `+`, `-`, `/` and the conversion from `int` is the exact operation followed by
rounding; negation and comparison are exact, and the four constants are binary32
values.  A zero divisor and overflow are outside this model. -/
def binary32Ops : FloatOps ℚ :=
  { ofInt := fun n => roundBinary32 (n : ℚ), add := fun x y => roundBinary32 (x + y),
    sub := fun x y => roundBinary32 (x - y), neg := fun x => -x,
    div := fun x y => roundBinary32 (x / y), lt := fun x y => decide (x < y),
    one := 1, oneAndHalf := 3 / 2, minusHalf := -(1 / 2), c127 := 127 }

/-- The application at its default tempo (`speed = 4000`) with the backward sample
stripe alone, which holds the block `sampleHeld` of a key that is still pressed. -/
def heldApp : ofApp ℚ :=
  { beatsPerMinute := 120, beatsPerMeasure := 4, screenSize := 2, stripes := [sampleBackward] }

/-- The block `sampleHeld` after one binary32 update 2 time units later. -/
def heldOnce : Block ℚ :=
  { sampleHeld with posFrac := 16768827 / 16777216, sizeFrac := 8589935 / 17179869184 }

/-- The block `sampleHeld` after a second binary32 update 2 time units later again. -/
def heldTwice : Block ℚ :=
  { sampleHeld with posFrac := 8380219 / 8388608, sizeFrac := 8589935 / 8589934592 }

/-- The state of `heldApp` after a binary32 update at time 102. -/
def heldAppOnce : ofApp ℚ :=
  { heldApp with stripes := [{ sampleBackward with blocks := [heldOnce], lastTime := 102 }] }

/-- The state of `heldApp` after a second binary32 update, at time 104. -/
def heldAppTwice : ofApp ℚ :=
  { heldApp with stripes := [{ sampleBackward with blocks := [heldTwice], lastTime := 104 }] }

/-! ## The tempo controls (`ofApp.h`, `ofApp::keyPressed`, `ofApp::keyReleased`) -/

/-- The members of `ofApp` behind the tempo: the three integers assigned by lines 544 to
559 of `ofApp::keyPressed`, the member `screenSize`, which no function assigns, and
whether the pointer `seq` is `NULL`. -/
structure Controls where
  beatsPerMinute : Int
  beatsPerMeasure : Int
  currentVelocity : Int
  screenSize : Int
  seqIsNull : Bool
deriving DecidableEq, Repr

/-- The in-class member values of `ofApp.h`: 120 beats per minute, 4 beats per measure,
velocity 127, screen size 2, no sequencer. -/
def Controls.startup : Controls :=
  { beatsPerMinute := 120, beatsPerMeasure := 4, currentVelocity := 127, screenSize := 2,
    seqIsNull := true }

/-- Lines 544 to 559 of `ofApp::keyPressed(key)`, the six statements in their order,
with `key` the character code: 40 and 41 for the parentheses, 57 and 48 for the digits
9 and 0, 45 and 61 for the minus and equals signs.  The statements after line 559 assign
none of these members. -/
def Controls.keyPressed (c : Controls) (key : Int) : Controls :=
  let c1 :=
    if key = 40 ∧ c.beatsPerMeasure > 1 then
      if c.seqIsNull then { c with beatsPerMeasure := c.beatsPerMeasure - 1 } else c
    else c
  let c2 :=
    if key = 41 ∧ c1.beatsPerMeasure < 24 then
      if c1.seqIsNull then { c1 with beatsPerMeasure := c1.beatsPerMeasure + 1 } else c1
    else c1
  let c3 :=
    if key = 57 ∧ c2.beatsPerMinute > 24 then
      if c2.seqIsNull then { c2 with beatsPerMinute := c2.beatsPerMinute - 1 } else c2
    else c2
  let c4 :=
    if key = 48 ∧ c3.beatsPerMinute < 200 then
      if c3.seqIsNull then { c3 with beatsPerMinute := c3.beatsPerMinute + 1 } else c3
    else c3
  let c5 :=
    if key = 45 ∧ c4.currentVelocity > 0 then
      { c4 with currentVelocity := c4.currentVelocity - 1 }
    else c4
  if key = 61 ∧ c5.currentVelocity < 127 then
    { c5 with currentVelocity := c5.currentVelocity + 1 }
  else c5

/-- The effect of `ofApp::keyReleased(key)` on these members: the key 96 calls
`buildSequencer` when `seq` is `NULL`, which assigns `seq = new Sequencer()`, and
`destroySequencer` otherwise, which assigns `seq = NULL`.  The other members are only
read. -/
def Controls.keyReleased (c : Controls) (key : Int) : Controls :=
  if key = 96 then
    if c.seqIsNull then { c with seqIsNull := false } else { c with seqIsNull := true }
  else c

/-- A key event delivered to the application. -/
inductive KeyEvent where
  | pressed (key : Int)
  | released (key : Int)
deriving DecidableEq, Repr

/-- The handler of one key event. -/
def Controls.step (c : Controls) : KeyEvent → Controls
  | KeyEvent.pressed key => c.keyPressed key
  | KeyEvent.released key => c.keyReleased key

/-- The handlers of a sequence of key events, in order. -/
def Controls.run (c : Controls) : List KeyEvent → Controls
  | [] => c
  | e :: es => (c.step e).run es

/-- The bounds that the key handlers keep. -/
def Controls.Bounded (c : Controls) : Prop :=
  24 ≤ c.beatsPerMinute ∧ c.beatsPerMinute ≤ 200 ∧
  1 ≤ c.beatsPerMeasure ∧ c.beatsPerMeasure ≤ 24 ∧
  0 ≤ c.currentVelocity ∧ c.currentVelocity ≤ 127 ∧ c.screenSize = 2

/-- The application with these tempo members and the given stripes. -/
def Controls.toApp {F : Type} (c : Controls) (stripes : List (LayerStripe F)) : ofApp F :=
  { beatsPerMinute := c.beatsPerMinute, beatsPerMeasure := c.beatsPerMeasure,
    screenSize := c.screenSize, stripes := stripes }

/-- Keys pressed before and after a sequencer is built: two tempo decrements, one
shorter measure and one softer velocity, then the sequencer toggle, then a tempo
decrement and a longer measure that the running sequencer blocks. -/
def sampleKeys : List KeyEvent :=
  [KeyEvent.pressed 57, KeyEvent.pressed 57, KeyEvent.pressed 40, KeyEvent.pressed 45,
   KeyEvent.released 96, KeyEvent.pressed 57, KeyEvent.pressed 41]

/-! ## Basic facts about the embedding -/

theorem scheduleNotes_eq (s : Sequencer) (channel bpd : Int) (notes : List Note) (log : List Event) :
    s.scheduleNotes channel bpd notes log =
      log ++ notes.flatMap (fun n => if noteSkipped s.msPerBeat bpd n then [] else s.dispatchNote channel bpd n) := by
  induction notes generalizing log with
  | nil => simp [Sequencer.scheduleNotes]
  | cons n rest ih =>
    by_cases h : noteSkipped s.msPerBeat bpd n = true
    · simp [Sequencer.scheduleNotes, h, ih]
    · simp [Sequencer.scheduleNotes, h, ih]

theorem noteSkipped_eq_false (m bpd : Int) (n : Note) :
    noteSkipped m bpd n = false ↔ bpd ≤ n.msOffset ∧ n.msOffset < bpd + m := by
  simp [noteSkipped]

theorem scheduleLayer_skip (s : Sequencer) (l : Layer) (log : List Event)
    (h : l.muted = true ∨ l.beatCount = 0) : s.scheduleLayer l log = (l, log) := by
  rcases h with h | h
  · simp [Sequencer.scheduleLayer, h]
  · simp [Sequencer.scheduleLayer, h]

theorem scheduleLayer_active (s : Sequencer) (l : Layer) (log : List Event)
    (hm : l.muted = false) (hc : l.beatCount ≠ 0) :
    s.scheduleLayer l log =
      ({ l with beatStart := if l.beatStart = -1 then s.globalBeatCount else l.beatStart },
        s.scheduleNotes l.channel
          (s.msPerBeat * (s.globalBeatCount -
            (if l.beatStart = -1 then s.globalBeatCount else l.beatStart)).tmod l.beatCount)
          l.notes log) := by
  by_cases hb : l.beatStart = -1
  · simp [Sequencer.scheduleLayer, hm, hc, hb]
  · cases l
    simp_all [Sequencer.scheduleLayer]

theorem scheduleLayer_log (s : Sequencer) (l : Layer) (log : List Event) :
    s.scheduleLayer l log = ((s.scheduleLayer l []).1, log ++ (s.scheduleLayer l []).2) := by
  by_cases hm : l.muted = true
  · simp [scheduleLayer_skip s l _ (Or.inl hm)]
  · by_cases hc : l.beatCount = 0
    · simp [scheduleLayer_skip s l _ (Or.inr hc)]
    · have hm1 : l.muted = false := by simpa using hm
      rw [scheduleLayer_active s l log hm1 hc, scheduleLayer_active s l [] hm1 hc]
      simp [scheduleNotes_eq]

theorem noteEvents_skip (s : Sequencer) (l : Layer) (n : Note)
    (h : l.muted = true ∨ l.beatCount = 0) : s.noteEvents l n = [] := by
  unfold Sequencer.noteEvents
  rw [scheduleLayer_skip s { l with notes := [n] } [] h]

theorem noteEvents_active (s : Sequencer) (l : Layer) (n : Note)
    (hm : l.muted = false) (hc : l.beatCount ≠ 0) :
    s.noteEvents l n =
      if noteSkipped s.msPerBeat (s.msPerBeat * (s.globalBeatCount -
            (if l.beatStart = -1 then s.globalBeatCount else l.beatStart)).tmod l.beatCount) n
      then []
      else s.dispatchNote l.channel (s.msPerBeat * (s.globalBeatCount -
            (if l.beatStart = -1 then s.globalBeatCount else l.beatStart)).tmod l.beatCount) n := by
  unfold Sequencer.noteEvents
  rw [scheduleLayer_active s { l with notes := [n] } [] hm hc]
  simp [scheduleNotes_eq]

theorem scheduleLayer_events (s : Sequencer) (l : Layer) (log : List Event) :
    (s.scheduleLayer l log).2 = log ++ l.notes.flatMap (s.noteEvents l) := by
  by_cases hm : l.muted = true
  · simp [scheduleLayer_skip s l _ (Or.inl hm), noteEvents_skip s l _ (Or.inl hm)]
  · by_cases hc : l.beatCount = 0
    · simp [scheduleLayer_skip s l _ (Or.inr hc), noteEvents_skip s l _ (Or.inr hc)]
    · have hm1 : l.muted = false := by simpa using hm
      rw [scheduleLayer_active s l log hm1 hc]
      simp only [scheduleNotes_eq]
      congr 1
      apply List.flatMap_congr
      intro n _
      rw [noteEvents_active s l n hm1 hc]

theorem dispatchNote_ne_nil (s : Sequencer) (channel bpd : Int) (n : Note) :
    s.dispatchNote channel bpd n ≠ [] := by
  simp [Sequencer.dispatchNote]

/-- The outer loop maps the loop body over the entries and concatenates what the
bodies send. -/
theorem scheduleChannels_eq (s : Sequencer) (m : ChannelMap) (log : List Event) :
    s.scheduleChannels m log =
      (m.map (fun e => (e.1, (s.scheduleLayer e.2 []).1)),
        log ++ m.flatMap (fun e => (s.scheduleLayer e.2 []).2)) := by
  induction m generalizing log with
  | nil => simp [Sequencer.scheduleChannels]
  | cons e rest ih =>
    obtain ⟨k, l⟩ := e
    simp only [Sequencer.scheduleChannels, ih, List.map_cons, List.flatMap_cons]
    rw [scheduleLayer_log s l log]
    simp

theorem find_map (f : Layer → Layer) (c : Int) (m : ChannelMap) :
    ChannelMap.find c (m.map (fun e => (e.1, f e.2))) = (ChannelMap.find c m).map f := by
  induction m with
  | nil => simp [ChannelMap.find]
  | cons e rest ih =>
    obtain ⟨k, l⟩ := e
    by_cases h : c = k
    · simp [ChannelMap.find, h]
    · simp [ChannelMap.find, h, ih]

theorem find_assign_same (c : Int) (v : Layer) (m : ChannelMap) :
    ChannelMap.find c (ChannelMap.assign c v m) = some v := by
  induction m with
  | nil => simp [ChannelMap.assign, ChannelMap.find]
  | cons e rest ih =>
    obtain ⟨k, l⟩ := e
    by_cases h1 : c < k
    · simp [ChannelMap.assign, ChannelMap.find, h1]
    · by_cases h2 : c = k
      · simp [ChannelMap.assign, ChannelMap.find, h2]
      · simp [ChannelMap.assign, ChannelMap.find, h1, h2, ih]

theorem find_assign_other (c j : Int) (v : Layer) (m : ChannelMap) (hj : j ≠ c) :
    ChannelMap.find j (ChannelMap.assign c v m) = ChannelMap.find j m := by
  induction m with
  | nil => simp [ChannelMap.assign, ChannelMap.find, hj]
  | cons e rest ih =>
    obtain ⟨k, l⟩ := e
    by_cases h1 : c < k
    · simp [ChannelMap.assign, ChannelMap.find, h1, hj]
    · by_cases h2 : c = k
      · subst h2
        simp [ChannelMap.assign, ChannelMap.find, hj]
      · by_cases h3 : j = k
        · simp [ChannelMap.assign, ChannelMap.find, h1, h2, h3]
        · simp [ChannelMap.assign, ChannelMap.find, h1, h2, h3, ih]

/-- The state a tick leaves, field by field. -/
theorem scheduleLayers_fst (s : Sequencer) :
    s.scheduleLayers.1 =
      { s with
        now := toU32 (toU32 (s.now + s.msPerBeat.tdiv 2) + s.msPerBeat.tdiv 2)
        globalBeatCount := s.globalBeatCount + 1
        channels := s.channels.map (fun e => (e.1, (s.advance.scheduleLayer e.2 []).1)) } := by
  simp [Sequencer.scheduleLayers, Sequencer.scheduleTimer, scheduleChannels_eq, Sequencer.advance]

/-- The events of a tick: what the loop body sends for each entry, in key order, then
the timer. -/
theorem scheduleLayers_snd (s : Sequencer) :
    s.scheduleLayers.2 =
      s.channels.flatMap (fun e => (s.advance.scheduleLayer e.2 []).2) ++
        [Event.timer s.mySeqID (toU32 (toU32 (s.now + s.msPerBeat.tdiv 2) + s.msPerBeat.tdiv 2))] := by
  simp [Sequencer.scheduleLayers, Sequencer.scheduleTimer, scheduleChannels_eq, Sequencer.advance]

theorem toU32_toU32_add (a b : Int) : toU32 ((toU32 a : Int) + b) = toU32 (a + b) := by
  unfold toU32
  have h : (0 : Int) ≤ a % 4294967296 := Int.emod_nonneg _ (by norm_num)
  rw [Int.toNat_of_nonneg h, Int.emod_add_emod]

/-! ## The beat window (claims C1 and C2) -/

/-- C1.  Half-open beat-window law of `Sequencer::scheduleLayers`.  In one tick, for a
layer that is not muted and has `beatCount != 0`, with `beatPos` (the remainder of the
C++ operator `%`) and `beatPosDiff` taken after the increment of the tick and after
anchoring: the events of the tick are, entry by entry and note by note, the events of
the notes, followed by the timer; a note is dispatched (note-on, note-off and handler
call sent) if and only if `beatPosDiff <= msOffset < beatPosDiff + msPerBeat`; a note at
`beatPosDiff + msPerBeat` is not dispatched; and a note at
`beatPosDiff + msPerBeat - 1` is dispatched, for every beat length `msPerBeat >= 1`,
which is what `60000 / beatsPerMinute` gives for every tempo from 1 to 60000 beats per
minute, and for every note with `0 <= msOffset` when `beatPos >= 0`. -/
theorem scheduleLayers_window_law (s : Sequencer) (current : Layer) (log : List Event)
    (hm : current.muted = false) (hc : current.beatCount ≠ 0) :
    let t := s.advance
    let beatStart := (t.scheduleLayer current log).1.beatStart
    let beatPos := (t.globalBeatCount - beatStart).tmod current.beatCount
    let beatPosDiff := t.msPerBeat * beatPos
    s.scheduleLayers.2 =
      s.channels.flatMap (fun e => e.2.notes.flatMap (t.noteEvents e.2)) ++
        [Event.timer s.scheduleLayers.1.mySeqID s.scheduleLayers.1.now] ∧
    (t.scheduleLayer current log).2 = log ++ current.notes.flatMap (t.noteEvents current) ∧
    (∀ note : Note, t.noteEvents current note ≠ [] ↔
      beatPosDiff ≤ note.msOffset ∧ note.msOffset < beatPosDiff + t.msPerBeat) ∧
    (∀ note : Note, t.noteEvents current note ≠ [] →
      ∃ d1 d2 : Nat, ∃ dist : Int, t.noteEvents current note =
        [Event.noteOn t.synthSeqID current.channel note.pitch note.velocity d1,
         Event.noteOff t.synthSeqID current.channel note.pitch d2,
         Event.handlerCall t.handler t.callData current.channel note.position note.velocity dist
           note.msDuration]) ∧
    (∀ note : Note, note.msOffset = beatPosDiff + t.msPerBeat → t.noteEvents current note = []) ∧
    (∀ note : Note, 1 ≤ t.msPerBeat → note.msOffset = beatPosDiff + t.msPerBeat - 1 →
      t.noteEvents current note ≠ []) ∧
    (∀ note : Note, 0 ≤ beatPos → 0 ≤ note.msOffset →
      note.msOffset = beatPosDiff + t.msPerBeat - 1 → t.noteEvents current note ≠ []) ∧
    (∀ beatsMinute : Int, 1 ≤ beatsMinute → beatsMinute ≤ 60000 →
      1 ≤ (60000 : Int).tdiv beatsMinute) := by
  intro t beatStart beatPos beatPosDiff
  have hbs : beatStart = if current.beatStart = -1 then t.globalBeatCount else current.beatStart := by
    simp only [beatStart]
    rw [scheduleLayer_active t current log hm hc]
  have hbpd : beatPosDiff = t.msPerBeat * (t.globalBeatCount -
      (if current.beatStart = -1 then t.globalBeatCount else current.beatStart)).tmod
        current.beatCount := by
    simp only [beatPosDiff, beatPos, hbs]
  have hiff : ∀ note : Note, t.noteEvents current note ≠ [] ↔
      beatPosDiff ≤ note.msOffset ∧ note.msOffset < beatPosDiff + t.msPerBeat := by
    intro note
    rw [noteEvents_active t current note hm hc, ← hbpd, ← noteSkipped_eq_false]
    by_cases hs : noteSkipped t.msPerBeat beatPosDiff note = true
    · simp [hs]
    · simp [hs, dispatchNote_ne_nil]
  refine ⟨?_, scheduleLayer_events t current log, hiff, ?_, ?_, ?_, ?_, ?_⟩
  · rw [scheduleLayers_snd, scheduleLayers_fst]
    simp [scheduleLayer_events, t]
  · intro note hne
    rw [noteEvents_active t current note hm hc] at hne ⊢
    by_cases hs : noteSkipped t.msPerBeat (t.msPerBeat * (t.globalBeatCount -
      (if current.beatStart = -1 then t.globalBeatCount else current.beatStart)).tmod
        current.beatCount) note = true
    · simp [hs] at hne
    · simp only [hs]
      exact ⟨_, _, _, rfl⟩
  · intro note hn
    by_contra hne
    have := (hiff note).1 hne
    omega
  · intro note h1 hn
    apply (hiff note).2
    omega
  · intro note hpos h0 hn
    apply (hiff note).2
    have hmp : 1 ≤ t.msPerBeat := by
      by_contra hlt
      have hle : t.msPerBeat ≤ 0 := by omega
      have hbp : beatPosDiff ≤ 0 := mul_nonpos_of_nonpos_of_nonneg hle hpos
      omega
    omega
  · intro beatsMinute h1 h2
    rw [Int.tdiv_eq_ediv (by norm_num) (by omega)]
    exact (Int.le_ediv_iff_mul_le (by omega)).2 (by omega)

/-- C1, witness: at 120 beats per minute the window of the tick that anchors a layer is
`[0, 500)`.  For the metronome layer a note at offset 499 is dispatched and a note at
offset 500 is not; the tick after the boundary layer is written returns the three
events of its note at offset 499 (key 60), nothing for its note at offset 500 (key 61),
and the timer. -/
theorem scheduleLayers_window_law_witness :
    metronome.muted = false ∧ metronome.beatCount ≠ 0 ∧
    (runningState.advance.noteEvents metronome ⟨60, 127, 499, 250, 0⟩ ≠ [] ∧
      runningState.advance.noteEvents metronome ⟨60, 127, 500, 250, 0⟩ = []) ∧
    boundaryWritten.scheduleLayers.2 =
      [Event.noteOn 10 3 60 127 2249, Event.noteOff 10 3 60 2499,
       Event.handlerCall 7 8 3 0 127 749 250, Event.timer 11 2000] := by
  have h := scheduleLayers_window_law runningState metronome [] (by decide) (by decide)
  refine ⟨by decide, by decide, ⟨?_, ?_⟩, by decide⟩
  · exact h.2.2.2.2.2.1 ⟨60, 127, 499, 250, 0⟩ (by decide) (by decide)
  · exact h.2.2.2.2.1 ⟨60, 127, 500, 250, 0⟩ (by decide)

/-- C2.  What a tick sends for a note.  With `now` the value after the first half-beat
advance of the tick, and `beatPosDiff` the offset of the layer in this tick, a note is
dispatched exactly when its layer is not muted, has `beatCount != 0` and the note is
inside the beat window.  Every dispatched note produces exactly a note-on at
`T = now + msOffset - beatPosDiff`, a note-off at `T + msDuration` (dates are
`unsigned int`, hence modulo `2^32`) and one handler call with `(callData, channel,
position, velocity, msOffset - beatPosDiff + msPerBeat / 2, msDuration)`, in this order;
every other note produces nothing; and the events of the whole tick are the events of
the notes, layer by layer in key order and note by note in note order, followed by the
timer, so the three events of a note precede those of the next note. -/
theorem dispatched_note_events (s : Sequencer) :
    let t := s.advance
    let beatPosDiff := fun l : Layer =>
      t.msPerBeat * (t.globalBeatCount - (t.scheduleLayer l []).1.beatStart).tmod l.beatCount
    let noteOnDate := fun (l : Layer) (note : Note) =>
      toU32 (t.now + note.msOffset - beatPosDiff l)
    let dispatched := fun (l : Layer) (note : Note) =>
      [Event.noteOn s.synthSeqID l.channel note.pitch note.velocity (noteOnDate l note),
       Event.noteOff s.synthSeqID l.channel note.pitch (toU32 (noteOnDate l note + note.msDuration)),
       Event.handlerCall s.handler s.callData l.channel note.position note.velocity
         (note.msOffset - beatPosDiff l + s.msPerBeat.tdiv 2) note.msDuration]
    let due := fun (l : Layer) (note : Note) =>
      l.muted = false ∧ l.beatCount ≠ 0 ∧
        beatPosDiff l ≤ note.msOffset ∧ note.msOffset < beatPosDiff l + s.msPerBeat
    t.now = toU32 (s.now + s.msPerBeat.tdiv 2) ∧
    (∀ (l : Layer) (note : Note),
      t.noteEvents l note = if due l note then dispatched l note else []) ∧
    (∀ (l : Layer) (log : List Event), (t.scheduleLayer l log).2 =
      log ++ l.notes.flatMap (fun note => if due l note then dispatched l note else [])) ∧
    s.scheduleLayers.2 =
      s.channels.flatMap (fun e =>
        e.2.notes.flatMap (fun note => if due e.2 note then dispatched e.2 note else [])) ++
      [Event.timer s.mySeqID (toU32 (t.now + s.msPerBeat.tdiv 2))] := by
  intro t beatPosDiff noteOnDate dispatched due
  have hev : ∀ (l : Layer) (note : Note),
      t.noteEvents l note = if due l note then dispatched l note else [] := by
    intro l note
    by_cases hm : l.muted = true
    · have hd : ¬ due l note := fun hd => by simp [hd.1] at hm
      rw [noteEvents_skip t l note (Or.inl hm), if_neg hd]
    · by_cases hc : l.beatCount = 0
      · have hd : ¬ due l note := fun hd => hd.2.1 hc
        rw [noteEvents_skip t l note (Or.inr hc), if_neg hd]
      · have hm1 : l.muted = false := by simpa using hm
        have hbpd : beatPosDiff l = t.msPerBeat * (t.globalBeatCount -
            (if l.beatStart = -1 then t.globalBeatCount else l.beatStart)).tmod l.beatCount := by
          simp only [beatPosDiff]
          rw [scheduleLayer_active t l [] hm1 hc]
        have hdisp : t.dispatchNote l.channel (beatPosDiff l) note = dispatched l note := by
          simp only [Sequencer.dispatchNote, Sequencer.sendNoteOn, Sequencer.sendNoteOff,
            dispatched, noteOnDate, toU32_toU32_add]
          rfl
        rw [noteEvents_active t l note hm1 hc, ← hbpd, hdisp]
        by_cases hs : noteSkipped t.msPerBeat (beatPosDiff l) note = true
        · have hd : ¬ due l note := by
            intro hd
            have := (noteSkipped_eq_false t.msPerBeat (beatPosDiff l) note).2 hd.2.2
            simp [hs] at this
          rw [if_pos hs, if_neg hd]
        · have hw := (noteSkipped_eq_false t.msPerBeat (beatPosDiff l) note).1 (by simpa using hs)
          have hd : due l note := ⟨hm1, hc, hw⟩
          rw [if_neg hs, if_pos hd]
  have hlayer : ∀ (l : Layer) (log : List Event), (t.scheduleLayer l log).2 =
      log ++ l.notes.flatMap (fun note => if due l note then dispatched l note else []) := by
    intro l log
    rw [scheduleLayer_events t l log]
    congr 1
    apply List.flatMap_congr
    intro note _
    exact hev l note
  refine ⟨rfl, hev, hlayer, ?_⟩
  rw [scheduleLayers_snd]
  congr 1
  apply List.flatMap_congr
  intro e _
  rw [hlayer e.2 [], List.nil_append]

/-- C2, witness: the first tick after the metronome is written at 120 beats per minute
sends the down-beat note at date `1750 = 1500 + 250`, its note-off at `2000`, calls the
handler with lead time 250, and arms the timer at `2000`. -/
theorem dispatched_note_events_witness :
    metronomeWritten.scheduleLayers.2 =
      [Event.noteOn 10 2 70 127 1750, Event.noteOff 10 2 70 2000,
       Event.handlerCall 7 8 2 0 127 250 250, Event.timer 11 2000] := by
  have h := dispatched_note_events metronomeWritten
  rw [h.2.2.2]
  decide

/-! ## Effects of the calls on the state -/

theorem writeLayer_fst (s : Sequencer) (c : Int) (layer : Layer) :
    (s.writeLayer c layer).1 = { s with channels := ChannelMap.assign c layer s.channels } := rfl

theorem toggle_absent (s : Sequencer) (c : Int) (h : ChannelMap.find c s.channels = none) :
    s.toggleLayerIfExists c = (s, []) := by
  simp [Sequencer.toggleLayerIfExists, ChannelMap.count, h]

theorem toggle_present (s : Sequencer) (c : Int) (l : Layer)
    (h : ChannelMap.find c s.channels = some l) :
    s.toggleLayerIfExists c =
      ({ s with channels := (ChannelMap.assign c { l with muted := !l.muted, beatStart := if l.muted = false then -1 else s.globalBeatCount } s.channels) },
        [Event.allNotesOff c]) := by
  cases hmu : l.muted <;> simp [Sequencer.toggleLayerIfExists, ChannelMap.count, h, hmu]

theorem toggle_find_other (s : Sequencer) (c j : Int) (hj : j ≠ c) :
    ChannelMap.find j (s.toggleLayerIfExists c).1.channels = ChannelMap.find j s.channels := by
  cases h : ChannelMap.find c s.channels with
  | none => rw [toggle_absent s c h]
  | some l =>
    rw [toggle_present s c l h]
    exact find_assign_other c j _ _ hj

theorem toggle_globalBeatCount (s : Sequencer) (c : Int) :
    (s.toggleLayerIfExists c).1.globalBeatCount = s.globalBeatCount := by
  cases h : ChannelMap.find c s.channels with
  | none => rw [toggle_absent s c h]
  | some l => rw [toggle_present s c l h]

theorem toggle_msPerBeat (s : Sequencer) (c : Int) :
    (s.toggleLayerIfExists c).1.msPerBeat = s.msPerBeat := by
  cases h : ChannelMap.find c s.channels with
  | none => rw [toggle_absent s c h]
  | some l => rw [toggle_present s c l h]

theorem tick_find (s : Sequencer) (c : Int) :
    ChannelMap.find c s.scheduleLayers.1.channels =
      (ChannelMap.find c s.channels).map (fun l => (s.advance.scheduleLayer l []).1) := by
  rw [scheduleLayers_fst]
  exact find_map (fun l => (s.advance.scheduleLayer l []).1) c s.channels

theorem tick_globalBeatCount (s : Sequencer) :
    s.scheduleLayers.1.globalBeatCount = s.globalBeatCount + 1 := by
  rw [scheduleLayers_fst]

theorem tick_msPerBeat (s : Sequencer) : s.scheduleLayers.1.msPerBeat = s.msPerBeat := by
  rw [scheduleLayers_fst]

theorem step_msPerBeat (s : Sequencer) (op : Op) : (s.step op).1.msPerBeat = s.msPerBeat := by
  cases op with
  | tick => exact tick_msPerBeat s
  | write c l => rfl
  | toggle c => exact toggle_msPerBeat s c

theorem step_globalBeatCount (s : Sequencer) (op : Op) :
    (s.step op).1.globalBeatCount = s.globalBeatCount + (tickCount [op] : Int) := by
  cases op with
  | tick => simpa [tickCount] using tick_globalBeatCount s
  | write c l => simp [tickCount, Sequencer.step, writeLayer_fst]
  | toggle c => simpa [tickCount] using toggle_globalBeatCount s c

theorem step_find_untouched (s : Sequencer) (op : Op) (c : Int) (h : op.touches c = false)
    (hop : op ≠ Op.tick) :
    ChannelMap.find c (s.step op).1.channels = ChannelMap.find c s.channels := by
  cases op with
  | tick => exact absurd rfl hop
  | write c1 l =>
    have hne : c ≠ c1 := by
      intro hc
      simp [Op.touches, hc] at h
    exact find_assign_other c1 c l s.channels hne
  | toggle c1 =>
    have hne : c ≠ c1 := by
      intro hc
      simp [Op.touches, hc] at h
    exact toggle_find_other s c1 c hne

/-- In a running sequencer the beat count is never negative. -/
theorem running_globalBeatCount_nonneg (s : Sequencer) (h : Running s) : 0 ≤ s.globalBeatCount := by
  induction h with
  | init s0 env synth bpm call data s ev h =>
    unfold Sequencer.init at h
    split_ifs at h
    · simp at h
    · simp at h
    · simp only [Option.some.injEq, Prod.mk.injEq] at h
      rw [← h.2.1, tick_globalBeatCount]
      simp
  | step s op _ ih =>
    rw [step_globalBeatCount]
    have : (0 : Int) ≤ (tickCount [op] : Int) := Int.natCast_nonneg _
    omega

/-! ## Loops that no call touches -/

theorem step_tick (s : Sequencer) : (s.step Op.tick).1 = s.scheduleLayers.1 := rfl

theorem step_tick_events (s : Sequencer) : (s.step Op.tick).2 = s.scheduleLayers.2 := rfl

/-- The entry `find` returns is the first entry of the map with that key. -/
theorem find_split_before (c : Int) (l : Layer) (m : ChannelMap)
    (h : ChannelMap.find c m = some l) :
    ∃ m1 m2 : ChannelMap, m = m1 ++ (c, l) :: m2 ∧ ∀ e ∈ m1, e.1 ≠ c := by
  induction m with
  | nil => simp [ChannelMap.find] at h
  | cons e rest ih =>
    obtain ⟨k, v⟩ := e
    by_cases hk : c = k
    · simp only [ChannelMap.find, hk, if_true, Option.some.injEq] at h
      exact ⟨[], rest, by simp [hk, h], by simp⟩
    · simp only [ChannelMap.find, hk, if_false] at h
      obtain ⟨m1, m2, hm, hkeys⟩ := ih h
      refine ⟨(k, v) :: m1, m2, by simp [hm], ?_⟩
      intro e he
      rcases List.mem_cons.1 he with he1 | he1
      · rw [he1]
        exact fun hkc => hk hkc.symm
      · exact hkeys e he1

/-- The events a tick returns, split at the layer stored under a key: the events of the
entries before it, those of the layer, those of the entries after it, and the timer. -/
theorem tick_events_at_layer (u : Sequencer) (c : Int) (lj : Layer)
    (hf : ChannelMap.find c u.channels = some lj) :
    ∃ m1 m2 : ChannelMap, u.channels = m1 ++ (c, lj) :: m2 ∧ (∀ e ∈ m1, e.1 ≠ c) ∧
      (u.step Op.tick).2 =
        m1.flatMap (fun e => e.2.notes.flatMap (u.advance.noteEvents e.2)) ++
        lj.notes.flatMap (u.advance.noteEvents lj) ++
        m2.flatMap (fun e => e.2.notes.flatMap (u.advance.noteEvents e.2)) ++
        [Event.timer u.mySeqID (u.step Op.tick).1.now] := by
  obtain ⟨m1, m2, hm, hkeys⟩ := find_split_before c lj u.channels hf
  refine ⟨m1, m2, hm, hkeys, ?_⟩
  rw [step_tick_events, step_tick, scheduleLayers_snd, scheduleLayers_fst, hm]
  simp [scheduleLayer_events]

/-- The events a tick returns, split at one note of the layer stored under a key. -/
theorem tick_events_at_note (u : Sequencer) (c : Int) (lj : Layer) (n1 n2 : List Note)
    (note : Note) (hf : ChannelMap.find c u.channels = some lj)
    (hn : lj.notes = n1 ++ note :: n2) :
    ∃ m1 m2 : ChannelMap, u.channels = m1 ++ (c, lj) :: m2 ∧ (∀ e ∈ m1, e.1 ≠ c) ∧
      (u.step Op.tick).2 =
        m1.flatMap (fun e => e.2.notes.flatMap (u.advance.noteEvents e.2)) ++
        n1.flatMap (u.advance.noteEvents lj) ++ u.advance.noteEvents lj note ++
        n2.flatMap (u.advance.noteEvents lj) ++
        m2.flatMap (fun e => e.2.notes.flatMap (u.advance.noteEvents e.2)) ++
        [Event.timer u.mySeqID (u.step Op.tick).1.now] := by
  obtain ⟨m1, m2, hm, hkeys, hev⟩ := tick_events_at_layer u c lj hf
  refine ⟨m1, m2, hm, hkeys, ?_⟩
  rw [hev, hn]
  simp

theorem toU32_idem (a : Int) : toU32 ((toU32 a : Nat) : Int) = toU32 a := by
  have h := toU32_toU32_add a 0
  simpa using h

/-- The layer of an untouched, active loop after `j` ticks: still as written before
the first tick, anchored at the beat of the first tick afterwards. -/
theorem run_loop_invariant (c : Int) (l : Layer) (g : Int)
    (hm : l.muted = false) (hk : l.beatCount ≠ 0) (hb : l.beatStart = -1) (hg : 0 ≤ g)
    (ops : List Op) :
    ∀ (s : Sequencer) (j : Nat), (∀ op ∈ ops, Op.touches c op = false) →
      ChannelMap.find c s.channels = some (if j = 0 then l else { l with beatStart := g + 1 }) →
      s.globalBeatCount = g + j →
      ChannelMap.find c (s.run ops).channels =
          some (if j + tickCount ops = 0 then l else { l with beatStart := g + 1 }) ∧
        (s.run ops).globalBeatCount = g + ((j + tickCount ops : Nat) : Int) ∧
        (s.run ops).msPerBeat = s.msPerBeat := by
  induction ops with
  | nil =>
    intro s j _ hf hgc
    simp [Sequencer.run, tickCount, hf, hgc]
  | cons op ops ih =>
    intro s j hops hf hgc
    have hops1 : ∀ op1 ∈ ops, Op.touches c op1 = false := fun op1 h1 =>
      hops op1 (List.mem_cons_of_mem _ h1)
    have hop : Op.touches c op = false := hops op (List.mem_cons_self _ _)
    by_cases htick : op = Op.tick
    · subst htick
      have hf1 : ChannelMap.find c (s.step Op.tick).1.channels =
          some (if j + 1 = 0 then l else { l with beatStart := g + 1 }) := by
        rw [step_tick, tick_find, hf]
        by_cases hj : j = 0
        · subst hj
          simp only [if_true, Option.map_some']
          rw [scheduleLayer_active _ l [] hm hk]
          simp [hb, Sequencer.advance, hgc]
        · simp only [hj, if_false, Option.map_some']
          rw [scheduleLayer_active s.advance { l with beatStart := g + 1 } [] hm hk]
          have hne : g + 1 ≠ -1 := by omega
          simp [hne]
      have hgc1 : (s.step Op.tick).1.globalBeatCount = g + ((j + 1 : Nat) : Int) := by
        rw [step_tick, tick_globalBeatCount, hgc]
        push_cast
        ring
      have h := ih (s.step Op.tick).1 (j + 1) hops1 hf1 hgc1
      have hcount : j + tickCount (Op.tick :: ops) = j + 1 + tickCount ops := by
        simp [tickCount]
        omega
      rw [hcount]
      refine ⟨h.1, h.2.1, ?_⟩
      rw [show Sequencer.run s (Op.tick :: ops) = Sequencer.run (s.step Op.tick).1 ops from rfl,
        h.2.2, step_msPerBeat]
    · have hf1 : ChannelMap.find c (s.step op).1.channels =
          some (if j = 0 then l else { l with beatStart := g + 1 }) := by
        rw [step_find_untouched s op c hop htick, hf]
      have hcnt : tickCount (op :: ops) = tickCount ops := by
        cases op with
        | tick => exact absurd rfl htick
        | write c1 l1 => rfl
        | toggle c1 => rfl
      have hcnt1 : tickCount [op] = 0 := by
        cases op with
        | tick => exact absurd rfl htick
        | write c1 l1 => rfl
        | toggle c1 => rfl
      have hgc1 : (s.step op).1.globalBeatCount = g + (j : Int) := by
        rw [step_globalBeatCount, hcnt1, hgc]
        simp
      have h := ih (s.step op).1 j hops1 hf1 hgc1
      rw [hcnt]
      refine ⟨h.1, h.2.1, ?_⟩
      rw [show Sequencer.run s (op :: ops) = Sequencer.run (s.step op).1 ops from rfl,
        h.2.2, step_msPerBeat]

/-- Whether the next tick dispatches a note at offset 0 of an active loop that has
seen `j` ticks. -/
theorem tickDispatches_loop (s : Sequencer) (c : Int) (l : Layer) (g : Int) (j : Nat) (note : Note)
    (hm : l.muted = false) (hk : 0 < l.beatCount) (hb : l.beatStart = -1) (hg : 0 ≤ g)
    (hmpb : 0 < s.msPerBeat) (hoff : note.msOffset = 0)
    (hf : ChannelMap.find c s.channels = some (if j = 0 then l else { l with beatStart := g + 1 }))
    (hgc : s.globalBeatCount = g + j) :
    s.tickDispatches c note = true ↔ (j : Int) % l.beatCount = 0 := by
  have hk0 : l.beatCount ≠ 0 := by omega
  unfold Sequencer.tickDispatches
  rw [hf]
  simp only [decide_eq_true_eq]
  by_cases hj : j = 0
  · subst hj
    simp only [if_true]
    rw [noteEvents_active _ l note hm hk0]
    have hs : noteSkipped s.advance.msPerBeat (s.advance.msPerBeat * (s.advance.globalBeatCount -
        (if l.beatStart = -1 then s.advance.globalBeatCount else l.beatStart)).tmod l.beatCount)
        note = false := by
      rw [noteSkipped_eq_false]
      simp [hb, hoff, Sequencer.advance, hmpb]
    simp [hs, dispatchNote_ne_nil]
  · simp only [hj, if_false]
    rw [noteEvents_active s.advance { l with beatStart := g + 1 } note hm hk0]
    have hne : g + 1 ≠ -1 := by omega
    have hdiff : s.advance.globalBeatCount - (g + 1) = (j : Int) := by
      simp [Sequencer.advance, hgc]
    have hjn : (0 : Int) ≤ (j : Int) := Int.natCast_nonneg _
    simp only [hne, if_false, hdiff, Int.tmod_eq_emod hjn (le_of_lt hk)]
    have hr : 0 ≤ (j : Int) % l.beatCount := Int.emod_nonneg _ hk0
    have hmp : s.advance.msPerBeat = s.msPerBeat := rfl
    by_cases hz : (j : Int) % l.beatCount = 0
    · have hs : noteSkipped s.advance.msPerBeat (s.advance.msPerBeat * ((j : Int) % l.beatCount))
          note = false := by
        rw [noteSkipped_eq_false, hz, hoff, hmp]
        simp [hmpb]
      simp only [hs]
      simp [dispatchNote_ne_nil, hz]
    · have hpos : 0 < s.msPerBeat * ((j : Int) % l.beatCount) :=
        mul_pos hmpb (lt_of_le_of_ne hr (Ne.symm hz))
      have hs : noteSkipped s.advance.msPerBeat (s.advance.msPerBeat * ((j : Int) % l.beatCount))
          note = true := by
        cases hsk : noteSkipped s.advance.msPerBeat
            (s.advance.msPerBeat * ((j : Int) % l.beatCount)) note with
        | true => rfl
        | false =>
          rw [noteSkipped_eq_false, hoff, hmp] at hsk
          omega
      simp only [hs]
      simp [hz]

/-! ## Anchoring, muting and writing (claims C4 to C8) -/

/-- The layer the loop body leaves: anchored when it is active and unanchored, as it
was otherwise. -/
theorem scheduleLayer_fst_eq (t : Sequencer) (l : Layer) :
    (t.scheduleLayer l []).1 =
      (if l.muted = false ∧ l.beatCount ≠ 0 ∧ l.beatStart = -1
       then { l with beatStart := t.globalBeatCount } else l) := by
  by_cases hcond : l.muted = false ∧ l.beatCount ≠ 0 ∧ l.beatStart = -1
  · rw [if_pos hcond, scheduleLayer_active _ l [] hcond.1 hcond.2.1]
    simp [hcond.2.2]
  · rw [if_neg hcond]
    by_cases hm : l.muted = true
    · rw [scheduleLayer_skip _ l [] (Or.inl hm)]
    · by_cases hc : l.beatCount = 0
      · rw [scheduleLayer_skip _ l [] (Or.inr hc)]
      · have hm1 : l.muted = false := by simpa using hm
        have hb : l.beatStart ≠ -1 := fun hb => hcond ⟨hm1, hc, hb⟩
        rw [scheduleLayer_active _ l [] hm1 hc]
        simp [hb]

/-- The loop body reads the tempo, the beat count, the clock and the handler of the
sequencer, not its channel map. -/
theorem noteEvents_channels (s : Sequencer) (m : ChannelMap) (l : Layer) (note : Note) :
    ({ s with channels := m } : Sequencer).advance.noteEvents l note =
      s.advance.noteEvents l note := by
  by_cases hm : l.muted = true
  · rw [noteEvents_skip _ l note (Or.inl hm), noteEvents_skip _ l note (Or.inl hm)]
  · by_cases hc : l.beatCount = 0
    · rw [noteEvents_skip _ l note (Or.inr hc), noteEvents_skip _ l note (Or.inr hc)]
    · have hm1 : l.muted = false := by simpa using hm
      rw [noteEvents_active _ l note hm1 hc, noteEvents_active _ l note hm1 hc]
      rfl

theorem noteEvents_channels_fun (s : Sequencer) (m : ChannelMap) (l : Layer) :
    ({ s with channels := m } : Sequencer).advance.noteEvents l = s.advance.noteEvents l :=
  funext (fun note => noteEvents_channels s m l note)

/-- C4.  First-activation anchoring in `Sequencer::scheduleLayers`.  For the layer `l`
stored under a channel, a tick leaves the layer with `beatStart` set to the incremented
`globalBeatCount` exactly when the layer is not muted, has `beatCount != 0` and has
`beatStart == -1`, and leaves the layer as it was otherwise.  In the anchoring tick
`beatPos` is 0 and the window is `[0, msPerBeat)`: the events the tick returns are those
of the entries before the layer, then, note by note, the three events of every note of
the layer with `0 <= msOffset < msPerBeat` and nothing for its other notes, then those
of the entries after it and the timer.  A layer that is muted or has `beatCount == 0` is
skipped: the loop body returns it unchanged, and the events the tick returns are those
of the other entries and the timer, exactly what the tick returns when the layer is not
in the map.  A layer with `beatStart != -1` keeps its `beatStart`. -/
theorem first_activation_anchoring (s : Sequencer) (c : Int) (l : Layer) (log : List Event)
    (hfind : ChannelMap.find c s.channels = some l) :
    let t := s.advance
    t.globalBeatCount = s.globalBeatCount + 1 ∧
    ChannelMap.find c s.scheduleLayers.1.channels =
      some (if l.muted = false ∧ l.beatCount ≠ 0 ∧ l.beatStart = -1
            then { l with beatStart := t.globalBeatCount } else l) ∧
    (l.muted = false → l.beatCount ≠ 0 → l.beatStart = -1 →
      (t.scheduleLayer l log).1 = { l with beatStart := t.globalBeatCount } ∧
      (t.globalBeatCount - (t.scheduleLayer l log).1.beatStart).tmod l.beatCount = 0 ∧
      (∀ note : Note, t.noteEvents l note ≠ [] ↔ 0 ≤ note.msOffset ∧ note.msOffset < t.msPerBeat) ∧
      ∃ m1 m2 : ChannelMap, s.channels = m1 ++ (c, l) :: m2 ∧ (∀ e ∈ m1, e.1 ≠ c) ∧
        (s.step Op.tick).2 =
          m1.flatMap (fun e => e.2.notes.flatMap (t.noteEvents e.2)) ++
          l.notes.flatMap (fun note =>
            if 0 ≤ note.msOffset ∧ note.msOffset < s.msPerBeat then
              [Event.noteOn s.synthSeqID l.channel note.pitch note.velocity
                 (toU32 (t.now + note.msOffset)),
               Event.noteOff s.synthSeqID l.channel note.pitch
                 (toU32 (t.now + note.msOffset + note.msDuration)),
               Event.handlerCall s.handler s.callData l.channel note.position note.velocity
                 (note.msOffset + s.msPerBeat.tdiv 2) note.msDuration]
            else []) ++
          m2.flatMap (fun e => e.2.notes.flatMap (t.noteEvents e.2)) ++
          [Event.timer s.mySeqID (s.step Op.tick).1.now]) ∧
    (l.muted = true ∨ l.beatCount = 0 →
      t.scheduleLayer l log = (l, log) ∧ (∀ note : Note, t.noteEvents l note = []) ∧
      ∃ m1 m2 : ChannelMap, s.channels = m1 ++ (c, l) :: m2 ∧ (∀ e ∈ m1, e.1 ≠ c) ∧
        (s.step Op.tick).2 =
          m1.flatMap (fun e => e.2.notes.flatMap (t.noteEvents e.2)) ++
          m2.flatMap (fun e => e.2.notes.flatMap (t.noteEvents e.2)) ++
          [Event.timer s.mySeqID (s.step Op.tick).1.now] ∧
        (s.step Op.tick).2 = (({ s with channels := m1 ++ m2 } : Sequencer).step Op.tick).2) ∧
    (l.beatStart ≠ -1 → (t.scheduleLayer l log).1 = l) := by
  intro t
  have hskip : l.muted = true ∨ l.beatCount = 0 → t.scheduleLayer l log = (l, log) :=
    fun h => scheduleLayer_skip t l log h
  have hkeep : l.beatStart ≠ -1 → (t.scheduleLayer l log).1 = l := by
    intro hb
    by_cases hm : l.muted = true
    · rw [hskip (Or.inl hm)]
    · by_cases hc : l.beatCount = 0
      · rw [hskip (Or.inr hc)]
      · rw [scheduleLayer_active t l log (by simpa using hm) hc]
        simp [hb]
  have hanchor : l.muted = false → l.beatCount ≠ 0 → l.beatStart = -1 →
      (t.scheduleLayer l log).1 = { l with beatStart := t.globalBeatCount } := by
    intro hm hc hb
    rw [scheduleLayer_active t l log hm hc]
    simp [hb]
  obtain ⟨m1, m2, hsplit, hkeys, hev⟩ := tick_events_at_layer s c l hfind
  refine ⟨rfl, ?_, ?_, ?_, hkeep⟩
  · rw [tick_find, hfind, Option.map_some']
    by_cases hcond : l.muted = false ∧ l.beatCount ≠ 0 ∧ l.beatStart = -1
    · rw [if_pos hcond, scheduleLayer_active _ l [] hcond.1 hcond.2.1]
      simp [hcond.2.2, t]
    · rw [if_neg hcond]
      by_cases hm : l.muted = true
      · rw [scheduleLayer_skip _ l [] (Or.inl hm)]
      · by_cases hc : l.beatCount = 0
        · rw [scheduleLayer_skip _ l [] (Or.inr hc)]
        · have hm1 : l.muted = false := by simpa using hm
          have hb : l.beatStart ≠ -1 := fun hb => hcond ⟨hm1, hc, hb⟩
          rw [scheduleLayer_active _ l [] hm1 hc]
          simp [hb]
  · intro hm hc hb
    have hnote : ∀ note : Note, t.noteEvents l note =
        if noteSkipped t.msPerBeat 0 note then [] else t.dispatchNote l.channel 0 note := by
      intro note
      rw [noteEvents_active t l note hm hc]
      simp only [hb, if_true, sub_self, Int.zero_tmod, mul_zero]
    refine ⟨hanchor hm hc hb, ?_, ?_, m1, m2, hsplit, hkeys, ?_⟩
    · rw [hanchor hm hc hb]
      simp
    · intro note
      rw [hnote note]
      by_cases hs : noteSkipped t.msPerBeat 0 note = true
      · have hw : ¬ (0 ≤ note.msOffset ∧ note.msOffset < t.msPerBeat) := by
          intro hw
          have := (noteSkipped_eq_false t.msPerBeat 0 note).2 (by simpa using hw)
          simp [hs] at this
        simp [hs, hw]
      · have hw := (noteSkipped_eq_false t.msPerBeat 0 note).1 (by simpa using hs)
        simp only [hs]
        simpa [dispatchNote_ne_nil] using hw
    · rw [hev]
      congr 3
      apply List.flatMap_congr
      intro note _
      rw [hnote note]
      by_cases hs : noteSkipped t.msPerBeat 0 note = true
      · have hw : ¬ (0 ≤ note.msOffset ∧ note.msOffset < s.msPerBeat) := by
          intro hw
          have := (noteSkipped_eq_false t.msPerBeat 0 note).2 (by simpa using hw)
          simp [hs] at this
        rw [if_pos hs, if_neg hw]
      · have hw := (noteSkipped_eq_false t.msPerBeat 0 note).1 (by simpa using hs)
        have hw1 : 0 ≤ note.msOffset ∧ note.msOffset < s.msPerBeat := by simpa using hw
        rw [if_neg hs, if_pos hw1]
        simp [Sequencer.dispatchNote, Sequencer.sendNoteOn, Sequencer.sendNoteOff, t,
          Sequencer.advance]
  · intro h
    have hnil : l.notes.flatMap (t.noteEvents l) = [] := by
      rw [List.flatMap_eq_nil_iff]
      intro note _
      exact noteEvents_skip t l note h
    have hev1 : (s.step Op.tick).2 =
        m1.flatMap (fun e => e.2.notes.flatMap (t.noteEvents e.2)) ++
        m2.flatMap (fun e => e.2.notes.flatMap (t.noteEvents e.2)) ++
        [Event.timer s.mySeqID (s.step Op.tick).1.now] := by
      rw [hev, hnil, List.append_nil]
    refine ⟨hskip h, fun note => noteEvents_skip t l note h, m1, m2, hsplit, hkeys, hev1, ?_⟩
    rw [hev1, step_tick_events, step_tick, scheduleLayers_snd, scheduleLayers_fst]
    simp only [scheduleLayer_events, List.nil_append, noteEvents_channels_fun,
      List.flatMap_append, t]

/-- C4, witness: the first tick after the metronome is written anchors it at beat 1 and
sends the three events of its down-beat note, the only note in `[0, 500)`; the tick on
the sequencer that also holds a muted layer under channel 5 leaves that layer as it was
and returns the events of the metronome and the timer alone. -/
theorem first_activation_anchoring_witness :
    ChannelMap.find 2 metronomeWritten.channels = some metronome ∧
    ChannelMap.find 2 metronomeWritten.scheduleLayers.1.channels =
      some { metronome with beatStart := 1 } ∧
    (metronomeWritten.step Op.tick).2 =
      [Event.noteOn 10 2 70 127 1750, Event.noteOff 10 2 70 2000,
       Event.handlerCall 7 8 2 0 127 250 250, Event.timer 11 2000] ∧
    ChannelMap.find 5 twoLayers.scheduleLayers.1.channels = ChannelMap.find 5 twoLayers.channels ∧
    (twoLayers.step Op.tick).2 =
      [Event.noteOn 10 2 70 127 1750, Event.noteOff 10 2 70 2000,
       Event.handlerCall 7 8 2 0 127 250 250, Event.timer 11 2000] := by
  have h := first_activation_anchoring metronomeWritten 2 metronome [] (by decide)
  refine ⟨by decide, ?_, by decide, by decide, by decide⟩
  rw [h.2.1]
  decide

/-- C5.  `Sequencer::toggleLayerIfExists` on a channel whose layer is not muted: the
layer becomes muted with `beatStart = -1`, its notes, `beatCount` and `channel` are
kept, exactly one `allNotesOff` for that channel is sent, every other channel keeps its
layer, and no other member of the sequencer changes. -/
theorem toggle_mutes_active_layer (s : Sequencer) (c : Int) (l : Layer)
    (hfind : ChannelMap.find c s.channels = some l) (hm : l.muted = false) :
    (s.toggleLayerIfExists c).2 = [Event.allNotesOff c] ∧
    ChannelMap.find c (s.toggleLayerIfExists c).1.channels =
      some { notes := l.notes, beatStart := -1, beatCount := l.beatCount, muted := true,
             channel := l.channel } ∧
    (∀ j : Int, j ≠ c →
      ChannelMap.find j (s.toggleLayerIfExists c).1.channels = ChannelMap.find j s.channels) ∧
    (s.toggleLayerIfExists c).1 = { s with channels := (s.toggleLayerIfExists c).1.channels } := by
  refine ⟨?_, ?_, fun j hj => toggle_find_other s c j hj, ?_⟩
  · rw [toggle_present s c l hfind]
  · rw [toggle_present s c l hfind]
    simp only [find_assign_same, hm]
    simp
  · rw [toggle_present s c l hfind]

/-- C5, witness: muting the metronome of `twoLayers`. -/
theorem toggle_mutes_active_layer_witness :
    ChannelMap.find 2 twoLayers.channels = some metronome ∧ metronome.muted = false ∧
    (twoLayers.toggleLayerIfExists 2).2 = [Event.allNotesOff 2] :=
  ⟨by decide, by decide, (toggle_mutes_active_layer twoLayers 2 metronome (by decide) (by decide)).1⟩

/-- A muted layer is left alone by every call that neither writes nor toggles its
channel. -/
theorem run_muted_invariant (c : Int) (l : Layer) (hm : l.muted = true) (ops : List Op) :
    ∀ s : Sequencer, (∀ op ∈ ops, Op.touches c op = false) →
      ChannelMap.find c s.channels = some l →
      ChannelMap.find c (s.run ops).channels = some l ∧
        (s.run ops).globalBeatCount = s.globalBeatCount + (tickCount ops : Int) := by
  induction ops with
  | nil =>
    intro s _ hf
    simp [Sequencer.run, tickCount, hf]
  | cons op ops ih =>
    intro s hops hf
    have hops1 : ∀ op1 ∈ ops, Op.touches c op1 = false := fun op1 h1 =>
      hops op1 (List.mem_cons_of_mem _ h1)
    have hop : Op.touches c op = false := hops op (List.mem_cons_self _ _)
    have hf1 : ChannelMap.find c (s.step op).1.channels = some l := by
      by_cases htick : op = Op.tick
      · subst htick
        rw [step_tick, tick_find, hf, Option.map_some', scheduleLayer_skip _ l [] (Or.inl hm)]
      · rw [step_find_untouched s op c hop htick, hf]
    have h := ih (s.step op).1 hops1 hf1
    have hcnt : (tickCount (op :: ops) : Int) = (tickCount [op] : Int) + (tickCount ops : Int) := by
      cases op with
      | tick => simp [tickCount]; ring
      | write c1 l1 => simp [tickCount]
      | toggle c1 => simp [tickCount]
    refine ⟨h.1, ?_⟩
    rw [show Sequencer.run s (op :: ops) = Sequencer.run (s.step op).1 ops from rfl, h.2,
      step_globalBeatCount, hcnt]
    ring

/-- C6.  Mute round trip.  Toggling any muted layer makes it audible with `beatStart`
equal to the current `globalBeatCount`.  Hence, for a layer that is not muted, whatever
its `beatStart`: after `toggleLayerIfExists`, any calls that neither write nor toggle
that channel (in particular any number of ticks), and `toggleLayerIfExists` again, the
layer is not muted and its `beatStart` is the `globalBeatCount` at the second call; the
other fields are as before. -/
theorem mute_round_trip (s : Sequencer) (c : Int) (l : Layer) (ops : List Op)
    (hfind : ChannelMap.find c s.channels = some l) (hm : l.muted = false)
    (hops : ∀ op ∈ ops, Op.touches c op = false) :
    let s1 := (s.toggleLayerIfExists c).1
    let s2 := s1.run ops
    let s3 := (s2.toggleLayerIfExists c).1
    (∀ (u : Sequencer) (m : Layer), ChannelMap.find c u.channels = some m → m.muted = true →
      ChannelMap.find c (u.toggleLayerIfExists c).1.channels =
        some { m with muted := false, beatStart := u.globalBeatCount }) ∧
    ChannelMap.find c s3.channels =
      some { notes := l.notes, beatStart := s2.globalBeatCount, beatCount := l.beatCount,
             muted := false, channel := l.channel } ∧
    s2.getGlobalBeatCount = s.globalBeatCount + (tickCount ops : Int) ∧
    s3.globalBeatCount = s2.globalBeatCount := by
  intro s1 s2 s3
  have hgen : ∀ (u : Sequencer) (m : Layer), ChannelMap.find c u.channels = some m →
      m.muted = true → ChannelMap.find c (u.toggleLayerIfExists c).1.channels =
        some { m with muted := false, beatStart := u.globalBeatCount } := by
    intro u m hu hmu
    rw [toggle_present u c m hu]
    simp only [find_assign_same, hmu]
    simp
  have h1 : ChannelMap.find c s1.channels =
      some { notes := l.notes, beatStart := -1, beatCount := l.beatCount, muted := true,
             channel := l.channel } := by
    show ChannelMap.find c (s.toggleLayerIfExists c).1.channels = _
    rw [toggle_present s c l hfind]
    simp only [find_assign_same, hm]
    simp
  have h2 := run_muted_invariant c _ rfl ops s1 hops h1
  have hg1 : s1.globalBeatCount = s.globalBeatCount := toggle_globalBeatCount s c
  refine ⟨hgen, ?_, ?_, toggle_globalBeatCount s2 c⟩
  · exact hgen s2
      { notes := l.notes, beatStart := -1, beatCount := l.beatCount, muted := true,
        channel := l.channel } h2.1 rfl
  · show s2.globalBeatCount = _
    rw [h2.2, hg1]

/-- C6, witness: the metronome muted, three ticks, then toggled again at beat 3. -/
theorem mute_round_trip_witness :
    ChannelMap.find 2 twoLayers.channels = some metronome ∧
    ChannelMap.find 2
        ((((twoLayers.toggleLayerIfExists 2).1.run [Op.tick, Op.tick, Op.tick]).toggleLayerIfExists 2).1).channels =
      some { metronome with beatStart := 3 } := by
  have h := mute_round_trip twoLayers 2 metronome [Op.tick, Op.tick, Op.tick] (by decide)
    (by decide) (by decide)
  refine ⟨by decide, ?_⟩
  rw [h.2.1]
  decide

/-- C7.  `Sequencer::toggleLayerIfExists` on a channel that has no layer returns at
once: the state (channel map, `globalBeatCount`, `now` and all the rest) is unchanged,
no entry is created for the channel, and nothing is sent. -/
theorem toggle_absent_is_noop (s : Sequencer) (c : Int)
    (h : ChannelMap.count c s.channels = 0) :
    s.toggleLayerIfExists c = (s, []) ∧
    ChannelMap.count c (s.toggleLayerIfExists c).1.channels = 0 := by
  have h1 : s.toggleLayerIfExists c = (s, []) := by
    simp [Sequencer.toggleLayerIfExists, h]
  rw [h1]
  exact ⟨rfl, h⟩

/-- C7, witness: channel 4 of `twoLayers` holds no layer. -/
theorem toggle_absent_is_noop_witness :
    ChannelMap.count 4 twoLayers.channels = 0 ∧ twoLayers.toggleLayerIfExists 4 = (twoLayers, []) :=
  ⟨by decide, (toggle_absent_is_noop twoLayers 4 (by decide)).1⟩

theorem mem_keys_assign (c x : Int) (v : Layer) (m : ChannelMap)
    (h : x ∈ ChannelMap.keys (ChannelMap.assign c v m)) : x = c ∨ x ∈ ChannelMap.keys m := by
  induction m with
  | nil => simpa [ChannelMap.assign, ChannelMap.keys] using h
  | cons e rest ih =>
    obtain ⟨k, l⟩ := e
    by_cases h1 : c < k
    · simp only [ChannelMap.assign, h1, if_true, ChannelMap.keys, List.map_cons, List.mem_cons] at h
      simp only [ChannelMap.keys, List.map_cons, List.mem_cons]
      tauto
    · by_cases h2 : c = k
      · subst h2
        simp only [ChannelMap.assign, lt_irrefl, if_true, if_false, ChannelMap.keys, List.map_cons,
          List.mem_cons] at h
        simp only [ChannelMap.keys, List.map_cons, List.mem_cons]
        tauto
      · simp only [ChannelMap.assign, h1, h2, if_false, ChannelMap.keys, List.map_cons,
          List.mem_cons] at h
        simp only [ChannelMap.keys, List.map_cons, List.mem_cons]
        rcases h with h | h
        · exact Or.inr (Or.inl h)
        · rcases ih h with h3 | h3
          · exact Or.inl h3
          · exact Or.inr (Or.inr h3)

/-- The assignment `channels[c] = v` keeps the keys strictly ascending. -/
theorem assign_ordered (c : Int) (v : Layer) (m : ChannelMap) (h : ChannelMap.Ordered m) :
    ChannelMap.Ordered (ChannelMap.assign c v m) := by
  induction m with
  | nil => simp [ChannelMap.assign, ChannelMap.Ordered, ChannelMap.keys]
  | cons e rest ih =>
    obtain ⟨k, l⟩ := e
    simp only [ChannelMap.Ordered, ChannelMap.keys, List.map_cons, List.pairwise_cons] at h
    by_cases h1 : c < k
    · simp only [ChannelMap.assign, h1, if_true, ChannelMap.Ordered, ChannelMap.keys, List.map_cons,
        List.pairwise_cons, List.mem_cons]
      refine ⟨?_, h.1, h.2⟩
      intro a ha
      rcases ha with ha | ha
      · omega
      · have := h.1 a ha
        omega
    · by_cases h2 : c = k
      · subst h2
        simp only [ChannelMap.assign, lt_irrefl, if_true, if_false, ChannelMap.Ordered,
          ChannelMap.keys, List.map_cons, List.pairwise_cons]
        exact h
      · simp only [ChannelMap.assign, h1, h2, if_false, ChannelMap.Ordered, ChannelMap.keys,
          List.map_cons, List.pairwise_cons]
        refine ⟨?_, ih h.2⟩
        intro a ha
        rcases mem_keys_assign c a v rest ha with h3 | h3
        · omega
        · exact h.1 a h3

theorem find_split (c : Int) (l : Layer) (m : ChannelMap) (h : ChannelMap.find c m = some l) :
    ∃ m1 m2 : ChannelMap, m = m1 ++ (c, l) :: m2 := by
  induction m with
  | nil => simp [ChannelMap.find] at h
  | cons e rest ih =>
    obtain ⟨k, v⟩ := e
    by_cases hk : c = k
    · simp only [ChannelMap.find, hk, if_true, Option.some.injEq] at h
      exact ⟨[], rest, by simp [hk, h]⟩
    · simp only [ChannelMap.find, hk, if_false] at h
      obtain ⟨m1, m2, hm⟩ := ih h
      exact ⟨(k, v) :: m1, m2, by simp [hm]⟩

/-- C8.  `Sequencer::writeLayer(channel, layer)` replaces wholesale.  The write sends
nothing and changes only the channel map; afterwards the map holds the given layer,
with all its fields, under that channel (one entry, whether or not there was one
before), every other channel keeps its layer, and the key order of the map is kept.
The next tick processes the given layer itself: it leaves under that channel what the
loop body makes of the given layer, with `beatStart` anchored to the beat count of that
tick when it was `-1` on an active layer and kept otherwise, and the events of that
tick contain, in one block, the events of the notes of the given layer. -/
theorem writeLayer_replaces (s : Sequencer) (c : Int) (layer : Layer) :
    let w := (s.writeLayer c layer).1
    let t := w.advance
    (s.writeLayer c layer).2 = [] ∧
    w = { s with channels := w.channels } ∧
    ChannelMap.find c w.channels = some layer ∧
    ChannelMap.count c w.channels = 1 ∧
    (∀ j : Int, j ≠ c → ChannelMap.find j w.channels = ChannelMap.find j s.channels) ∧
    (ChannelMap.Ordered s.channels → ChannelMap.Ordered w.channels) ∧
    t.globalBeatCount = s.globalBeatCount + 1 ∧
    ChannelMap.find c w.scheduleLayers.1.channels = some (t.scheduleLayer layer []).1 ∧
    (t.scheduleLayer layer []).1 =
      (if layer.muted = false ∧ layer.beatCount ≠ 0 ∧ layer.beatStart = -1
       then { layer with beatStart := t.globalBeatCount } else layer) ∧
    (∃ pre post : List Event,
      w.scheduleLayers.2 = pre ++ layer.notes.flatMap (t.noteEvents layer) ++ post) := by
  intro w t
  have hfind : ChannelMap.find c w.channels = some layer := find_assign_same c layer s.channels
  have hanchor := scheduleLayer_fst_eq t layer
  refine ⟨rfl, rfl, hfind, ?_, ?_, ?_, rfl, ?_, hanchor, ?_⟩
  · simp [ChannelMap.count, hfind]
  · intro j hj
    exact find_assign_other c j layer s.channels hj
  · intro h
    exact assign_ordered c layer s.channels h
  · rw [tick_find, hfind, Option.map_some']
  · obtain ⟨m1, m2, hm⟩ := find_split c layer w.channels hfind
    refine ⟨m1.flatMap (fun e => (t.scheduleLayer e.2 []).2),
      m2.flatMap (fun e => (t.scheduleLayer e.2 []).2) ++
        [Event.timer w.mySeqID (toU32 (toU32 (w.now + w.msPerBeat.tdiv 2) + w.msPerBeat.tdiv 2))], ?_⟩
    rw [scheduleLayers_snd, hm]
    simp [scheduleLayer_events, t]

/-- C8, witness: writing the metronome over the muted layer of channel 5 leaves the
metronome there, leaves channel 2 alone, and the next tick anchors it at beat 1. -/
theorem writeLayer_replaces_witness :
    ChannelMap.find 5 (twoLayers.writeLayer 5 metronome).1.channels = some metronome ∧
    ChannelMap.find 2 (twoLayers.writeLayer 5 metronome).1.channels = some metronome ∧
    ChannelMap.find 5 (twoLayers.writeLayer 5 metronome).1.scheduleLayers.1.channels =
      some { metronome with beatStart := 1 } := by
  have h := writeLayer_replaces twoLayers 5 metronome
  refine ⟨h.2.2.1, ?_, ?_⟩
  · rw [h.2.2.2.2.1 2 (by decide)]
    decide
  · rw [h.2.2.2.2.2.2.2.1]
    decide

/-! ## Initialisation and the tick period (claims C9 and C10) -/

/-- C9.  `Sequencer::init` fails without mutating state: when the synthesizer handle
is `NULL`, or the sequencer is already initialised, `init` returns `false`, the state
(tempo, `msPerBeat`, `now`, `globalBeatCount`, handler, callback data, channel map and
all the rest) is unchanged, and nothing is sent: no tick runs and no timer is armed. -/
theorem init_failure_mutates_nothing (s : Sequencer) (env : Backend) (synth : Synthesizer)
    (beatsMinute : Int) (call data : Nat)
    (h : synth.synth = none ∨ s.sequencer ≠ none) :
    s.init env synth beatsMinute call data = some (false, s, []) := by
  unfold Sequencer.init
  by_cases h1 : synth.synth = none
  · simp [h1]
  · have h2 : s.sequencer ≠ none := h.resolve_left h1
    simp [h1, h2]

/-- C9, witness: a second `init` on the running sequencer, and an `init` with an
invalid synthesizer. -/
theorem init_failure_mutates_nothing_witness :
    (runningState.sequencer ≠ none ∧
      runningState.init exampleBackend exampleSynth 90 1 2 = some (false, runningState, [])) ∧
    (Sequencer.new exampleStorage).init exampleBackend { synth := none } 120 7 8 =
      some (false, Sequencer.new exampleStorage, []) :=
  ⟨⟨by decide, init_failure_mutates_nothing runningState exampleBackend exampleSynth 90 1 2
      (Or.inr (by decide))⟩,
    by decide⟩

theorem tdiv_two_bounds (m : Int) :
    -1 ≤ m - (m.tdiv 2 + m.tdiv 2) ∧ m - (m.tdiv 2 + m.tdiv 2) ≤ 1 := by
  rcases le_or_lt 0 m with h | h
  · rw [Int.tdiv_eq_ediv h (by norm_num)]
    omega
  · have h2 : m.tdiv 2 = -((-m) / 2) := by
      have h3 := Int.neg_tdiv (-m) 2
      rw [neg_neg] at h3
      rw [h3, Int.tdiv_eq_ediv (by omega) (by norm_num)]
    rw [h2]
    omega

theorem scheduleLayer_no_timer (t : Sequencer) (l : Layer) :
    ∀ e ∈ (t.scheduleLayer l []).2, Event.isTimer e = false := by
  intro e he
  rw [scheduleLayer_events, List.nil_append, List.mem_flatMap] at he
  obtain ⟨n, _, hn⟩ := he
  by_cases hm : l.muted = true
  · rw [noteEvents_skip t l n (Or.inl hm)] at hn
    simp at hn
  · by_cases hc : l.beatCount = 0
    · rw [noteEvents_skip t l n (Or.inr hc)] at hn
      simp at hn
    · rw [noteEvents_active t l n (by simpa using hm) hc] at hn
      by_cases hs : noteSkipped t.msPerBeat (t.msPerBeat * (t.globalBeatCount -
          (if l.beatStart = -1 then t.globalBeatCount else l.beatStart)).tmod l.beatCount) n = true
      · rw [if_pos hs] at hn
        simp at hn
      · rw [if_neg hs] at hn
        simp only [Sequencer.dispatchNote, Sequencer.sendNoteOn, Sequencer.sendNoteOff,
          List.mem_cons, List.mem_singleton, List.not_mem_nil, or_false] at hn
        rcases hn with hn | hn | hn <;> simp [hn, Event.isTimer]

/-- C10.  Tick period.  An `init` that passes its two checks, with a non-zero tempo,
stores the tempo and sets `msPerBeat = 60000 / beatsPerMinute` (truncating division).
Every tick leaves `msPerBeat` as it was and advances `now` by two half-beat steps:
first to `now + msPerBeat / 2`, then by `msPerBeat / 2` again (`unsigned int`
arithmetic, modulo `2^32`); the two steps together differ from `msPerBeat` by at most
one; the tick sends exactly one timer event, last, dated at the advanced `now`. -/
theorem tick_period (s : Sequencer) (env : Backend) (synth : Synthesizer) (beatsMinute : Int)
    (call data : Nat)
    (hsynth : synth.synth ≠ none) (hfresh : s.sequencer = none) (htempo : beatsMinute ≠ 0) :
    (∃ (ok : Bool) (s1 : Sequencer) (ev : List Event),
      s.init env synth beatsMinute call data = some (ok, s1, ev) ∧
      s1.beatsPerMinute = beatsMinute ∧ s1.msPerBeat = (60000 : Int).tdiv beatsMinute) ∧
    (∀ u : Sequencer,
      u.advance.now = toU32 (u.now + u.msPerBeat.tdiv 2) ∧
      u.scheduleLayers.1.now = toU32 (u.advance.now + u.msPerBeat.tdiv 2) ∧
      u.scheduleLayers.1.now = toU32 (u.now + (u.msPerBeat.tdiv 2 + u.msPerBeat.tdiv 2)) ∧
      (-1 ≤ u.msPerBeat - (u.msPerBeat.tdiv 2 + u.msPerBeat.tdiv 2) ∧
        u.msPerBeat - (u.msPerBeat.tdiv 2 + u.msPerBeat.tdiv 2) ≤ 1) ∧
      u.scheduleLayers.1.msPerBeat = u.msPerBeat ∧
      u.scheduleLayers.2.getLast? = some (Event.timer u.mySeqID u.scheduleLayers.1.now) ∧
      u.scheduleLayers.2.filter Event.isTimer =
        [Event.timer u.mySeqID u.scheduleLayers.1.now]) := by
  constructor
  · have h1 : ¬ (synth.synth = none) := hsynth
    unfold Sequencer.init
    rw [if_neg h1, if_neg (by simp [hfresh]), if_neg htempo]
    exact ⟨_, _, _, rfl, by rw [scheduleLayers_fst], by rw [scheduleLayers_fst]⟩
  · intro u
    have hnow : u.scheduleLayers.1.now =
        toU32 (toU32 (u.now + u.msPerBeat.tdiv 2) + u.msPerBeat.tdiv 2) := by
      rw [scheduleLayers_fst]
    refine ⟨rfl, hnow, ?_, tdiv_two_bounds u.msPerBeat, tick_msPerBeat u, ?_, ?_⟩
    · rw [hnow, toU32_toU32_add, add_assoc]
    · rw [scheduleLayers_snd, List.getLast?_concat, hnow]
    · rw [scheduleLayers_snd, List.filter_append, hnow]
      have hnil : List.filter Event.isTimer
          (u.channels.flatMap (fun e => (u.advance.scheduleLayer e.2 []).2)) = [] := by
        rw [List.filter_eq_nil_iff]
        intro e he
        rw [List.mem_flatMap] at he
        obtain ⟨x, _, hx⟩ := he
        simp [scheduleLayer_no_timer u.advance x.2 e hx]
      rw [hnil]
      simp [Event.isTimer]

/-- C10, witness: `init` at 120 beats per minute sets `msPerBeat = 500`; at 130 beats
per minute `msPerBeat = 461`, and a tick advances `now` by `230 + 230 = 460`. -/
theorem tick_period_witness :
    exampleSynth.synth ≠ none ∧ (Sequencer.new exampleStorage).sequencer = none ∧
    (Sequencer.new exampleStorage).init exampleBackend exampleSynth 120 7 8 =
      some (true, runningState, [Event.timer 11 1500]) ∧
    (∃ (ok : Bool) (s1 : Sequencer) (ev : List Event),
      (Sequencer.new exampleStorage).init exampleBackend exampleSynth 130 7 8 = some (ok, s1, ev) ∧
      s1.beatsPerMinute = 130 ∧ s1.msPerBeat = (60000 : Int).tdiv 130) ∧
    ({ runningState with msPerBeat := 461 } : Sequencer).scheduleLayers.1.now = 1960 := by
  have h := tick_period (Sequencer.new exampleStorage) exampleBackend exampleSynth 130 7 8
    (by decide) (by decide) (by decide)
  exact ⟨by decide, by decide, by decide, h.1, by decide⟩

/-! ## The beat counter, channels and loops (claims C3, C11 to C13, C18 and C19) -/

theorem run_globalBeatCount (ops : List Op) :
    ∀ s : Sequencer, (s.run ops).globalBeatCount = s.globalBeatCount + (tickCount ops : Int) := by
  induction ops with
  | nil =>
    intro s
    simp [Sequencer.run, tickCount]
  | cons op ops ih =>
    intro s
    have hcnt : (tickCount (op :: ops) : Int) = (tickCount [op] : Int) + (tickCount ops : Int) := by
      cases op with
      | tick => simp [tickCount]; ring
      | write c1 l1 => simp [tickCount]
      | toggle c1 => simp [tickCount]
    rw [show Sequencer.run s (op :: ops) = Sequencer.run (s.step op).1 ops from rfl, ih,
      step_globalBeatCount, hcnt]
    ring

/-- C11.  `globalBeatCount` counts ticks.  A tick increments it by exactly one and
processes the layers in the state so incremented; `writeLayer`, `toggleLayerIfExists`
and `getGlobalBeatCount` leave it unchanged.  An `init` that returns `true` has set it
to `-1` and run one tick from there, so it returns with `globalBeatCount = 0`; after
any calls that follow, `getGlobalBeatCount` returns the number of timer firings among
them, and the next tick processes its layers with one more than that. -/
theorem globalBeatCount_counts_ticks (s0 : Sequencer) (env : Backend) (synth : Synthesizer)
    (beatsMinute : Int) (call data : Nat) (s1 : Sequencer) (ev : List Event)
    (hinit : s0.init env synth beatsMinute call data = some (true, s1, ev)) :
    (∀ u : Sequencer,
      u.advance.globalBeatCount = u.globalBeatCount + 1 ∧
      u.scheduleLayers =
        Sequencer.scheduleTimer
          { u.advance with channels := (u.advance.scheduleChannels u.advance.channels []).1 }
          (u.advance.scheduleChannels u.advance.channels []).2 ∧
      u.scheduleLayers.1.globalBeatCount = u.globalBeatCount + 1 ∧
      (∀ (c : Int) (layer : Layer),
        (u.writeLayer c layer).1.globalBeatCount = u.globalBeatCount) ∧
      (∀ c : Int, (u.toggleLayerIfExists c).1.globalBeatCount = u.globalBeatCount) ∧
      u.getGlobalBeatCount = u.globalBeatCount) ∧
    (∃ s5 : Sequencer, s5.globalBeatCount = -1 ∧ s5.channels = s0.channels ∧
      s1 = s5.scheduleLayers.1 ∧ ev = s5.scheduleLayers.2 ∧ s5.advance.globalBeatCount = 0) ∧
    s1.getGlobalBeatCount = 0 ∧
    (∀ ops : List Op,
      (s1.run ops).getGlobalBeatCount = (tickCount ops : Int) ∧
      (s1.run ops).advance.globalBeatCount = (tickCount ops : Int) + 1) := by
  have hs1 : ∃ s5 : Sequencer, s5.globalBeatCount = -1 ∧ s5.channels = s0.channels ∧
      s1 = s5.scheduleLayers.1 ∧ ev = s5.scheduleLayers.2 ∧ s5.advance.globalBeatCount = 0 := by
    unfold Sequencer.init at hinit
    split_ifs at hinit
    · simp at hinit
    · simp at hinit
    · simp only [Option.some.injEq, Prod.mk.injEq] at hinit
      exact ⟨{ s0 with beatsPerMinute := beatsMinute, msPerBeat := (60000 : Int).tdiv beatsMinute, sequencer := env.newSequencer, fluid := some synth, synthSeqID := env.synthSeqID, mySeqID := env.mySeqID, now := env.tick, globalBeatCount := -1, handler := call, callData := data },
        rfl, rfl, hinit.2.1.symm, hinit.2.2.symm, rfl⟩
  have h0 : s1.globalBeatCount = 0 := by
    obtain ⟨s5, h5, _, h1, _, _⟩ := hs1
    rw [h1, tick_globalBeatCount, h5]
    rfl
  refine ⟨?_, hs1, h0, ?_⟩
  · intro u
    exact ⟨rfl, rfl, tick_globalBeatCount u, fun c layer => rfl,
      fun c => toggle_globalBeatCount u c, rfl⟩
  · intro ops
    have h := run_globalBeatCount ops s1
    rw [h0] at h
    constructor
    · show (s1.run ops).globalBeatCount = _
      rw [h]
      ring
    · show (s1.run ops).globalBeatCount + 1 = _
      rw [h]
      ring

/-- C11, witness: after `init` at 120 beats per minute, a write, three timer firings
and a toggle, `getGlobalBeatCount` returns 3. -/
theorem globalBeatCount_counts_ticks_witness :
    (Sequencer.new exampleStorage).init exampleBackend exampleSynth 120 7 8 =
      some (true, runningState, [Event.timer 11 1500]) ∧
    (runningState.run [Op.write 2 metronome, Op.tick, Op.tick, Op.toggle 2,
      Op.tick]).getGlobalBeatCount = 3 := by
  have h := globalBeatCount_counts_ticks (Sequencer.new exampleStorage) exampleBackend
    exampleSynth 120 7 8 runningState [Event.timer 11 1500] (by decide)
  refine ⟨by decide, ?_⟩
  rw [(h.2.2.2 [Op.write 2 metronome, Op.tick, Op.tick, Op.toggle 2, Op.tick]).1]
  decide

theorem assign_ne_of_find_ne (c : Int) (layer : Layer) (m : ChannelMap)
    (h : ChannelMap.find c m ≠ some layer) : ChannelMap.assign c layer m ≠ m := by
  intro heq
  apply h
  rw [← heq]
  exact find_assign_same c layer m

theorem layerEvents_eq (s : Sequencer) (c : Int) (l : Layer)
    (h : ChannelMap.find c s.channels = some l) :
    s.layerEvents c = l.notes.flatMap (s.advance.noteEvents l) := by
  unfold Sequencer.layerEvents
  rw [h]
  simp [scheduleLayer_events]

/-- The events of a tick contain, in one block, the events of each stored layer. -/
theorem layerEvents_block (s : Sequencer) (c : Int) (l : Layer)
    (h : ChannelMap.find c s.channels = some l) :
    ∃ pre post : List Event, s.scheduleLayers.2 = pre ++ s.layerEvents c ++ post := by
  obtain ⟨m1, m2, hm⟩ := find_split c l s.channels h
  refine ⟨m1.flatMap (fun e => (s.advance.scheduleLayer e.2 []).2),
    m2.flatMap (fun e => (s.advance.scheduleLayer e.2 []).2) ++
      [Event.timer s.mySeqID (toU32 (toU32 (s.now + s.msPerBeat.tdiv 2) + s.msPerBeat.tdiv 2))], ?_⟩
  rw [scheduleLayers_snd]
  unfold Sequencer.layerEvents
  rw [h, hm]
  simp

/-- C13, counterexample.  On the running sequencer, whose map is empty,
`writeLayer(-3, strayLayer)` creates an entry under the negative channel `-3`, so the
map is changed, and the next tick dispatches the note of that layer. -/
theorem writeLayer_out_of_range_is_stored :
    ChannelMap.find (-3) runningState.channels = none ∧
    (runningState.writeLayer (-3) strayLayer).1.channels = [(-3, strayLayer)] ∧
    (runningState.writeLayer (-3) strayLayer).1.channels ≠ runningState.channels ∧
    (runningState.writeLayer (-3) strayLayer).1.scheduleLayers.2 =
      [Event.noteOn 10 (-3) 70 127 1750, Event.noteOff 10 (-3) 70 2000,
       Event.handlerCall 7 8 (-3) 0 127 250 250, Event.timer 11 2000] := by
  decide

/-- C13, amended.  `Sequencer::writeLayer` performs no range check.  Writing a layer to
any channel `c`, whatever its value, stores the layer under `c`; the map is changed
unless it already held that very layer under `c`; and the next tick processes the layer
like any other: when the layer is active and unanchored, every note of it with
`0 <= msOffset < msPerBeat` is dispatched, and the events of the tick contain the events
of the layer. -/
theorem writeLayer_has_no_range_check (s : Sequencer) (c : Int) (layer : Layer) :
    let w := (s.writeLayer c layer).1
    ChannelMap.find c w.channels = some layer ∧
    (ChannelMap.find c s.channels ≠ some layer → w.channels ≠ s.channels) ∧
    (∃ pre post : List Event, w.scheduleLayers.2 = pre ++ w.layerEvents c ++ post) ∧
    w.layerEvents c = layer.notes.flatMap (w.advance.noteEvents layer) ∧
    (layer.muted = false → layer.beatCount ≠ 0 → layer.beatStart = -1 →
      ∀ note : Note, 0 ≤ note.msOffset → note.msOffset < s.msPerBeat →
        w.tickDispatches c note = true ∧
        (note ∈ layer.notes → ∀ e ∈ w.advance.noteEvents layer note, e ∈ w.scheduleLayers.2)) := by
  intro w
  have hfind : ChannelMap.find c w.channels = some layer := find_assign_same c layer s.channels
  have hblock := layerEvents_block w c layer hfind
  have hev := layerEvents_eq w c layer hfind
  refine ⟨hfind, fun h => assign_ne_of_find_ne c layer s.channels h, hblock, hev, ?_⟩
  intro hm hc hb note h0 h1
  have hne : w.advance.noteEvents layer note ≠ [] := by
    rw [noteEvents_active w.advance layer note hm hc]
    have hs : noteSkipped w.advance.msPerBeat (w.advance.msPerBeat * (w.advance.globalBeatCount -
        (if layer.beatStart = -1 then w.advance.globalBeatCount else layer.beatStart)).tmod
          layer.beatCount) note = false := by
      rw [noteSkipped_eq_false]
      simp only [hb, if_true, sub_self, Int.zero_tmod, mul_zero, zero_add]
      exact ⟨h0, h1⟩
    simp only [hs]
    simp [dispatchNote_ne_nil]
  constructor
  · unfold Sequencer.tickDispatches
    rw [hfind]
    simpa using hne
  · intro hmem e he
    obtain ⟨pre, post, hpp⟩ := hblock
    rw [hpp, hev]
    simp only [List.mem_append, List.mem_flatMap]
    exact Or.inl (Or.inr ⟨note, hmem, he⟩)

/-- C13, witness: the stray layer written under channel 40. -/
theorem writeLayer_has_no_range_check_witness :
    ChannelMap.find 40 (runningState.writeLayer 40 strayLayer).1.channels = some strayLayer ∧
    (runningState.writeLayer 40 strayLayer).1.tickDispatches 40 downBeat = true := by
  have h := writeLayer_has_no_range_check runningState 40 strayLayer
  exact ⟨h.1, (h.2.2.2.2 (by decide) (by decide) (by decide) downBeat (by decide) (by decide)).1⟩

/-- Every event the loop body sends for a layer carries the `channel` member of the
layer. -/
theorem scheduleLayer_channel (t : Sequencer) (l : Layer) :
    ∀ e ∈ (t.scheduleLayer l []).2, Event.channel? e = some l.channel := by
  intro e he
  rw [scheduleLayer_events, List.nil_append, List.mem_flatMap] at he
  obtain ⟨n, _, hn⟩ := he
  by_cases hm : l.muted = true
  · rw [noteEvents_skip t l n (Or.inl hm)] at hn
    simp at hn
  · by_cases hc : l.beatCount = 0
    · rw [noteEvents_skip t l n (Or.inr hc)] at hn
      simp at hn
    · rw [noteEvents_active t l n (by simpa using hm) hc] at hn
      by_cases hs : noteSkipped t.msPerBeat (t.msPerBeat * (t.globalBeatCount -
          (if l.beatStart = -1 then t.globalBeatCount else l.beatStart)).tmod l.beatCount) n = true
      · rw [if_pos hs] at hn
        simp at hn
      · rw [if_neg hs] at hn
        simp only [Sequencer.dispatchNote, Sequencer.sendNoteOn, Sequencer.sendNoteOff,
          List.mem_cons, List.mem_singleton, List.not_mem_nil, or_false] at hn
        rcases hn with hn | hn | hn <;> simp [hn, Event.channel?]

theorem mem_keys_of_find (c : Int) (l : Layer) (m : ChannelMap)
    (h : ChannelMap.find c m = some l) : c ∈ ChannelMap.keys m := by
  obtain ⟨m1, m2, hm⟩ := find_split c l m h
  simp [ChannelMap.keys, hm]

/-- C19, counterexample.  The metronome, whose `channel` member is 2, written under
key 5: the next tick addresses its note-on, note-off and handler call to channel 2, not
to 5, while `toggleLayerIfExists(5)` and the destructor send all-notes-off to channel
5. -/
theorem note_events_ignore_map_key :
    metronome.channel = 2 ∧
    ChannelMap.find 5 (runningState.writeLayer 5 metronome).1.channels = some metronome ∧
    (runningState.writeLayer 5 metronome).1.scheduleLayers.2 =
      [Event.noteOn 10 2 70 127 1750, Event.noteOff 10 2 70 2000,
       Event.handlerCall 7 8 2 0 127 250 250, Event.timer 11 2000] ∧
    ((runningState.writeLayer 5 metronome).1.toggleLayerIfExists 5).2 = [Event.allNotesOff 5] ∧
    (runningState.writeLayer 5 metronome).1.destroy = [Event.allNotesOff 5] := by
  decide

/-- C19, amended.  For a layer stored by `writeLayer(c, layer)`, every note-on, note-off
and handler call that the next tick sends for that layer is addressed to the `channel`
member of the layer, hence to `c` when `layer.channel = c`; `toggleLayerIfExists(c)`
and the destructor send their all-notes-off to the map key `c`. -/
theorem note_events_carry_layer_channel (s : Sequencer) (c : Int) (layer : Layer) :
    let w := (s.writeLayer c layer).1
    (∀ e ∈ w.layerEvents c, Event.channel? e = some layer.channel) ∧
    (layer.channel = c → ∀ e ∈ w.layerEvents c, Event.channel? e = some c) ∧
    (∃ pre post : List Event, w.scheduleLayers.2 = pre ++ w.layerEvents c ++ post) ∧
    (w.toggleLayerIfExists c).2 = [Event.allNotesOff c] ∧
    Event.allNotesOff c ∈ w.destroy ∧
    (∀ e ∈ w.destroy, ∃ k : Int, e = Event.allNotesOff k ∧ k ∈ ChannelMap.keys w.channels) := by
  intro w
  have hfind : ChannelMap.find c w.channels = some layer := find_assign_same c layer s.channels
  have hch : ∀ e ∈ w.layerEvents c, Event.channel? e = some layer.channel := by
    intro e he
    unfold Sequencer.layerEvents at he
    rw [hfind] at he
    exact scheduleLayer_channel w.advance layer e he
  refine ⟨hch, ?_, layerEvents_block w c layer hfind, ?_, ?_, ?_⟩
  · intro heq e he
    rw [← heq]
    exact hch e he
  · rw [toggle_present w c layer hfind]
  · unfold Sequencer.destroy
    exact List.mem_map.2 ⟨c, mem_keys_of_find c layer w.channels hfind, rfl⟩
  · intro e he
    unfold Sequencer.destroy at he
    obtain ⟨k, hk, hke⟩ := List.mem_map.1 he
    exact ⟨k, hke.symm, hk⟩

/-- C19, witness: the metronome stored under its own channel 2. -/
theorem note_events_carry_layer_channel_witness :
    metronome.channel = 2 ∧
    ∀ e ∈ (runningState.writeLayer 2 metronome).1.layerEvents 2, Event.channel? e = some 2 :=
  ⟨by decide, (note_events_carry_layer_channel runningState 2 metronome).2.1 (by decide)⟩

/-- The layer of an untouched, active loop after `j` ticks, for any anchor: as it was
before the first tick, and with `beatStart` equal to its anchor afterwards. -/
theorem run_anchored_invariant (c : Int) (l : Layer) (g a : Int)
    (hm : l.muted = false) (hk : l.beatCount ≠ 0)
    (ha : a = if l.beatStart = -1 then g + 1 else l.beatStart) (hne : a ≠ -1)
    (ops : List Op) :
    ∀ (s : Sequencer) (j : Nat), (∀ op ∈ ops, Op.touches c op = false) →
      ChannelMap.find c s.channels = some (if j = 0 then l else { l with beatStart := a }) →
      s.globalBeatCount = g + j →
      ChannelMap.find c (s.run ops).channels =
          some (if j + tickCount ops = 0 then l else { l with beatStart := a }) ∧
        (s.run ops).globalBeatCount = g + ((j + tickCount ops : Nat) : Int) ∧
        (s.run ops).msPerBeat = s.msPerBeat := by
  induction ops with
  | nil =>
    intro s j _ hf hgc
    simp [Sequencer.run, tickCount, hf, hgc]
  | cons op ops ih =>
    intro s j hops hf hgc
    have hops1 : ∀ op1 ∈ ops, Op.touches c op1 = false := fun op1 h1 =>
      hops op1 (List.mem_cons_of_mem _ h1)
    have hop : Op.touches c op = false := hops op (List.mem_cons_self _ _)
    by_cases htick : op = Op.tick
    · subst htick
      have hf1 : ChannelMap.find c (s.step Op.tick).1.channels =
          some (if j + 1 = 0 then l else { l with beatStart := a }) := by
        rw [step_tick, tick_find, hf]
        by_cases hj : j = 0
        · subst hj
          simp only [if_true, Option.map_some']
          rw [scheduleLayer_active _ l [] hm hk]
          simp [Sequencer.advance, hgc, ha]
        · simp only [hj, if_false, Option.map_some']
          rw [scheduleLayer_active s.advance { l with beatStart := a } [] hm hk]
          simp [hne]
      have hgc1 : (s.step Op.tick).1.globalBeatCount = g + ((j + 1 : Nat) : Int) := by
        rw [step_tick, tick_globalBeatCount, hgc]
        push_cast
        ring
      have h := ih (s.step Op.tick).1 (j + 1) hops1 hf1 hgc1
      have hcount : j + tickCount (Op.tick :: ops) = j + 1 + tickCount ops := by
        simp [tickCount]
        omega
      rw [hcount]
      refine ⟨h.1, h.2.1, ?_⟩
      rw [show Sequencer.run s (Op.tick :: ops) = Sequencer.run (s.step Op.tick).1 ops from rfl,
        h.2.2, step_msPerBeat]
    · have hf1 : ChannelMap.find c (s.step op).1.channels =
          some (if j = 0 then l else { l with beatStart := a }) := by
        rw [step_find_untouched s op c hop htick, hf]
      have hcnt : tickCount (op :: ops) = tickCount ops := by
        cases op with
        | tick => exact absurd rfl htick
        | write c1 l1 => rfl
        | toggle c1 => rfl
      have hcnt1 : tickCount [op] = 0 := by
        cases op with
        | tick => exact absurd rfl htick
        | write c1 l1 => rfl
        | toggle c1 => rfl
      have hgc1 : (s.step op).1.globalBeatCount = g + (j : Int) := by
        rw [step_globalBeatCount, hcnt1, hgc]
        simp
      have h := ih (s.step op).1 j hops1 hf1 hgc1
      rw [hcnt]
      refine ⟨h.1, h.2.1, ?_⟩
      rw [show Sequencer.run s (op :: ops) = Sequencer.run (s.step op).1 ops from rfl,
        h.2.2, step_msPerBeat]

/-- What the next tick sends for a note of an active loop that has seen `j` ticks:
the note is dispatched, with `beatPos = (g + 1 + j - a) % beatCount` (C++ remainder),
exactly when it lies in the window of that beat position. -/
theorem noteEvents_anchored (s : Sequencer) (l : Layer) (g a : Int) (j : Nat) (note : Note)
    (hm : l.muted = false) (hk : l.beatCount ≠ 0)
    (ha : a = if l.beatStart = -1 then g + 1 else l.beatStart) (hne : a ≠ -1)
    (hgc : s.globalBeatCount = g + j) :
    s.advance.noteEvents (if j = 0 then l else { l with beatStart := a }) note =
      if noteSkipped s.msPerBeat (s.msPerBeat * (g + 1 + j - a).tmod l.beatCount) note then []
      else s.advance.dispatchNote l.channel (s.msPerBeat * (g + 1 + j - a).tmod l.beatCount) note := by
  by_cases hj : j = 0
  · subst hj
    simp only [if_true]
    rw [noteEvents_active s.advance l note hm hk]
    have hd : s.advance.globalBeatCount -
        (if l.beatStart = -1 then s.advance.globalBeatCount else l.beatStart) =
          g + 1 + ((0 : Nat) : Int) - a := by
      rw [ha]
      by_cases hb : l.beatStart = -1
      · simp [hb, Sequencer.advance, hgc]
      · simp [hb, Sequencer.advance, hgc]
    rw [hd]
    rfl
  · simp only [hj, if_false]
    rw [noteEvents_active s.advance { l with beatStart := a } note hm hk]
    have hd : s.advance.globalBeatCount -
        (if a = -1 then s.advance.globalBeatCount else a) = g + 1 + (j : Int) - a := by
      simp only [hne, if_false, Sequencer.advance, hgc]
      ring
    simp only [hd]
    rfl

theorem tickBeatPos_active (s : Sequencer) (c : Int) (lj : Layer)
    (hm : lj.muted = false) (hk : lj.beatCount ≠ 0)
    (hf : ChannelMap.find c s.channels = some lj) :
    s.tickBeatPos c = some ((s.globalBeatCount + 1 -
      (if lj.beatStart = -1 then s.globalBeatCount + 1 else lj.beatStart)).tmod lj.beatCount) := by
  unfold Sequencer.tickBeatPos
  rw [hf]
  simp only [hm, hk, if_false, Bool.false_eq_true]
  rw [scheduleLayer_active s.advance lj [] hm hk]
  rfl

theorem tickBeatPos_anchored (s : Sequencer) (c : Int) (l : Layer) (g a : Int) (j : Nat)
    (hm : l.muted = false) (hk : l.beatCount ≠ 0)
    (ha : a = if l.beatStart = -1 then g + 1 else l.beatStart) (hne : a ≠ -1)
    (hf : ChannelMap.find c s.channels = some (if j = 0 then l else { l with beatStart := a }))
    (hgc : s.globalBeatCount = g + j) :
    s.tickBeatPos c = some ((g + 1 + j - a).tmod l.beatCount) := by
  by_cases hj : j = 0
  · subst hj
    simp only [if_true] at hf
    rw [tickBeatPos_active s c l hm hk hf, ha, hgc]
    by_cases hb : l.beatStart = -1
    · simp [hb]
    · simp [hb]
  · simp only [hj, if_false] at hf
    rw [tickBeatPos_active s c { l with beatStart := a } hm hk hf, hgc]
    simp only [hne, if_false]
    congr 2
    ring

theorem tickDispatches_anchored (s : Sequencer) (c : Int) (l : Layer) (g a : Int) (j : Nat)
    (note : Note) (hm : l.muted = false) (hk : l.beatCount ≠ 0)
    (ha : a = if l.beatStart = -1 then g + 1 else l.beatStart) (hne : a ≠ -1)
    (hf : ChannelMap.find c s.channels = some (if j = 0 then l else { l with beatStart := a }))
    (hgc : s.globalBeatCount = g + j) :
    s.tickDispatches c note = true ↔
      s.msPerBeat * (g + 1 + j - a).tmod l.beatCount ≤ note.msOffset ∧
      note.msOffset < s.msPerBeat * (g + 1 + j - a).tmod l.beatCount + s.msPerBeat := by
  unfold Sequencer.tickDispatches
  rw [hf]
  simp only [decide_eq_true_eq]
  rw [noteEvents_anchored s l g a j note hm hk ha hne hgc, ← noteSkipped_eq_false]
  by_cases hs : noteSkipped s.msPerBeat (s.msPerBeat * (g + 1 + j - a).tmod l.beatCount) note = true
  · simp [hs]
  · simp [hs, dispatchNote_ne_nil]

theorem dispatchNote_eq (t : Sequencer) (channel bpd : Int) (note : Note) :
    t.dispatchNote channel bpd note =
      [Event.noteOn t.synthSeqID channel note.pitch note.velocity
         (toU32 (t.now + note.msOffset - bpd)),
       Event.noteOff t.synthSeqID channel note.pitch
         (toU32 (t.now + note.msOffset - bpd + note.msDuration)),
       Event.handlerCall t.handler t.callData channel note.position note.velocity
         (note.msOffset - bpd + t.msPerBeat.tdiv 2) note.msDuration] := rfl

/-- The events the next tick returns for an active loop that has seen `j` ticks, split at
one note of the loop: the note contributes its three events when it lies in the window
of the beat position `(g + 1 + j - a) % beatCount` (C++ remainder), and nothing
otherwise. -/
theorem tick_note_segment (u : Sequencer) (c : Int) (l : Layer) (g a : Int) (j : Nat)
    (note : Note) (n1 n2 : List Note) (hm : l.muted = false) (hk : l.beatCount ≠ 0)
    (ha : a = if l.beatStart = -1 then g + 1 else l.beatStart) (hne : a ≠ -1)
    (hf : ChannelMap.find c u.channels = some (if j = 0 then l else { l with beatStart := a }))
    (hgc : u.globalBeatCount = g + j) (hn : l.notes = n1 ++ note :: n2) :
    ∃ m1 m2 : ChannelMap,
      u.channels = m1 ++ (c, if j = 0 then l else { l with beatStart := a }) :: m2 ∧
      (∀ e ∈ m1, e.1 ≠ c) ∧
      (u.step Op.tick).2 =
        m1.flatMap (fun e => e.2.notes.flatMap (u.advance.noteEvents e.2)) ++
        n1.flatMap (u.advance.noteEvents (if j = 0 then l else { l with beatStart := a })) ++
        (if noteSkipped u.msPerBeat (u.msPerBeat * (g + 1 + j - a).tmod l.beatCount) note
         then []
         else u.advance.dispatchNote l.channel
           (u.msPerBeat * (g + 1 + j - a).tmod l.beatCount) note) ++
        n2.flatMap (u.advance.noteEvents (if j = 0 then l else { l with beatStart := a })) ++
        m2.flatMap (fun e => e.2.notes.flatMap (u.advance.noteEvents e.2)) ++
        [Event.timer u.mySeqID (u.step Op.tick).1.now] := by
  have hnotes : (if j = 0 then l else { l with beatStart := a }).notes = n1 ++ note :: n2 := by
    by_cases hj : j = 0
    · simp [hj, hn]
    · simp [hj, hn]
  obtain ⟨m1, m2, hsplit, hkeys, hev⟩ := tick_events_at_note u c _ n1 n2 note hf hnotes
  refine ⟨m1, m2, hsplit, hkeys, ?_⟩
  rw [hev, noteEvents_anchored u l g a j note hm hk ha hne hgc]

/-- C3.  Periodicity of a loop.  In a running sequencer, take a layer stored under
channel `c` that is not muted, has `beatCount = k > 0` and still has `beatStart = -1`,
with `msPerBeat > 0`, and let any calls follow that neither write nor toggle channel
`c`.  The first tick that follows anchors the layer at its own beat `a`, one more than
the beat count before it.  A note of the layer with `msOffset = 0` is dispatched by the
tick that comes after `n` earlier ticks (the tick of beat `a + n`) if and only if
`n mod k = 0`: the events that tick returns hold, at the place of the note (after the
events of the entries and notes before it, before those of the notes and entries after
it and the timer), its note-on at the clock of the tick, its note-off and its handler
call when `n mod k = 0`, and nothing when `n mod k != 0`.  So the note is dispatched at
the anchoring tick, at every `k`-th tick after it, and at no tick in between, for any
number of ticks. -/
theorem loop_periodicity (s : Sequencer) (c : Int) (l : Layer) (note : Note)
    (n1 n2 : List Note) (ops : List Op)
    (hrun : Running s) (hfind : ChannelMap.find c s.channels = some l)
    (hm : l.muted = false) (hk : 0 < l.beatCount) (hb : l.beatStart = -1)
    (hmpb : 0 < s.msPerBeat) (hnote : l.notes = n1 ++ note :: n2) (hoff : note.msOffset = 0)
    (hops : ∀ op ∈ ops, Op.touches c op = false) :
    let u := s.run ops
    let t := u.advance
    let lj := if tickCount ops = 0 then l else { l with beatStart := s.globalBeatCount + 1 }
    (∃ m1 m2 : ChannelMap, u.channels = m1 ++ (c, lj) :: m2 ∧ (∀ e ∈ m1, e.1 ≠ c) ∧
      (u.step Op.tick).2 =
        m1.flatMap (fun e => e.2.notes.flatMap (t.noteEvents e.2)) ++
        n1.flatMap (t.noteEvents lj) ++
        (if (tickCount ops : Int) % l.beatCount = 0 then
          [Event.noteOn u.synthSeqID l.channel note.pitch note.velocity t.now,
           Event.noteOff u.synthSeqID l.channel note.pitch (toU32 (t.now + note.msDuration)),
           Event.handlerCall u.handler u.callData l.channel note.position note.velocity
             (s.msPerBeat.tdiv 2) note.msDuration]
         else []) ++
        n2.flatMap (t.noteEvents lj) ++
        m2.flatMap (fun e => e.2.notes.flatMap (t.noteEvents e.2)) ++
        [Event.timer u.mySeqID (u.step Op.tick).1.now]) ∧
    (u.tickDispatches c note = true ↔ (tickCount ops : Int) % l.beatCount = 0) ∧
    t.globalBeatCount = (s.globalBeatCount + 1) + (tickCount ops : Int) ∧
    ChannelMap.find c u.channels = some lj := by
  intro u t lj
  have hg : 0 ≤ s.globalBeatCount := running_globalBeatCount_nonneg s hrun
  have hk0 : l.beatCount ≠ 0 := by omega
  have hinv := run_loop_invariant c l s.globalBeatCount hm hk0 hb hg ops s 0 hops
    (by simpa using hfind) (by simp)
  simp only [Nat.zero_add] at hinv
  obtain ⟨hf, hgc, hmp⟩ := hinv
  have ha : s.globalBeatCount + 1 =
      if l.beatStart = -1 then s.globalBeatCount + 1 else l.beatStart := by simp [hb]
  have hne : s.globalBeatCount + 1 ≠ -1 := by omega
  have hjn : (0 : Int) ≤ (tickCount ops : Int) := Int.natCast_nonneg _
  have hr : 0 ≤ (tickCount ops : Int) % l.beatCount := Int.emod_nonneg _ hk0
  have hbp : (s.globalBeatCount + 1 + (tickCount ops : Int) - (s.globalBeatCount + 1)).tmod
      l.beatCount = (tickCount ops : Int) % l.beatCount := by
    have he : s.globalBeatCount + 1 + (tickCount ops : Int) - (s.globalBeatCount + 1) =
        (tickCount ops : Int) := by ring
    rw [he, Int.tmod_eq_emod hjn (le_of_lt hk)]
  refine ⟨?_, ?_, ?_, hf⟩
  · obtain ⟨m1, m2, hsplit, hkeys, hev⟩ := tick_note_segment u c l s.globalBeatCount
      (s.globalBeatCount + 1) (tickCount ops) note n1 n2 hm hk0 ha hne hf hgc hnote
    refine ⟨m1, m2, hsplit, hkeys, ?_⟩
    rw [hev, hbp, hmp]
    congr 4
    by_cases hz : (tickCount ops : Int) % l.beatCount = 0
    · have hs : noteSkipped s.msPerBeat (s.msPerBeat * ((tickCount ops : Int) % l.beatCount))
          note = false := by
        rw [noteSkipped_eq_false, hz, hoff]
        simp [hmpb]
      rw [if_pos hz]
      simp only [hs, Bool.false_eq_true, if_false]
      rw [dispatchNote_eq, hz, hoff]
      have hnow : toU32 ((t.now : Int) + 0 - s.msPerBeat * 0) = t.now := by
        have h0 : (t.now : Int) + 0 - s.msPerBeat * 0 = (t.now : Int) := by ring
        rw [h0]
        exact toU32_idem _
      have hoffd : (t.now : Int) + 0 - s.msPerBeat * 0 + note.msDuration =
          (t.now : Int) + note.msDuration := by ring
      have hdist : (0 : Int) - s.msPerBeat * 0 + t.msPerBeat.tdiv 2 = s.msPerBeat.tdiv 2 := by
        have : t.msPerBeat = s.msPerBeat := hmp
        rw [this]
        ring
      rw [hnow, hoffd, hdist]
      rfl
    · have hpos : 0 < s.msPerBeat * ((tickCount ops : Int) % l.beatCount) :=
        mul_pos hmpb (lt_of_le_of_ne hr (Ne.symm hz))
      have hs : noteSkipped s.msPerBeat (s.msPerBeat * ((tickCount ops : Int) % l.beatCount))
          note = true := by
        cases hsk : noteSkipped s.msPerBeat
            (s.msPerBeat * ((tickCount ops : Int) % l.beatCount)) note with
        | true => rfl
        | false =>
          rw [noteSkipped_eq_false, hoff] at hsk
          omega
      rw [if_neg hz]
      simp only [hs, if_true]
  · exact tickDispatches_loop (s.run ops) c l s.globalBeatCount (tickCount ops) note hm hk hb hg
      (by rw [hmp]; exact hmpb) hoff hf hgc
  · simp only [t, u, Sequencer.advance, hgc]
    ring

/-- C3, witness: the metronome (4 beats) written to a sequencer running at 120 beats
per minute; its down-beat note, of key 70, is the first of its notes.  Among the events
returned by each of the first 24 ticks there is one note-on of key 70 at ticks 0, 4, 8,
12, 16 and 20, and none at the other ticks.  The tick after 20 earlier ticks finds the
layer anchored at beat 1 and returns the three events of the down-beat note, dated at
the clock `11750` of that tick, and the timer. -/
theorem loop_periodicity_witness :
    Running metronomeWritten ∧
    ChannelMap.find 2 (metronomeWritten.run (List.replicate 20 Op.tick)).channels =
      some { metronome with beatStart := 1 } ∧
    ((metronomeWritten.run (List.replicate 20 Op.tick)).step Op.tick).2 =
      [Event.noteOn 10 2 70 127 11750, Event.noteOff 10 2 70 12000,
       Event.handlerCall 7 8 2 0 127 250 250, Event.timer 11 12000] ∧
    (List.range 24).map
        (fun n => (((metronomeWritten.run (List.replicate n Op.tick)).step Op.tick).2.filter
          (fun e => decide (e.noteOnKey? = some 70))).length) =
      [1, 0, 0, 0, 1, 0, 0, 0, 1, 0, 0, 0, 1, 0, 0, 0, 1, 0, 0, 0, 1, 0, 0, 0] := by
  have hrun : Running metronomeWritten :=
    Running.step runningState (Op.write 2 metronome)
      (Running.init (Sequencer.new exampleStorage) exampleBackend exampleSynth 120 7 8
        runningState [Event.timer 11 1500] (by decide))
  have h := (loop_periodicity metronomeWritten 2 metronome downBeat []
    [⟨60, 127, 500, 250, 0⟩, ⟨60, 127, 1000, 250, 0⟩, ⟨60, 127, 1500, 250, 0⟩]
    (List.replicate 20 Op.tick) hrun (by decide) (by decide) (by decide) (by decide)
    (by decide) (by decide) (by decide) (by decide)).2.2.2
  refine ⟨hrun, ?_, by decide, by decide⟩
  rw [h]
  decide

/-- With a positive beat length, a note lies in the window of beat position `r` exactly
when its offset is non-negative and `r` is the quotient of the offset by the beat
length. -/
theorem window_iff_quotient (m r off : Int) (hm : 0 < m) (hr : 0 ≤ r) :
    (m * r ≤ off ∧ off < m * r + m) ↔ (0 ≤ off ∧ r = off / m) := by
  constructor
  · rintro ⟨h1, h2⟩
    have h0 : 0 ≤ m * r := mul_nonneg (le_of_lt hm) hr
    refine ⟨by omega, ?_⟩
    have ha : r ≤ off / m := (Int.le_ediv_iff_mul_le hm).2 (by rw [mul_comm]; exact h1)
    have hb : off / m < r + 1 := (Int.ediv_lt_iff_lt_mul hm).2 (by
      have : (r + 1) * m = m * r + m := by ring
      rw [this]
      exact h2)
    omega
  · rintro ⟨_, h2⟩
    have h3 := Int.emod_add_ediv off m
    have h4 := Int.emod_nonneg off (ne_of_gt hm)
    have h5 := Int.emod_lt_of_pos off hm
    rw [h2]
    constructor <;> linarith

theorem tickCount_replicate (j : Nat) : tickCount (List.replicate j Op.tick) = j := by
  induction j with
  | zero => rfl
  | succ n ih => simp [List.replicate_succ, tickCount, ih]

theorem replicate_tick_untouched (c : Int) (j : Nat) :
    ∀ op ∈ List.replicate j Op.tick, Op.touches c op = false := by
  intro op hop
  rw [List.eq_of_mem_replicate hop]
  rfl

/-- C18.  Each note is dispatched exactly once per loop iteration.  Take a layer stored
under channel `c` that is not muted, has `beatCount = k > 0`, with `msPerBeat = m > 0`
and `beatStart <= globalBeatCount`, and let calls follow that neither write nor toggle
channel `c`.  The tick that comes after `j` earlier ticks computes the beat position
`beatPos = (globalBeatCount + 1 + j - anchor) mod k`, between `0` and `k - 1` and one
more (modulo `k`) after each tick, and the events it returns hold, at the place of a
note of the layer (after the events of the entries and notes before it, before those of
the notes and entries after it and the timer), the note-on, note-off and handler call of
the note when `0 <= msOffset < k * m` and `beatPos = msOffset div m`, and nothing
otherwise.  A note with `0 <= msOffset < k * m` meets this condition in exactly one of
the next `k` ticks, and a note with `msOffset < 0` or `msOffset >= k * m` in no tick at
all. -/
theorem each_note_once_per_iteration (s : Sequencer) (c : Int) (l : Layer) (note : Note)
    (n1 n2 : List Note)
    (hfind : ChannelMap.find c s.channels = some l) (hm : l.muted = false)
    (hk : 0 < l.beatCount) (hmpb : 0 < s.msPerBeat) (hanch : l.beatStart ≤ s.globalBeatCount)
    (hnote : l.notes = n1 ++ note :: n2) :
    let anchor := if l.beatStart = -1 then s.globalBeatCount + 1 else l.beatStart
    (∀ ops : List Op, (∀ op ∈ ops, Op.touches c op = false) →
      (s.run ops).tickBeatPos c =
        some ((s.globalBeatCount + 1 + (tickCount ops : Int) - anchor) % l.beatCount) ∧
      0 ≤ (s.globalBeatCount + 1 + (tickCount ops : Int) - anchor) % l.beatCount ∧
      (s.globalBeatCount + 1 + (tickCount ops : Int) - anchor) % l.beatCount < l.beatCount ∧
      (∃ m1 m2 : ChannelMap,
        (s.run ops).channels =
          m1 ++ (c, if tickCount ops = 0 then l else { l with beatStart := anchor }) :: m2 ∧
        (∀ e ∈ m1, e.1 ≠ c) ∧
        ((s.run ops).step Op.tick).2 =
          m1.flatMap (fun e => e.2.notes.flatMap ((s.run ops).advance.noteEvents e.2)) ++
          n1.flatMap ((s.run ops).advance.noteEvents
            (if tickCount ops = 0 then l else { l with beatStart := anchor })) ++
          (if 0 ≤ note.msOffset ∧ note.msOffset < l.beatCount * s.msPerBeat ∧
              (s.globalBeatCount + 1 + (tickCount ops : Int) - anchor) % l.beatCount =
                note.msOffset / s.msPerBeat then
            [Event.noteOn (s.run ops).synthSeqID l.channel note.pitch note.velocity
               (toU32 ((s.run ops).advance.now + note.msOffset - s.msPerBeat *
                 ((s.globalBeatCount + 1 + (tickCount ops : Int) - anchor) % l.beatCount))),
             Event.noteOff (s.run ops).synthSeqID l.channel note.pitch
               (toU32 ((s.run ops).advance.now + note.msOffset - s.msPerBeat *
                 ((s.globalBeatCount + 1 + (tickCount ops : Int) - anchor) % l.beatCount) +
                 note.msDuration)),
             Event.handlerCall (s.run ops).handler (s.run ops).callData l.channel note.position
               note.velocity
               (note.msOffset - s.msPerBeat *
                 ((s.globalBeatCount + 1 + (tickCount ops : Int) - anchor) % l.beatCount) +
                 s.msPerBeat.tdiv 2) note.msDuration]
           else []) ++
          n2.flatMap ((s.run ops).advance.noteEvents
            (if tickCount ops = 0 then l else { l with beatStart := anchor })) ++
          m2.flatMap (fun e => e.2.notes.flatMap ((s.run ops).advance.noteEvents e.2)) ++
          [Event.timer (s.run ops).mySeqID ((s.run ops).step Op.tick).1.now]) ∧
      ((s.run ops).tickDispatches c note = true ↔
        0 ≤ note.msOffset ∧ note.msOffset < l.beatCount * s.msPerBeat ∧
          (s.globalBeatCount + 1 + (tickCount ops : Int) - anchor) % l.beatCount =
            note.msOffset / s.msPerBeat)) ∧
    (0 ≤ note.msOffset → note.msOffset < l.beatCount * s.msPerBeat →
      ∃! j : Nat, (j : Int) < l.beatCount ∧
        (s.globalBeatCount + 1 + (j : Int) - anchor) % l.beatCount =
          note.msOffset / s.msPerBeat) ∧
    (note.msOffset < 0 ∨ l.beatCount * s.msPerBeat ≤ note.msOffset →
      ∀ j : Nat, ¬ (0 ≤ note.msOffset ∧ note.msOffset < l.beatCount * s.msPerBeat ∧
        (s.globalBeatCount + 1 + (j : Int) - anchor) % l.beatCount =
          note.msOffset / s.msPerBeat)) := by
  intro anchor
  have hk0 : l.beatCount ≠ 0 := by omega
  have hne : anchor ≠ -1 := by
    simp only [anchor]
    by_cases hb : l.beatStart = -1
    · simp only [hb, if_true]
      omega
    · simp only [hb, if_false]
      exact hb
  have hd : 0 ≤ s.globalBeatCount + 1 - anchor := by
    simp only [anchor]
    by_cases hb : l.beatStart = -1
    · simp [hb]
    · simp only [hb, if_false]
      omega
  refine ⟨?_, ?_, ?_⟩
  · intro ops hops
    have hinv := run_anchored_invariant c l s.globalBeatCount anchor hm hk0 rfl hne ops s 0 hops
      (by simpa using hfind) (by simp)
    simp only [Nat.zero_add] at hinv
    obtain ⟨hf, hgc, hmp⟩ := hinv
    have hjn : (0 : Int) ≤ (tickCount ops : Int) := Int.natCast_nonneg _
    have hnn : 0 ≤ s.globalBeatCount + 1 + (tickCount ops : Int) - anchor := by omega
    have hbp := tickBeatPos_anchored (s.run ops) c l s.globalBeatCount anchor (tickCount ops)
      hm hk0 rfl hne hf hgc
    rw [Int.tmod_eq_emod hnn (le_of_lt hk)] at hbp
    have hr0 := Int.emod_nonneg (s.globalBeatCount + 1 + (tickCount ops : Int) - anchor) hk0
    have hr1 := Int.emod_lt_of_pos (s.globalBeatCount + 1 + (tickCount ops : Int) - anchor) hk
    have hwin : (s.msPerBeat *
          ((s.globalBeatCount + 1 + (tickCount ops : Int) - anchor) % l.beatCount) ≤
            note.msOffset ∧
        note.msOffset < s.msPerBeat *
          ((s.globalBeatCount + 1 + (tickCount ops : Int) - anchor) % l.beatCount) +
            s.msPerBeat) ↔
        (0 ≤ note.msOffset ∧ note.msOffset < l.beatCount * s.msPerBeat ∧
          (s.globalBeatCount + 1 + (tickCount ops : Int) - anchor) % l.beatCount =
            note.msOffset / s.msPerBeat) := by
      rw [window_iff_quotient s.msPerBeat _ note.msOffset hmpb hr0]
      constructor
      · rintro ⟨h0, hq⟩
        refine ⟨h0, ?_, hq⟩
        have h3 := Int.emod_add_ediv note.msOffset s.msPerBeat
        have h5 := Int.emod_lt_of_pos note.msOffset hmpb
        have h6 : s.msPerBeat * (note.msOffset / s.msPerBeat + 1) ≤ s.msPerBeat * l.beatCount :=
          mul_le_mul_of_nonneg_left (by omega) (le_of_lt hmpb)
        nlinarith
      · rintro ⟨h0, _, hq⟩
        exact ⟨h0, hq⟩
    refine ⟨hbp, hr0, hr1, ?_, ?_⟩
    · obtain ⟨m1, m2, hsplit, hkeys, hev⟩ := tick_note_segment (s.run ops) c l s.globalBeatCount
        anchor (tickCount ops) note n1 n2 hm hk0 rfl hne hf hgc hnote
      refine ⟨m1, m2, hsplit, hkeys, ?_⟩
      rw [hev, Int.tmod_eq_emod hnn (le_of_lt hk), hmp]
      congr 4
      by_cases hs : noteSkipped s.msPerBeat (s.msPerBeat *
          ((s.globalBeatCount + 1 + (tickCount ops : Int) - anchor) % l.beatCount)) note = true
      · have hnd : ¬ (0 ≤ note.msOffset ∧ note.msOffset < l.beatCount * s.msPerBeat ∧
            (s.globalBeatCount + 1 + (tickCount ops : Int) - anchor) % l.beatCount =
              note.msOffset / s.msPerBeat) := by
          intro hdue
          have := (noteSkipped_eq_false _ _ note).2 (hwin.2 hdue)
          simp [hs] at this
        rw [if_pos hs, if_neg hnd]
      · have hdue := hwin.1 ((noteSkipped_eq_false _ _ note).1 (by simpa using hs))
        rw [if_neg hs, if_pos hdue, dispatchNote_eq]
        have hmsp : (s.run ops).advance.msPerBeat = s.msPerBeat := hmp
        rw [hmsp]
        rfl
    · rw [tickDispatches_anchored (s.run ops) c l s.globalBeatCount anchor (tickCount ops) note
        hm hk0 rfl hne hf hgc, Int.tmod_eq_emod hnn (le_of_lt hk), hmp]
      exact hwin
  · intro h0 h1
    have hq0 : 0 ≤ note.msOffset / s.msPerBeat := Int.ediv_nonneg h0 (le_of_lt hmpb)
    have hq1 : note.msOffset / s.msPerBeat < l.beatCount := Int.ediv_lt_of_lt_mul hmpb h1
    have hre : ∀ j : Nat, s.globalBeatCount + 1 + (j : Int) - anchor =
        s.globalBeatCount + 1 - anchor + (j : Int) := by
      intro j
      ring
    have hjs0 : 0 ≤ (note.msOffset / s.msPerBeat - (s.globalBeatCount + 1 - anchor)) %
        l.beatCount := Int.emod_nonneg _ hk0
    have hjs1 : (note.msOffset / s.msPerBeat - (s.globalBeatCount + 1 - anchor)) %
        l.beatCount < l.beatCount := Int.emod_lt_of_pos _ hk
    refine ⟨((note.msOffset / s.msPerBeat - (s.globalBeatCount + 1 - anchor)) %
      l.beatCount).toNat, ⟨?_, ?_⟩, ?_⟩
    · rw [Int.toNat_of_nonneg hjs0]
      exact hjs1
    · rw [hre, Int.toNat_of_nonneg hjs0, Int.add_emod_emod]
      have he : s.globalBeatCount + 1 - anchor +
          (note.msOffset / s.msPerBeat - (s.globalBeatCount + 1 - anchor)) =
            note.msOffset / s.msPerBeat := by ring
      rw [he]
      exact Int.emod_eq_of_lt hq0 hq1
    · rintro j ⟨hj1, hj2⟩
      rw [hre] at hj2
      have hjn : (0 : Int) ≤ (j : Int) := Int.natCast_nonneg _
      have h1' : (s.globalBeatCount + 1 - anchor + (j : Int)) % l.beatCount =
          (s.globalBeatCount + 1 - anchor +
            (note.msOffset / s.msPerBeat - (s.globalBeatCount + 1 - anchor)) % l.beatCount) %
              l.beatCount := by
        rw [hj2, Int.add_emod_emod]
        have he : s.globalBeatCount + 1 - anchor +
            (note.msOffset / s.msPerBeat - (s.globalBeatCount + 1 - anchor)) =
              note.msOffset / s.msPerBeat := by ring
        rw [he]
        exact (Int.emod_eq_of_lt hq0 hq1).symm
      have h2' : (j : Int) % l.beatCount =
          ((note.msOffset / s.msPerBeat - (s.globalBeatCount + 1 - anchor)) % l.beatCount) %
            l.beatCount := Int.ModEq.add_left_cancel' _ h1'
      rw [Int.emod_eq_of_lt hjn hj1, Int.emod_eq_of_lt hjs0 hjs1] at h2'
      omega
  · intro hout j hdue
    omega

/-- C18, witness: the metronome (4 beats of 500) anchored at beat 0 in a sequencer at
beat 0; its down-beat note, at offset 0 and of key 70, is the first of its notes.  Of
the next four ticks, whose beat positions are 1, 2, 3 and 0, the last one alone returns
a note-on of key 70: it returns the three events of the down-beat note, dated at its
clock `3250`, and the timer. -/
theorem each_note_once_per_iteration_witness :
    ChannelMap.find 2 anchoredMetronome.channels = some { metronome with beatStart := 0 } ∧
    ((anchoredMetronome.run (List.replicate 3 Op.tick)).step Op.tick).2 =
      [Event.noteOn 10 2 70 127 3250, Event.noteOff 10 2 70 3500,
       Event.handlerCall 7 8 2 0 127 250 250, Event.timer 11 3500] ∧
    (List.range 4).map
        (fun j => (((anchoredMetronome.run (List.replicate j Op.tick)).step Op.tick).2.filter
          (fun e => decide (e.noteOnKey? = some 70))).length) = [0, 0, 0, 1] ∧
    ∃! j : Nat, (j : Int) < 4 ∧
      (anchoredMetronome.globalBeatCount + 1 + (j : Int) - 0) % 4 = 0 / 500 := by
  refine ⟨by decide, by decide, by decide, ?_⟩
  exact (each_note_once_per_iteration anchoredMetronome 2 { metronome with beatStart := 0 }
    downBeat [] [⟨60, 127, 500, 250, 0⟩, ⟨60, 127, 1000, 250, 0⟩, ⟨60, 127, 1500, 250, 0⟩]
    (by decide) (by decide) (by decide) (by decide) (by decide) (by decide)).2.1
    (by decide) (by decide)

theorem step_handler (s : Sequencer) (op : Op) :
    (s.step op).1.handler = s.handler ∧ (s.step op).1.callData = s.callData := by
  cases op with
  | tick =>
    show s.scheduleLayers.1.handler = _ ∧ s.scheduleLayers.1.callData = _
    rw [scheduleLayers_fst]
    exact ⟨rfl, rfl⟩
  | write c l => exact ⟨rfl, rfl⟩
  | toggle c =>
    show (s.toggleLayerIfExists c).1.handler = _ ∧ (s.toggleLayerIfExists c).1.callData = _
    cases h : ChannelMap.find c s.channels with
    | none =>
      rw [toggle_absent s c h]
      exact ⟨rfl, rfl⟩
    | some l =>
      rw [toggle_present s c l h]
      exact ⟨rfl, rfl⟩

theorem run_handler (ops : List Op) :
    ∀ s : Sequencer, (s.run ops).handler = s.handler ∧ (s.run ops).callData = s.callData := by
  induction ops with
  | nil =>
    intro s
    exact ⟨rfl, rfl⟩
  | cons op ops ih =>
    intro s
    have h := ih (s.step op).1
    have h1 := step_handler s op
    rw [show Sequencer.run s (op :: ops) = Sequencer.run (s.step op).1 ops from rfl]
    exact ⟨h.1.trans h1.1, h.2.trans h1.2⟩

theorem consecutiveLayerEvents_eq (c : Int) (n : Nat) :
    ∀ s : Sequencer, s.consecutiveLayerEvents c n =
      (List.range n).flatMap (fun j => (s.run (List.replicate j Op.tick)).layerEvents c) := by
  induction n with
  | zero =>
    intro s
    rfl
  | succ n ih =>
    intro s
    rw [Sequencer.consecutiveLayerEvents, ih, List.range_succ_eq_map, List.flatMap_cons,
      List.flatMap_map]
    rfl

theorem tmod_four_of_multiple (d : Int) (hd : 0 ≤ d) (h4 : d % 4 = 0) (j : Nat) (hj : j < 4) :
    (d + (j : Int)).tmod 4 = (j : Int) := by
  have hjn : (0 : Int) ≤ (j : Int) := Int.natCast_nonneg _
  rw [Int.tmod_eq_emod (by omega) (by norm_num)]
  omega

/-- C12, counterexample.  At 120 beats per minute (`msPerBeat = 500`) the two-note layer
(offsets 0 and 500, 4 beats, not muted) is written to the running sequencer.  The tick
that follows has `beatPos = 0`; that tick and the next each call the handler once, the
two ticks after them not at all: 2 handler calls in the loop iteration, not 4.  When the
same layer is anchored ahead of the beat count (`beatStart = 5` at beat 0) the tick
that follows also has `beatPos = 0`, but the four ticks call the handler once only. -/
theorem two_note_loop_calls_handler_twice :
    twoNoteWritten.msPerBeat = 500 ∧
    ChannelMap.find 2 twoNoteWritten.channels = some twoNoteLayer ∧
    twoNoteLayer.muted = false ∧ twoNoteLayer.beatCount = 4 ∧
    twoNoteLayer.notes.map (fun n => n.msOffset) = [0, 500] ∧
    twoNoteWritten.tickBeatPos 2 = some 0 ∧
    (List.range 4).map (fun j =>
        ((twoNoteWritten.run (List.replicate j Op.tick)).scheduleLayers.2.filter
          Event.isHandlerCall).length) = [1, 1, 0, 0] ∧
    (twoNoteWritten.consecutiveLayerEvents 2 4).filter Event.isHandlerCall =
      [Event.handlerCall 7 8 2 0 127 250 250, Event.handlerCall 7 8 2 0 127 250 250] ∧
    ((twoNoteWritten.consecutiveLayerEvents 2 4).filter Event.isHandlerCall).length ≠ 4 ∧
    twoNoteAhead.tickBeatPos 2 = some 0 ∧
    ((twoNoteAhead.consecutiveLayerEvents 2 4).filter Event.isHandlerCall).length = 1 := by
  decide

theorem step_ids (s : Sequencer) (op : Op) :
    (s.step op).1.synthSeqID = s.synthSeqID ∧ (s.step op).1.mySeqID = s.mySeqID := by
  cases op with
  | tick =>
    show s.scheduleLayers.1.synthSeqID = _ ∧ s.scheduleLayers.1.mySeqID = _
    rw [scheduleLayers_fst]
    exact ⟨rfl, rfl⟩
  | write c l => exact ⟨rfl, rfl⟩
  | toggle c =>
    show (s.toggleLayerIfExists c).1.synthSeqID = _ ∧ (s.toggleLayerIfExists c).1.mySeqID = _
    cases h : ChannelMap.find c s.channels with
    | none =>
      rw [toggle_absent s c h]
      exact ⟨rfl, rfl⟩
    | some l =>
      rw [toggle_present s c l h]
      exact ⟨rfl, rfl⟩

theorem run_ids (ops : List Op) :
    ∀ s : Sequencer, (s.run ops).synthSeqID = s.synthSeqID ∧ (s.run ops).mySeqID = s.mySeqID := by
  induction ops with
  | nil =>
    intro s
    exact ⟨rfl, rfl⟩
  | cons op ops ih =>
    intro s
    have h := ih (s.step op).1
    have h1 := step_ids s op
    rw [show Sequencer.run s (op :: ops) = Sequencer.run (s.step op).1 ops from rfl]
    exact ⟨h.1.trans h1.1, h.2.trans h1.2⟩

theorem consecutiveTickEvents_eq (n : Nat) :
    ∀ s : Sequencer, s.consecutiveTickEvents n =
      (List.range n).flatMap (fun j => ((s.run (List.replicate j Op.tick)).step Op.tick).2) := by
  induction n with
  | zero =>
    intro s
    rfl
  | succ n ih =>
    intro s
    rw [Sequencer.consecutiveTickEvents, ih, List.range_succ_eq_map, List.flatMap_cons,
      List.flatMap_map]
    rfl

theorem run_ticks_channels_length (j : Nat) :
    ∀ s : Sequencer, (s.run (List.replicate j Op.tick)).channels.length = s.channels.length := by
  induction j with
  | zero =>
    intro s
    rfl
  | succ j ih =>
    intro s
    rw [show s.run (List.replicate (j + 1) Op.tick) =
      Sequencer.run (s.step Op.tick).1 (List.replicate j Op.tick) from rfl, ih, step_tick,
      scheduleLayers_fst]
    simp

/-- The three events of a note that lies at the start of the window of its tick: the
note-on is dated at the clock of the tick and the lead time given to the handler is half
a beat. -/
theorem dispatchNote_on_beat (u : Sequencer) (channel bpd : Int) (n : Note)
    (h : n.msOffset = bpd) :
    u.advance.dispatchNote channel bpd n =
      [Event.noteOn u.synthSeqID channel n.pitch n.velocity u.advance.now,
       Event.noteOff u.synthSeqID channel n.pitch (toU32 (u.advance.now + n.msDuration)),
       Event.handlerCall u.handler u.callData channel n.position n.velocity
         (u.msPerBeat.tdiv 2) n.msDuration] := by
  rw [dispatchNote_eq, h]
  have h1 : (u.advance.now : Int) + bpd - bpd = (u.advance.now : Int) := by ring
  have h2 : bpd - bpd + u.advance.msPerBeat.tdiv 2 = u.msPerBeat.tdiv 2 := by
    have : u.advance.msPerBeat = u.msPerBeat := rfl
    rw [this]
    ring
  have h3 : toU32 (u.advance.now : Int) = u.advance.now := toU32_idem _
  rw [h1, h2, h3]
  rfl

/-- C12, amended.  End-to-end metronome: at 120 beats per minute (`msPerBeat = 500`), a
layer that is not muted, has `beatCount = 4`, has `beatStart <= globalBeatCount` and
holds two notes, one at `msOffset = 0` and one at `msOffset = 500`, produces exactly 2
handler calls per loop iteration (the 4 consecutive ticks from a tick where
`beatPos = 0`).  The events each of the four ticks returns are those of the entries
before the layer, those of the layer, those of the entries after it and the timer, and
those of the layer are: in the first tick the note-on, note-off and handler call of the
note at offset 0, in the second tick those of the note at offset 500, each handler call
with lead time 250, and nothing in the other two ticks.  When the layer is the only one
of the map, the handler calls among all the events the four ticks return are these two,
in this order. -/
theorem two_note_loop_two_calls (s : Sequencer) (c : Int) (l : Layer) (n0 n1 : Note)
    (hmpb : s.msPerBeat = 500) (hfind : ChannelMap.find c s.channels = some l)
    (hm : l.muted = false) (hk : l.beatCount = 4)
    (hnotes : l.notes = [n0, n1] ∨ l.notes = [n1, n0])
    (hn0 : n0.msOffset = 0) (hn1 : n1.msOffset = 500)
    (hanch : l.beatStart ≤ s.globalBeatCount) (hbp : s.tickBeatPos c = some 0) :
    (∀ j : Nat, j < 4 →
      ∃ (m1 m2 : ChannelMap) (lj : Layer),
        (s.run (List.replicate j Op.tick)).channels = m1 ++ (c, lj) :: m2 ∧
        (∀ e ∈ m1, e.1 ≠ c) ∧
        ((s.run (List.replicate j Op.tick)).step Op.tick).2 =
          m1.flatMap (fun e => e.2.notes.flatMap
            ((s.run (List.replicate j Op.tick)).advance.noteEvents e.2)) ++
          (if j = 0 then
            [Event.noteOn s.synthSeqID l.channel n0.pitch n0.velocity
               (s.run (List.replicate j Op.tick)).advance.now,
             Event.noteOff s.synthSeqID l.channel n0.pitch
               (toU32 ((s.run (List.replicate j Op.tick)).advance.now + n0.msDuration)),
             Event.handlerCall s.handler s.callData l.channel n0.position n0.velocity 250
               n0.msDuration]
           else if j = 1 then
            [Event.noteOn s.synthSeqID l.channel n1.pitch n1.velocity
               (s.run (List.replicate j Op.tick)).advance.now,
             Event.noteOff s.synthSeqID l.channel n1.pitch
               (toU32 ((s.run (List.replicate j Op.tick)).advance.now + n1.msDuration)),
             Event.handlerCall s.handler s.callData l.channel n1.position n1.velocity 250
               n1.msDuration]
           else []) ++
          m2.flatMap (fun e => e.2.notes.flatMap
            ((s.run (List.replicate j Op.tick)).advance.noteEvents e.2)) ++
          [Event.timer s.mySeqID
            ((s.run (List.replicate j Op.tick)).step Op.tick).1.now]) ∧
    (s.channels = [(c, l)] →
      (s.consecutiveTickEvents 4).filter Event.isHandlerCall =
        [Event.handlerCall s.handler s.callData l.channel n0.position n0.velocity 250
           n0.msDuration,
         Event.handlerCall s.handler s.callData l.channel n1.position n1.velocity 250
           n1.msDuration] ∧
      ((s.consecutiveTickEvents 4).filter Event.isHandlerCall).length = 2) ∧
    (s.consecutiveLayerEvents c 4).filter Event.isHandlerCall =
      [Event.handlerCall s.handler s.callData l.channel n0.position n0.velocity 250 n0.msDuration,
       Event.handlerCall s.handler s.callData l.channel n1.position n1.velocity 250
         n1.msDuration] ∧
    ((s.consecutiveLayerEvents c 4).filter Event.isHandlerCall).length = 2 := by
  have hk0 : l.beatCount ≠ 0 := by omega
  have hne : (if l.beatStart = -1 then s.globalBeatCount + 1 else l.beatStart) ≠ -1 := by
    by_cases hb : l.beatStart = -1
    · simp only [hb, if_true]
      omega
    · simp only [hb, if_false]
      exact hb
  have hd : 0 ≤ s.globalBeatCount + 1 -
      (if l.beatStart = -1 then s.globalBeatCount + 1 else l.beatStart) := by
    by_cases hb : l.beatStart = -1
    · simp [hb]
    · simp only [hb, if_false]
      omega
  have hd4 : (s.globalBeatCount + 1 -
      (if l.beatStart = -1 then s.globalBeatCount + 1 else l.beatStart)) % 4 = 0 := by
    have h := tickBeatPos_anchored s c l s.globalBeatCount _ 0 hm hk0 rfl hne
      (by simpa using hfind) (by simp)
    rw [hbp, hk] at h
    have h1 := (Option.some.inj h).symm
    simp only [Nat.cast_zero, add_zero] at h1
    rw [Int.tmod_eq_emod hd (by norm_num)] at h1
    exact h1
  have hstate : ∀ j : Nat, j < 4 →
      ChannelMap.find c (s.run (List.replicate j Op.tick)).channels =
        some (if j = 0 then l else { l with beatStart :=
          if l.beatStart = -1 then s.globalBeatCount + 1 else l.beatStart }) ∧
      (s.run (List.replicate j Op.tick)).globalBeatCount = s.globalBeatCount + (j : Int) ∧
      (s.run (List.replicate j Op.tick)).msPerBeat = 500 ∧
      (s.globalBeatCount + 1 + (j : Int) -
        (if l.beatStart = -1 then s.globalBeatCount + 1 else l.beatStart)).tmod l.beatCount =
          (j : Int) := by
    intro j hj
    have hinv := run_anchored_invariant c l s.globalBeatCount _ hm hk0 rfl hne
      (List.replicate j Op.tick) s 0 (replicate_tick_untouched c j) (by simpa using hfind)
      (by simp)
    simp only [Nat.zero_add, tickCount_replicate] at hinv
    obtain ⟨hf, hgc, hmp⟩ := hinv
    refine ⟨hf, hgc, by rw [hmp, hmpb], ?_⟩
    have he : s.globalBeatCount + 1 + (j : Int) -
        (if l.beatStart = -1 then s.globalBeatCount + 1 else l.beatStart) =
        (s.globalBeatCount + 1 -
          (if l.beatStart = -1 then s.globalBeatCount + 1 else l.beatStart)) + (j : Int) := by
      ring
    rw [he, hk, tmod_four_of_multiple _ hd hd4 j hj]
  have hlayer : ∀ j : Nat, j < 4 →
      l.notes.flatMap ((s.run (List.replicate j Op.tick)).advance.noteEvents
        (if j = 0 then l else { l with beatStart :=
          if l.beatStart = -1 then s.globalBeatCount + 1 else l.beatStart })) =
      (if j = 0 then
        [Event.noteOn s.synthSeqID l.channel n0.pitch n0.velocity
           (s.run (List.replicate j Op.tick)).advance.now,
         Event.noteOff s.synthSeqID l.channel n0.pitch
           (toU32 ((s.run (List.replicate j Op.tick)).advance.now + n0.msDuration)),
         Event.handlerCall s.handler s.callData l.channel n0.position n0.velocity 250
           n0.msDuration]
       else if j = 1 then
        [Event.noteOn s.synthSeqID l.channel n1.pitch n1.velocity
           (s.run (List.replicate j Op.tick)).advance.now,
         Event.noteOff s.synthSeqID l.channel n1.pitch
           (toU32 ((s.run (List.replicate j Op.tick)).advance.now + n1.msDuration)),
         Event.handlerCall s.handler s.callData l.channel n1.position n1.velocity 250
           n1.msDuration]
       else []) := by
    intro j hj
    obtain ⟨hf, hgc, hmp, hpos⟩ := hstate j hj
    have hh := run_handler (List.replicate j Op.tick) s
    have hid := run_ids (List.replicate j Op.tick) s
    have hnote : ∀ n : Note,
        (s.run (List.replicate j Op.tick)).advance.noteEvents
          (if j = 0 then l else { l with beatStart :=
            if l.beatStart = -1 then s.globalBeatCount + 1 else l.beatStart }) n =
        if noteSkipped 500 (500 * (j : Int)) n then []
        else (s.run (List.replicate j Op.tick)).advance.dispatchNote l.channel
          (500 * (j : Int)) n := by
      intro n
      rw [noteEvents_anchored (s.run (List.replicate j Op.tick)) l s.globalBeatCount _ j n hm hk0
        rfl hne hgc, hmp, hpos]
    have hon : ∀ n : Note, n.msOffset = 500 * (j : Int) →
        (s.run (List.replicate j Op.tick)).advance.noteEvents
          (if j = 0 then l else { l with beatStart :=
            if l.beatStart = -1 then s.globalBeatCount + 1 else l.beatStart }) n =
        [Event.noteOn s.synthSeqID l.channel n.pitch n.velocity
           (s.run (List.replicate j Op.tick)).advance.now,
         Event.noteOff s.synthSeqID l.channel n.pitch
           (toU32 ((s.run (List.replicate j Op.tick)).advance.now + n.msDuration)),
         Event.handlerCall s.handler s.callData l.channel n.position n.velocity 250
           n.msDuration] := by
      intro n hoff
      have hs : noteSkipped 500 (500 * (j : Int)) n = false := by
        rw [noteSkipped_eq_false]
        omega
      rw [hnote n, hs, dispatchNote_on_beat _ l.channel _ n hoff, hid.1, hh.1, hh.2, hmp]
      rfl
    have hoffbeat : ∀ n : Note, n.msOffset < 500 * (j : Int) ∨ 500 * (j : Int) + 500 ≤ n.msOffset →
        (s.run (List.replicate j Op.tick)).advance.noteEvents
          (if j = 0 then l else { l with beatStart :=
            if l.beatStart = -1 then s.globalBeatCount + 1 else l.beatStart }) n = [] := by
      intro n hout
      have hs : noteSkipped 500 (500 * (j : Int)) n = true := by
        cases hsk : noteSkipped 500 (500 * (j : Int)) n with
        | true => rfl
        | false =>
          rw [noteSkipped_eq_false] at hsk
          omega
      rw [hnote n, hs]
      rfl
    generalize (s.run (List.replicate j Op.tick)).advance.noteEvents
      (if j = 0 then l else { l with beatStart :=
        if l.beatStart = -1 then s.globalBeatCount + 1 else l.beatStart }) = F at hon hoffbeat ⊢
    by_cases hj0 : j = 0
    · have e0 := hon n0 (by rw [hn0, hj0]; rfl)
      have e1 := hoffbeat n1 (Or.inr (by rw [hn1, hj0]; norm_num))
      rw [if_pos hj0]
      rcases hnotes with hno | hno
      · rw [hno]
        simp only [List.flatMap_cons, List.flatMap_nil, e0, e1, List.append_nil]
      · rw [hno]
        simp only [List.flatMap_cons, List.flatMap_nil, e0, e1, List.append_nil, List.nil_append]
    · by_cases hj1 : j = 1
      · have e0 := hoffbeat n0 (Or.inl (by rw [hn0, hj1]; norm_num))
        have e1 := hon n1 (by rw [hn1, hj1]; norm_num)
        rw [if_neg hj0, if_pos hj1]
        rcases hnotes with hno | hno
        · rw [hno]
          simp only [List.flatMap_cons, List.flatMap_nil, e0, e1, List.append_nil,
            List.nil_append]
        · rw [hno]
          simp only [List.flatMap_cons, List.flatMap_nil, e0, e1, List.append_nil]
      · have hj2 : (2 : Int) ≤ (j : Int) := by omega
        have e0 := hoffbeat n0 (Or.inl (by rw [hn0]; omega))
        have e1 := hoffbeat n1 (Or.inl (by rw [hn1]; omega))
        rw [if_neg hj0, if_neg hj1]
        rcases hnotes with hno | hno
        · rw [hno]
          simp only [List.flatMap_cons, List.flatMap_nil, e0, e1, List.append_nil]
        · rw [hno]
          simp only [List.flatMap_cons, List.flatMap_nil, e0, e1, List.append_nil]
  have hnotesj : ∀ j : Nat, (if j = 0 then l else { l with beatStart :=
      if l.beatStart = -1 then s.globalBeatCount + 1 else l.beatStart }).notes = l.notes := by
    intro j
    by_cases hj : j = 0
    · simp [hj]
    · simp [hj]
  have hticks : ∀ j : Nat, j < 4 →
      ∃ (m1 m2 : ChannelMap) (lj : Layer),
        (s.run (List.replicate j Op.tick)).channels = m1 ++ (c, lj) :: m2 ∧
        (∀ e ∈ m1, e.1 ≠ c) ∧
        ((s.run (List.replicate j Op.tick)).step Op.tick).2 =
          m1.flatMap (fun e => e.2.notes.flatMap
            ((s.run (List.replicate j Op.tick)).advance.noteEvents e.2)) ++
          (if j = 0 then
            [Event.noteOn s.synthSeqID l.channel n0.pitch n0.velocity
               (s.run (List.replicate j Op.tick)).advance.now,
             Event.noteOff s.synthSeqID l.channel n0.pitch
               (toU32 ((s.run (List.replicate j Op.tick)).advance.now + n0.msDuration)),
             Event.handlerCall s.handler s.callData l.channel n0.position n0.velocity 250
               n0.msDuration]
           else if j = 1 then
            [Event.noteOn s.synthSeqID l.channel n1.pitch n1.velocity
               (s.run (List.replicate j Op.tick)).advance.now,
             Event.noteOff s.synthSeqID l.channel n1.pitch
               (toU32 ((s.run (List.replicate j Op.tick)).advance.now + n1.msDuration)),
             Event.handlerCall s.handler s.callData l.channel n1.position n1.velocity 250
               n1.msDuration]
           else []) ++
          m2.flatMap (fun e => e.2.notes.flatMap
            ((s.run (List.replicate j Op.tick)).advance.noteEvents e.2)) ++
          [Event.timer s.mySeqID
            ((s.run (List.replicate j Op.tick)).step Op.tick).1.now] := by
    intro j hj
    obtain ⟨hf, _, _, _⟩ := hstate j hj
    obtain ⟨m1, m2, hsplit, hkeys, hev⟩ :=
      tick_events_at_layer (s.run (List.replicate j Op.tick)) c _ hf
    refine ⟨m1, m2, _, hsplit, hkeys, ?_⟩
    rw [hev, hnotesj j, hlayer j hj, (run_ids (List.replicate j Op.tick) s).2]
  have hblocks : ∀ j : Nat, j < 4 →
      ((s.run (List.replicate j Op.tick)).layerEvents c).filter Event.isHandlerCall =
        if j = 0 then
          [Event.handlerCall s.handler s.callData l.channel n0.position n0.velocity 250
            n0.msDuration]
        else if j = 1 then
          [Event.handlerCall s.handler s.callData l.channel n1.position n1.velocity 250
            n1.msDuration]
        else [] := by
    intro j hj
    obtain ⟨hf, _, _, _⟩ := hstate j hj
    rw [layerEvents_eq _ c _ hf, hnotesj j, hlayer j hj]
    by_cases hj0 : j = 0
    · simp [hj0, Event.isHandlerCall]
    · by_cases hj1 : j = 1
      · simp [hj1, Event.isHandlerCall]
      · simp [hj0, hj1]
  have hr : List.range 4 = [0, 1, 2, 3] := by decide
  have hall : (s.consecutiveLayerEvents c 4).filter Event.isHandlerCall =
      [Event.handlerCall s.handler s.callData l.channel n0.position n0.velocity 250 n0.msDuration,
       Event.handlerCall s.handler s.callData l.channel n1.position n1.velocity 250
         n1.msDuration] := by
    rw [consecutiveLayerEvents_eq, List.filter_flatMap, hr]
    simp only [List.flatMap_cons, List.flatMap_nil, List.append_nil]
    rw [hblocks 0 (by norm_num), hblocks 1 (by norm_num), hblocks 2 (by norm_num),
      hblocks 3 (by norm_num)]
    simp
  refine ⟨hticks, ?_, hall, by rw [hall]; rfl⟩
  intro hsingle
  have hone : ∀ j : Nat, j < 4 →
      (((s.run (List.replicate j Op.tick)).step Op.tick).2).filter Event.isHandlerCall =
        if j = 0 then
          [Event.handlerCall s.handler s.callData l.channel n0.position n0.velocity 250
            n0.msDuration]
        else if j = 1 then
          [Event.handlerCall s.handler s.callData l.channel n1.position n1.velocity 250
            n1.msDuration]
        else [] := by
    intro j hj
    obtain ⟨m1, m2, lj, hsplit, _, hev⟩ := hticks j hj
    have hlen := run_ticks_channels_length j s
    rw [hsplit, hsingle] at hlen
    simp only [List.length_append, List.length_cons, List.length_nil] at hlen
    have hm1 : m1 = [] := List.length_eq_zero.1 (by omega)
    have hm2 : m2 = [] := List.length_eq_zero.1 (by omega)
    rw [hev, hm1, hm2]
    by_cases hj0 : j = 0
    · simp [hj0, Event.isHandlerCall]
    · by_cases hj1 : j = 1
      · simp [hj1, Event.isHandlerCall]
      · simp [hj0, hj1, Event.isHandlerCall]
  have hcount : (s.consecutiveTickEvents 4).filter Event.isHandlerCall =
      [Event.handlerCall s.handler s.callData l.channel n0.position n0.velocity 250
         n0.msDuration,
       Event.handlerCall s.handler s.callData l.channel n1.position n1.velocity 250
         n1.msDuration] := by
    rw [consecutiveTickEvents_eq, List.filter_flatMap, hr]
    simp only [List.flatMap_cons, List.flatMap_nil, List.append_nil]
    rw [hone 0 (by norm_num), hone 1 (by norm_num), hone 2 (by norm_num), hone 3 (by norm_num)]
    simp
  exact ⟨hcount, by rw [hcount]; rfl⟩

/-- C12, witness: the two-note layer written to the running sequencer, where it is the
only layer.  The four ticks of the loop iteration return, in order, the three events of
the note at offset 0 and a timer, the three events of the note at offset 500 and a
timer, a timer, and a timer: two handler calls in all. -/
theorem two_note_loop_two_calls_witness :
    twoNoteWritten.msPerBeat = 500 ∧ twoNoteWritten.tickBeatPos 2 = some 0 ∧
    twoNoteWritten.channels = [(2, twoNoteLayer)] ∧
    twoNoteWritten.consecutiveTickEvents 4 =
      [Event.noteOn 10 2 70 127 1750, Event.noteOff 10 2 70 2000,
       Event.handlerCall 7 8 2 0 127 250 250, Event.timer 11 2000,
       Event.noteOn 10 2 60 127 2250, Event.noteOff 10 2 60 2500,
       Event.handlerCall 7 8 2 0 127 250 250, Event.timer 11 2500,
       Event.timer 11 3000, Event.timer 11 3500] ∧
    ((twoNoteWritten.consecutiveTickEvents 4).filter Event.isHandlerCall).length = 2 := by
  have h := (two_note_loop_two_calls twoNoteWritten 2 twoNoteLayer ⟨70, 127, 0, 250, 0⟩
    ⟨60, 127, 500, 250, 0⟩ (by decide) (by decide) (by decide) (by decide)
    (Or.inl (by decide)) (by decide) (by decide) (by decide) (by decide)).2.1 (by decide)
  exact ⟨by decide, by decide, by decide, by decide, h.2⟩

/-! ## The visual store (claims C14 to C17) -/

/-- The inner loop of `update` deletes the blocks that meet the deletion test and
applies the animation step to the others, in place. -/
theorem blockLoop_eq {F : Type} (A : FloatOps F) (forward : Bool) (diff speed : Int) :
    ∀ (n : Nat) (blocks : List (Block F)), n ≤ blocks.length →
      blockLoop A forward diff speed n blocks =
        ((blocks.take n).filter (fun b => !blockDeleted A forward b)).map
          (updateBlock A forward diff speed) ++ blocks.drop n := by
  intro n
  induction n with
  | zero =>
    intro blocks _
    simp [blockLoop]
  | succ n ih =>
    intro blocks hn
    have hlt : n < blocks.length := by omega
    have hget : blocks[n]? = some blocks[n] := List.getElem?_eq_getElem hlt
    have htake : List.take (n + 1) blocks = List.take n blocks ++ [blocks[n]] := by
      rw [List.take_succ, hget]
      rfl
    have hlen : (List.take n blocks).length = n := by
      rw [List.length_take]
      omega
    by_cases hdel : blockDeleted A forward blocks[n] = true
    · have hrec : blockLoop A forward diff speed (n + 1) blocks =
          blockLoop A forward diff speed n (blocks.eraseIdx n) := by
        simp only [blockLoop, hget]
        by_cases h1 : (forward && A.lt A.oneAndHalf blocks[n].posFrac) = true
        · simp [h1]
        · have h2 : (!forward && A.lt (A.add blocks[n].posFrac blocks[n].sizeFrac)
              A.minusHalf) = true := by
            unfold blockDeleted at hdel
            rw [Bool.or_eq_true] at hdel
            exact hdel.resolve_left h1
          simp [h1, h2]
      have hle : n ≤ (blocks.eraseIdx n).length := by
        rw [List.length_eraseIdx]
        simp only [hlt, if_true]
        omega
      rw [hrec, ih (blocks.eraseIdx n) hle, List.eraseIdx_eq_take_drop_succ,
        List.take_left' hlen, List.drop_left' hlen, htake, List.filter_append]
      simp [hdel]
    · have hrec : blockLoop A forward diff speed (n + 1) blocks =
          blockLoop A forward diff speed n
            (blocks.set n (updateBlock A forward diff speed blocks[n])) := by
        simp only [blockLoop, hget]
        unfold blockDeleted at hdel
        rw [Bool.or_eq_true, not_or] at hdel
        simp [hdel.1, hdel.2]
      have hle : n ≤ (blocks.set n (updateBlock A forward diff speed blocks[n])).length := by
        rw [List.length_set]
        omega
      rw [hrec, ih _ hle, List.set_eq_take_append_cons_drop, if_pos hlt,
        List.take_left' hlen, List.drop_left' hlen, htake, List.filter_append]
      simp [hdel]

theorem stripeLoop_eq {F : Type} (A : FloatOps F) (now speed : Int)
    (stripes : List (LayerStripe F)) :
    stripeLoop A now speed stripes = stripes.map (updateStripe A now speed) := by
  induction stripes with
  | nil => rfl
  | cons st rest ih => simp [stripeLoop, ih]

/-- What `update` does to one stripe: the blocks that meet the deletion test go, the
others are animated, in their order; `lastTime` becomes `now`; nothing else changes. -/
theorem updateStripe_eq {F : Type} (A : FloatOps F) (now speed : Int) (st : LayerStripe F) :
    updateStripe A now speed st =
      { st with
        blocks := (st.blocks.filter (fun b => !blockDeleted A st.forward b)).map
          (updateBlock A st.forward (now - st.lastTime) speed),
        lastTime := now } := by
  unfold updateStripe
  simp only
  rw [blockLoop_eq A st.forward (now - st.lastTime) speed st.blocks.length st.blocks (le_refl _)]
  simp

theorem update_eq {F : Type} (A : FloatOps F) (app : ofApp F) (now : Int)
    (hbpm : app.beatsPerMinute ≠ 0) :
    app.update A now =
      some { app with stripes := app.stripes.map (updateStripe A now app.speed) } := by
  unfold ofApp.update ofApp.speed
  rw [if_neg hbpm]
  simp only [stripeLoop_eq]

theorem exactOps_lawful : exactOps.Lawful where
  lt_irrefl := by
    intro x
    simp [exactOps]
  add_zero_quotient := by
    intro n x _
    simp [exactOps]
  sub_zero_quotient := by
    intro n x _
    simp [exactOps]

/-- The stripe `update` leaves at index `i`. -/
theorem update_stripe_at {F : Type} (A : FloatOps F) (app : ofApp F) (now : Int)
    (hbpm : app.beatsPerMinute ≠ 0) :
    ∃ app1 : ofApp F, app.update A now = some app1 ∧
      app1.stripes.length = app.stripes.length ∧
      app1.beatsPerMinute = app.beatsPerMinute ∧ app1.beatsPerMeasure = app.beatsPerMeasure ∧
      app1.screenSize = app.screenSize ∧
      ∀ (i : Nat) (st : LayerStripe F), app.stripes[i]? = some st →
        app1.stripes[i]? = some
          { st with
            blocks := (st.blocks.filter (fun b => !blockDeleted A st.forward b)).map
              (updateBlock A st.forward (now - st.lastTime) app.speed),
            lastTime := now } := by
  refine ⟨_, update_eq A app now hbpm, ?_, rfl, rfl, rfl, ?_⟩
  · simp
  · intro i st hst
    simp only [List.getElem?_map, hst, Option.map_some', updateStripe_eq]

/-- C15.  Deletion rule of `ofApp::update`.  One call keeps the number of stripes and,
in each stripe, removes exactly the blocks for which, with the values they have when the
call starts, the stripe travels forward and `posFrac > 1.5`, or the stripe travels
backward and `posFrac + sizeFrac < -0.5`; the other blocks stay in their stripe, in
their order (each of them animated).  Since `<` is strict, a block with `posFrac`
equal to `1.5`, or with `posFrac + sizeFrac` equal to `-0.5`, is kept. -/
theorem update_deletion_rule {F : Type} (A : FloatOps F) (app : ofApp F) (now : Int)
    (hbpm : app.beatsPerMinute ≠ 0) :
    ∃ app1 : ofApp F, app.update A now = some app1 ∧
      app1.stripes.length = app.stripes.length ∧
      (∀ (i : Nat) (st : LayerStripe F), app.stripes[i]? = some st →
        ∃ st1 : LayerStripe F, app1.stripes[i]? = some st1 ∧
          st1.forward = st.forward ∧ st1.horizontal = st.horizontal ∧
          st1.blocks = (st.blocks.filter (fun b =>
              !((st.forward && A.lt A.oneAndHalf b.posFrac) ||
                (!st.forward && A.lt (A.add b.posFrac b.sizeFrac) A.minusHalf)))).map
            (updateBlock A st.forward (now - st.lastTime) app.speed)) ∧
      (∀ b : Block F, A.lt A.oneAndHalf A.oneAndHalf = false → b.posFrac = A.oneAndHalf →
        blockDeleted A true b = false) ∧
      (∀ b : Block F, A.lt A.minusHalf A.minusHalf = false →
        A.add b.posFrac b.sizeFrac = A.minusHalf → blockDeleted A false b = false) := by
  obtain ⟨app1, h1, h2, _, _, _, h3⟩ := update_stripe_at A app now hbpm
  refine ⟨app1, h1, h2, ?_, ?_, ?_⟩
  · intro i st hst
    exact ⟨_, h3 i st hst, rfl, rfl, rfl⟩
  · intro b hirr hb
    simp [blockDeleted, hb, hirr]
  · intro b hirr hb
    simp [blockDeleted, hb, hirr]

/-- C15, witness: in exact arithmetic, an update of the sample store at time 116 removes
the block at `posFrac = 2` from the forward stripe and keeps the block at `1.5` (moved
to `1.504`); the backward stripe keeps its block, which grows. -/
theorem update_deletion_rule_witness :
    sampleApp.beatsPerMinute ≠ 0 ∧
    (∃ app1 : ofApp ℚ, sampleApp.update exactOps 116 = some app1 ∧
      app1.stripes.length = sampleApp.stripes.length) ∧
    sampleApp.update exactOps 116 =
      some { sampleApp with
        stripes :=
          [{ sampleForward with
              blocks := [{ sampleEdge with posFrac := 1504 / 1000 }], lastTime := 116 },
           { sampleBackward with
              blocks := [{ sampleHeld with posFrac := 996 / 1000, sizeFrac := 4 / 1000 }],
              lastTime := 116 }] } := by
  obtain ⟨app1, h1, h2, _⟩ := update_deletion_rule exactOps sampleApp 116 (by decide)
  exact ⟨by decide, ⟨app1, h1, h2⟩, by decide!⟩

/-- The animation step with a zero time step leaves the block as it is. -/
theorem updateBlock_zero {F : Type} (A : FloatOps F) (hA : A.Lawful) (forward : Bool)
    (speed : Int) (hspeed : speed ≠ 0) (b : Block F) : updateBlock A forward 0 speed b = b := by
  unfold updateBlock
  cases b with
  | mk pos size color vel fin =>
    cases fin <;> cases forward <;>
      simp [hA.add_zero_quotient speed _ hspeed, hA.sub_zero_quotient speed _ hspeed]

/-- C17, counterexample.  In binary32 arithmetic, at the default tempo (`speed = 4000`),
the block of a key that is still pressed (not finalized, `posFrac = 1`, `sizeFrac = 0`,
far edge 1) on a backward stripe is animated by two updates, each 2 time units after the
one before, and neither deletes it.  After the first, `posFrac + sizeFrac` is no longer
1 as a number, though its binary32 sum still rounds to 1; after the second, the binary32
sum `posFrac + sizeFrac` is `1 - 2^-24 = 0.99999994`: the far edge has moved. -/
theorem far_edge_moves_in_binary32 :
    sampleHeld.finalized = false ∧ sampleBackward.forward = false ∧ heldApp.speed = 4000 ∧
    sampleHeld.posFrac + sampleHeld.sizeFrac = 1 ∧
    binary32Ops.add sampleHeld.posFrac sampleHeld.sizeFrac = 1 ∧
    heldApp.update binary32Ops 102 = some heldAppOnce ∧
    heldAppOnce.update binary32Ops 104 = some heldAppTwice ∧
    updateBlock binary32Ops false 2 4000 sampleHeld = heldOnce ∧
    updateBlock binary32Ops false 2 4000 heldOnce = heldTwice ∧
    heldOnce.posFrac + heldOnce.sizeFrac ≠ sampleHeld.posFrac + sampleHeld.sizeFrac ∧
    binary32Ops.add heldOnce.posFrac heldOnce.sizeFrac = 1 ∧
    binary32Ops.add heldTwice.posFrac heldTwice.sizeFrac = 16777215 / 16777216 ∧
    binary32Ops.add heldTwice.posFrac heldTwice.sizeFrac ≠
      binary32Ops.add heldOnce.posFrac heldOnce.sizeFrac := by
  decide!

/-- C17, amended.  Animation step of `ofApp::update`.  In each stripe the blocks that
are not deleted are replaced, in their order, by their animated versions, where, with
`d = (now - lastTime) / speed` computed in `float`: a finalized block slides and keeps
its size (`posFrac + d` on a forward stripe, `posFrac - d` on a backward stripe); a
block that is not finalized grows instead (`sizeFrac + d`), with `posFrac` unchanged on
a forward stripe and `posFrac - d` on a backward stripe; every other member of the
block is kept.  The far edge of a growing block on a backward stripe becomes
`(posFrac - d) + (sizeFrac + d)`, each operation rounded as `float` rounds: it is the
old far edge in exact arithmetic, and in binary32 arithmetic whenever `posFrac - d` and
`sizeFrac + d` are computed without rounding error. -/
theorem update_animation_step {F : Type} (A : FloatOps F) (app : ofApp F) (now : Int)
    (hbpm : app.beatsPerMinute ≠ 0) :
    (∃ app1 : ofApp F, app.update A now = some app1 ∧
      (∀ (i : Nat) (st : LayerStripe F), app.stripes[i]? = some st →
        ∃ st1 : LayerStripe F, app1.stripes[i]? = some st1 ∧
          st1.blocks = (st.blocks.filter (fun b => !blockDeleted A st.forward b)).map
            (updateBlock A st.forward (now - st.lastTime)
              (app.screenSize * (60000 : Int).tdiv app.beatsPerMinute * app.beatsPerMeasure))) ∧
      (∀ (diff speed : Int) (b : Block F),
        (b.finalized = true →
          updateBlock A true diff speed b =
            { b with posFrac := A.add b.posFrac (A.div (A.ofInt diff) (A.ofInt speed)) } ∧
          updateBlock A false diff speed b =
            { b with posFrac := A.sub b.posFrac (A.div (A.ofInt diff) (A.ofInt speed)) }) ∧
        (b.finalized = false →
          updateBlock A true diff speed b =
            { b with sizeFrac := A.add b.sizeFrac (A.div (A.ofInt diff) (A.ofInt speed)) } ∧
          updateBlock A false diff speed b =
            { b with
              sizeFrac := A.add b.sizeFrac (A.div (A.ofInt diff) (A.ofInt speed)),
              posFrac := A.sub b.posFrac (A.div (A.ofInt diff) (A.ofInt speed)) } ∧
          A.add (updateBlock A false diff speed b).posFrac
              (updateBlock A false diff speed b).sizeFrac =
            A.add (A.sub b.posFrac (A.div (A.ofInt diff) (A.ofInt speed)))
              (A.add b.sizeFrac (A.div (A.ofInt diff) (A.ofInt speed)))))) ∧
    (∀ (diff speed : Int) (b : Block ℚ), b.finalized = false →
      (updateBlock exactOps false diff speed b).posFrac +
        (updateBlock exactOps false diff speed b).sizeFrac = b.posFrac + b.sizeFrac) ∧
    (∀ (diff speed : Int) (b : Block ℚ), b.finalized = false →
      roundBinary32 (b.posFrac - binary32Ops.div (binary32Ops.ofInt diff)
        (binary32Ops.ofInt speed)) =
          b.posFrac - binary32Ops.div (binary32Ops.ofInt diff) (binary32Ops.ofInt speed) →
      roundBinary32 (b.sizeFrac + binary32Ops.div (binary32Ops.ofInt diff)
        (binary32Ops.ofInt speed)) =
          b.sizeFrac + binary32Ops.div (binary32Ops.ofInt diff) (binary32Ops.ofInt speed) →
      (updateBlock binary32Ops false diff speed b).posFrac +
        (updateBlock binary32Ops false diff speed b).sizeFrac = b.posFrac + b.sizeFrac) := by
  obtain ⟨app1, h1, _, _, _, _, h3⟩ := update_stripe_at A app now hbpm
  refine ⟨⟨app1, h1, ?_, ?_⟩, ?_, ?_⟩
  · intro i st hst
    exact ⟨_, h3 i st hst, rfl⟩
  · intro diff speed b
    constructor
    · intro hf
      simp [updateBlock, hf]
    · intro hf
      refine ⟨by simp [updateBlock, hf], by simp [updateBlock, hf], ?_⟩
      simp only [updateBlock, hf, Bool.not_false, if_true, Bool.false_eq_true, if_false]
  · intro diff speed b hf
    simp only [updateBlock, hf, Bool.not_false, if_true, Bool.false_eq_true, if_false, exactOps]
    ring
  · intro diff speed b hf hp hs
    simp only [updateBlock, hf, Bool.not_false, if_true, Bool.false_eq_true, if_false]
    show roundBinary32 (b.posFrac - binary32Ops.div (binary32Ops.ofInt diff)
        (binary32Ops.ofInt speed)) +
      roundBinary32 (b.sizeFrac + binary32Ops.div (binary32Ops.ofInt diff)
        (binary32Ops.ofInt speed)) = b.posFrac + b.sizeFrac
    rw [hp, hs]
    ring

/-- C17, witness: at the default tempo (`speed = 4000`), 16 time units after the last
update the held block of the backward sample stripe has grown, in exact arithmetic, from
size `0` to `0.004` and its `posFrac` has gone from `1` to `0.996`, the far edge staying
at `1`; in binary32 arithmetic a step of 1000 time units, whose `d = 0.25` is computed
exactly, takes the block to `posFrac = 0.75` and `sizeFrac = 0.25`, far edge `1`. -/
theorem update_animation_step_witness :
    sampleApp.beatsPerMinute ≠ 0 ∧
    (∃ app1 : ofApp ℚ, sampleApp.update exactOps 116 = some app1) ∧
    updateBlock exactOps false 16 4000 sampleHeld =
      { sampleHeld with posFrac := 996 / 1000, sizeFrac := 4 / 1000 } ∧
    (updateBlock exactOps false 16 4000 sampleHeld).posFrac +
      (updateBlock exactOps false 16 4000 sampleHeld).sizeFrac =
        sampleHeld.posFrac + sampleHeld.sizeFrac ∧
    updateBlock binary32Ops false 1000 4000 sampleHeld =
      { sampleHeld with posFrac := 3 / 4, sizeFrac := 1 / 4 } ∧
    (updateBlock binary32Ops false 1000 4000 sampleHeld).posFrac +
      (updateBlock binary32Ops false 1000 4000 sampleHeld).sizeFrac =
        sampleHeld.posFrac + sampleHeld.sizeFrac := by
  obtain ⟨⟨app1, h1, _, _⟩, hexact, hbin⟩ :=
    update_animation_step exactOps sampleApp 116 (by decide)
  exact ⟨by decide, ⟨app1, h1⟩, by decide!, hexact 16 4000 sampleHeld rfl, by decide!,
    hbin 1000 4000 sampleHeld rfl (by decide!) (by decide!)⟩

/-- C14.  Zero-elapsed idempotence of the frame-animation pass.  With a non-zero
`speed`, an update at a time equal to the `lastTime` of every stripe leaves every stripe
and every block it keeps exactly as they were, `posFrac` and `sizeFrac` included,
whether the block is finalized or not and whatever the direction of the stripe (the
blocks already past a deletion threshold are deleted, as in every update).  An update
sets the `lastTime` of every stripe to its time, so a second update at the same time as
the first changes no block either. -/
theorem update_zero_elapsed {F : Type} (A : FloatOps F) (hA : A.Lawful) (app : ofApp F)
    (now : Int) (hbpm : app.beatsPerMinute ≠ 0) (hspeed : app.speed ≠ 0) :
    ((∀ st ∈ app.stripes, st.lastTime = now) →
      app.update A now = some { app with
        stripes := app.stripes.map (fun st =>
          { st with blocks := st.blocks.filter (fun b => !blockDeleted A st.forward b) }) }) ∧
    (∀ (forward : Bool) (b : Block F), updateBlock A forward (now - now) app.speed b = b) ∧
    (∃ app1 : ofApp F, app.update A now = some app1 ∧
      (∀ st ∈ app1.stripes, st.lastTime = now) ∧
      app1.update A now = some { app1 with
        stripes := app1.stripes.map (fun st =>
          { st with blocks := st.blocks.filter (fun b => !blockDeleted A st.forward b) }) }) := by
  have hzero : ∀ (a : ofApp F), a.beatsPerMinute ≠ 0 → a.speed ≠ 0 →
      (∀ st ∈ a.stripes, st.lastTime = now) →
      a.update A now = some { a with
        stripes := a.stripes.map (fun st =>
          { st with blocks := st.blocks.filter (fun b => !blockDeleted A st.forward b) }) } := by
    intro a ha hs hlast
    rw [update_eq A a now ha]
    congr 2
    apply List.map_congr_left
    intro st hst
    rw [updateStripe_eq, hlast st hst, sub_self]
    have hmap : List.map (updateBlock A st.forward 0 a.speed)
        (st.blocks.filter (fun b => !blockDeleted A st.forward b)) =
          st.blocks.filter (fun b => !blockDeleted A st.forward b) := by
      conv_rhs => rw [← List.map_id (st.blocks.filter (fun b => !blockDeleted A st.forward b))]
      apply List.map_congr_left
      intro b _
      exact updateBlock_zero A hA st.forward a.speed hs b
    rw [hmap]
  refine ⟨hzero app hbpm hspeed, ?_, ?_⟩
  · intro forward b
    rw [sub_self]
    exact updateBlock_zero A hA forward app.speed hspeed b
  · have h1 := update_eq A app now hbpm
    refine ⟨_, h1, ?_, ?_⟩
    · intro st hst
      simp only [List.mem_map] at hst
      obtain ⟨st0, _, rfl⟩ := hst
      rfl
    · have h2 := hzero { app with stripes := List.map (updateStripe A now app.speed) app.stripes }
        hbpm hspeed (by
          intro st hst
          simp only [List.mem_map] at hst
          obtain ⟨st0, _, rfl⟩ := hst
          rfl)
      exact h2

/-- C14, witness: in exact arithmetic, an update of the sample store at time 100, the
`lastTime` of both stripes, deletes the block already past the threshold and leaves the
other blocks and both stripes as they were. -/
theorem update_zero_elapsed_witness :
    sampleApp.beatsPerMinute ≠ 0 ∧ sampleApp.speed ≠ 0 ∧
    (∀ st ∈ sampleApp.stripes, st.lastTime = 100) ∧
    sampleApp.update exactOps 100 =
      some { sampleApp with
        stripes := [{ sampleForward with blocks := [sampleEdge] }, sampleBackward] } := by
  have h := (update_zero_elapsed exactOps exactOps_lawful sampleApp 100 (by decide)
    (by decide)).1 (by decide)
  refine ⟨by decide, by decide, by decide, ?_⟩
  rw [h]
  decide!

theorem pushBlock_of_some {F : Type} (stripes : List (LayerStripe F)) (i : Nat) (b : Block F)
    (st : LayerStripe F) (h : stripes[i]? = some st) :
    pushBlock stripes i b = stripes.set i { st with blocks := st.blocks ++ [b] } := by
  unfold pushBlock
  rw [h]

/-- C16.  `ofApp::noteHandler` for a channel `c` in `1..8` and a store of 16 stripes.
With `msScreen = screenSize * msPerBeat * beatsPerMeasure`, `p = distance / msScreen` and
`s = duration / msScreen`, the call returns exactly two new blocks, the first appended at
the end of `stripes[c - 1].blocks` and the second at the end of `stripes[c + 7].blocks`;
each has `sizeFrac = s`, `velFrac = velocity / 127`, `finalized = (c != 1)` and
`posFrac = -s - p` when its own stripe travels forward, `1 + p` when it travels
backward; the two stripes are otherwise unchanged, and so are every other stripe, every
block already there, and the other members of the application. -/
theorem noteHandler_appends_two_blocks {F : Type} (A : FloatOps F) (app : ofApp F)
    (c position velocity distance duration : Int)
    (hlen : app.stripes.length = 16) (hc1 : 1 ≤ c) (hc8 : c ≤ 8)
    (hbpm : app.beatsPerMinute ≠ 0) :
    let msScreen :=
      A.ofInt (app.screenSize * (60000 : Int).tdiv app.beatsPerMinute * app.beatsPerMeasure)
    let p := A.div (A.ofInt distance) msScreen
    let s := A.div (A.ofInt duration) msScreen
    let newBlock := fun (forward : Bool) =>
      ({ posFrac := if forward then A.sub (A.neg s) p else A.add A.one p,
         sizeFrac := s,
         color := position.tmod 5,
         velFrac := A.div (A.ofInt velocity) A.c127,
         finalized := decide (c ≠ 1) } : Block F)
    ∃ (app1 : ofApp F) (stripeA stripeB : LayerStripe F),
      app.stripes[(c - 1).toNat]? = some stripeA ∧
      app.stripes[(c + 7).toNat]? = some stripeB ∧
      app.noteHandler A c position velocity distance duration =
        some (app1, [newBlock stripeA.forward, newBlock stripeB.forward]) ∧
      app1.stripes.length = 16 ∧
      app1.stripes[(c - 1).toNat]? =
        some { stripeA with blocks := stripeA.blocks ++ [newBlock stripeA.forward] } ∧
      app1.stripes[(c + 7).toNat]? =
        some { stripeB with blocks := stripeB.blocks ++ [newBlock stripeB.forward] } ∧
      (∀ i : Nat, i ≠ (c - 1).toNat → i ≠ (c + 7).toNat → app1.stripes[i]? = app.stripes[i]?) ∧
      app1.beatsPerMinute = app.beatsPerMinute ∧ app1.beatsPerMeasure = app.beatsPerMeasure ∧
      app1.screenSize = app.screenSize := by
  intro msScreen p s newBlock
  have hi : (c - 1).toNat < app.stripes.length := by omega
  have hj : (c + 7).toNat < app.stripes.length := by omega
  have hij : (c - 1).toNat ≠ (c + 7).toNat := by omega
  have hA : app.stripes[(c - 1).toNat]? = some app.stripes[(c - 1).toNat] :=
    List.getElem?_eq_getElem hi
  have hB : app.stripes[(c + 7).toNat]? = some app.stripes[(c + 7).toNat] :=
    List.getElem?_eq_getElem hj
  have hidx : (c - 1 + 8).toNat = (c + 7).toNat := by
    congr 1
    ring
  have hfin : decide (c - 1 ≠ 0) = decide (c ≠ 1) := by
    by_cases h : c = 1
    · simp [h]
    · have : c - 1 ≠ 0 := by omega
      simp [h, this]
  have hneg : ¬ (c - 1 < 0) := by omega
  have hB1 : (pushBlock app.stripes (c - 1).toNat
      (newBlock app.stripes[(c - 1).toNat].forward))[(c + 7).toNat]? =
        some app.stripes[(c + 7).toNat] := by
    rw [pushBlock_of_some _ _ _ _ hA, List.getElem?_set_ne hij, hB]
  have hst : pushBlock
      (pushBlock app.stripes (c - 1).toNat (newBlock app.stripes[(c - 1).toNat].forward))
      (c + 7).toNat (newBlock app.stripes[(c + 7).toNat].forward) =
      (app.stripes.set (c - 1).toNat
        { app.stripes[(c - 1).toNat] with
          blocks := app.stripes[(c - 1).toNat].blocks ++
            [newBlock app.stripes[(c - 1).toNat].forward] }).set (c + 7).toNat
        { app.stripes[(c + 7).toNat] with
          blocks := app.stripes[(c + 7).toNat].blocks ++
            [newBlock app.stripes[(c + 7).toNat].forward] } := by
    rw [pushBlock_of_some _ _ _ _ hB1, pushBlock_of_some _ _ _ _ hA]
  refine ⟨⟨app.beatsPerMinute, app.beatsPerMeasure, app.screenSize,
      pushBlock
        (pushBlock app.stripes (c - 1).toNat (newBlock app.stripes[(c - 1).toNat].forward))
        (c + 7).toNat (newBlock app.stripes[(c + 7).toNat].forward)⟩,
    app.stripes[(c - 1).toNat], app.stripes[(c + 7).toNat], hA, hB, ?_, ?_, ?_, ?_, ?_,
    rfl, rfl, rfl⟩
  · unfold ofApp.noteHandler
    rw [if_neg hbpm]
    simp only [if_neg hneg, hidx, hA, hB, hfin]
  · show (pushBlock (pushBlock app.stripes (c - 1).toNat
      (newBlock app.stripes[(c - 1).toNat].forward)) (c + 7).toNat
      (newBlock app.stripes[(c + 7).toNat].forward)).length = 16
    rw [hst, List.length_set, List.length_set]
    exact hlen
  · show (pushBlock (pushBlock app.stripes (c - 1).toNat
      (newBlock app.stripes[(c - 1).toNat].forward)) (c + 7).toNat
      (newBlock app.stripes[(c + 7).toNat].forward))[(c - 1).toNat]? = _
    rw [hst, List.getElem?_set_ne (Ne.symm hij), List.getElem?_set_self hi]
  · show (pushBlock (pushBlock app.stripes (c - 1).toNat
      (newBlock app.stripes[(c - 1).toNat].forward)) (c + 7).toNat
      (newBlock app.stripes[(c + 7).toNat].forward))[(c + 7).toNat]? = _
    rw [hst, List.getElem?_set_self (by rw [List.length_set]; exact hj)]
  · intro i h1 h2
    show (pushBlock (pushBlock app.stripes (c - 1).toNat
      (newBlock app.stripes[(c - 1).toNat].forward)) (c + 7).toNat
      (newBlock app.stripes[(c + 7).toNat].forward))[i]? = _
    rw [hst, List.getElem?_set_ne (Ne.symm h2), List.getElem?_set_ne (Ne.symm h1)]

/-- C16, witness: in exact arithmetic at the default tempo (`msScreen = 4000`), a note
of channel 2 with lead time 250 and duration 250 gives one block at `1 + 1/16` for the
backward stripe 1 and one at `-1/16 - 1/16` for the forward stripe 9, both of size
`1/16` and finalized. -/
theorem noteHandler_appends_two_blocks_witness :
    gridApp.stripes.length = 16 ∧ gridApp.beatsPerMinute ≠ 0 ∧
    (∃ app1 : ofApp ℚ, (gridApp.noteHandler exactOps 2 0 127 250 250).map Prod.fst = some app1 ∧
      app1.stripes.length = 16) ∧
    (gridApp.noteHandler exactOps 2 0 127 250 250).map Prod.snd =
      some [{ posFrac := 17 / 16, sizeFrac := 1 / 16, color := 0, velFrac := 1, finalized := true },
            { posFrac := -(1 / 8), sizeFrac := 1 / 16, color := 0, velFrac := 1,
              finalized := true }] ∧
    ((gridApp.noteHandler exactOps 2 0 127 250 250).map
        (fun r => r.1.stripes.map (fun st => st.blocks.length))) =
      some [0, 1, 0, 0, 0, 0, 0, 0, 0, 1, 0, 0, 0, 0, 0, 0] := by
  obtain ⟨app1, sa, sb, _, _, h, hl, _⟩ := noteHandler_appends_two_blocks exactOps gridApp 2 0 127
    250 250 (by decide) (by decide) (by decide) (by decide)
  refine ⟨by decide, by decide, ⟨app1, ?_, hl⟩, by decide!, by decide!⟩
  rw [h]
  rfl

/-! ## The tempo bounds (claim C20) -/

theorem keyPressed_other (c : Controls) (key : Int) (h40 : key ≠ 40) (h41 : key ≠ 41)
    (h57 : key ≠ 57) (h48 : key ≠ 48) (h45 : key ≠ 45) (h61 : key ≠ 61) :
    c.keyPressed key = c := by
  simp [Controls.keyPressed, h40, h41, h57, h48, h45, h61]

theorem keyPressed_bounded (c : Controls) (key : Int) (h : c.Bounded) :
    (c.keyPressed key).Bounded := by
  obtain ⟨h1, h2, h3, h4, h5, h6, h7⟩ := h
  by_cases h40 : key = 40
  · subst h40
    simp only [Controls.keyPressed, Controls.Bounded]
    norm_num
    split_ifs <;> (try dsimp only) <;> omega
  by_cases h41 : key = 41
  · subst h41
    simp only [Controls.keyPressed, Controls.Bounded]
    norm_num
    split_ifs <;> (try dsimp only) <;> omega
  by_cases h57 : key = 57
  · subst h57
    simp only [Controls.keyPressed, Controls.Bounded]
    norm_num
    split_ifs <;> (try dsimp only) <;> omega
  by_cases h48 : key = 48
  · subst h48
    simp only [Controls.keyPressed, Controls.Bounded]
    norm_num
    split_ifs <;> (try dsimp only) <;> omega
  by_cases h45 : key = 45
  · subst h45
    simp only [Controls.keyPressed, Controls.Bounded]
    norm_num
    split_ifs <;> (try dsimp only) <;> omega
  by_cases h61 : key = 61
  · subst h61
    simp only [Controls.keyPressed, Controls.Bounded]
    norm_num
    split_ifs <;> (try dsimp only) <;> omega
  rw [keyPressed_other c key h40 h41 h57 h48 h45 h61]
  exact ⟨h1, h2, h3, h4, h5, h6, h7⟩

theorem keyPressed_locked (c : Controls) (key : Int) (h : c.seqIsNull = false) :
    (c.keyPressed key).beatsPerMinute = c.beatsPerMinute ∧
    (c.keyPressed key).beatsPerMeasure = c.beatsPerMeasure := by
  by_cases h40 : key = 40
  · subst h40
    simp only [Controls.keyPressed, h]
    norm_num
  by_cases h41 : key = 41
  · subst h41
    simp only [Controls.keyPressed, h]
    norm_num
    simp [h]
  by_cases h57 : key = 57
  · subst h57
    simp only [Controls.keyPressed, h]
    norm_num
    simp [h]
  by_cases h48 : key = 48
  · subst h48
    simp only [Controls.keyPressed, h]
    norm_num
    simp [h]
  by_cases h45 : key = 45
  · subst h45
    simp only [Controls.keyPressed, h]
    norm_num
    split_ifs <;> exact ⟨rfl, rfl⟩
  by_cases h61 : key = 61
  · subst h61
    simp only [Controls.keyPressed, h]
    norm_num
    split_ifs <;> exact ⟨rfl, rfl⟩
  rw [keyPressed_other c key h40 h41 h57 h48 h45 h61]
  exact ⟨rfl, rfl⟩

theorem keyReleased_bounded (c : Controls) (key : Int) (h : c.Bounded) :
    (c.keyReleased key).Bounded := by
  unfold Controls.keyReleased
  split_ifs <;> exact h

theorem run_bounded (evs : List KeyEvent) :
    ∀ c : Controls, c.Bounded → (c.run evs).Bounded := by
  induction evs with
  | nil => intro c h; exact h
  | cons e es ih =>
    intro c h
    apply ih
    cases e with
    | pressed key => exact keyPressed_bounded c key h
    | released key => exact keyReleased_bounded c key h

theorem msPerBeat_bounds (b : Int) (h1 : 24 ≤ b) (h2 : b ≤ 200) :
    300 ≤ (60000 : Int).tdiv b ∧ (60000 : Int).tdiv b ≤ 2500 := by
  rw [Int.tdiv_eq_ediv (by norm_num) (by omega)]
  constructor
  · exact (Int.le_ediv_iff_mul_le (by omega)).2 (by omega)
  · have h : (60000 : Int) / b < 2501 := (Int.ediv_lt_iff_lt_mul (by omega)).2 (by omega)
    omega

theorem init_success (s : Sequencer) (env : Backend) (synth : Synthesizer) (beatsMinute : Int)
    (call data : Nat)
    (hsynth : synth.synth ≠ none) (hfresh : s.sequencer = none) (htempo : beatsMinute ≠ 0) :
    ∃ (ok : Bool) (s1 : Sequencer) (ev : List Event),
      s.init env synth beatsMinute call data = some (ok, s1, ev) ∧
      s1.msPerBeat = (60000 : Int).tdiv beatsMinute := by
  have h1 : ¬ (synth.synth = none) := hsynth
  unfold Sequencer.init
  rw [if_neg h1, if_neg (by simp [hfresh]), if_neg htempo]
  exact ⟨_, _, _, rfl, by rw [scheduleLayers_fst]⟩

/-- C20.  Tempo bounds of the application state.  From the startup values (120 beats
per minute, 4 beats per measure, velocity 127), after every sequence of key events the
state `c` has `24 <= beatsPerMinute <= 200`, `1 <= beatsPerMeasure <= 24` and
`0 <= currentVelocity <= 127`; `keyPressed` leaves the tempo and the measure as they are
while a sequencer exists, and `keyReleased` always does.  Hence the tempo is not zero,
`60000 / beatsPerMinute` lies between 300 and 2500, an `init` of a fresh sequencer at
this tempo is defined and stores such a `msPerBeat`, `update` and `noteHandler` (for a
channel in `1..8` and 16 stripes) are defined, and
`speed = screenSize * msPerBeat * beatsPerMeasure` is positive. -/
theorem tempo_bounds_invariant (evs : List KeyEvent) :
    (24 ≤ (Controls.startup.run evs).beatsPerMinute ∧
      (Controls.startup.run evs).beatsPerMinute ≤ 200) ∧
    (1 ≤ (Controls.startup.run evs).beatsPerMeasure ∧
      (Controls.startup.run evs).beatsPerMeasure ≤ 24) ∧
    (0 ≤ (Controls.startup.run evs).currentVelocity ∧
      (Controls.startup.run evs).currentVelocity ≤ 127) ∧
    (∀ key : Int, (Controls.startup.run evs).seqIsNull = false →
      ((Controls.startup.run evs).keyPressed key).beatsPerMinute =
        (Controls.startup.run evs).beatsPerMinute ∧
      ((Controls.startup.run evs).keyPressed key).beatsPerMeasure =
        (Controls.startup.run evs).beatsPerMeasure) ∧
    (∀ key : Int,
      ((Controls.startup.run evs).keyReleased key).beatsPerMinute =
        (Controls.startup.run evs).beatsPerMinute ∧
      ((Controls.startup.run evs).keyReleased key).beatsPerMeasure =
        (Controls.startup.run evs).beatsPerMeasure) ∧
    (Controls.startup.run evs).beatsPerMinute ≠ 0 ∧
    (300 ≤ (60000 : Int).tdiv (Controls.startup.run evs).beatsPerMinute ∧
      (60000 : Int).tdiv (Controls.startup.run evs).beatsPerMinute ≤ 2500) ∧
    (∀ (s : Sequencer) (env : Backend) (synth : Synthesizer) (call data : Nat),
      synth.synth ≠ none → s.sequencer = none →
      ∃ (ok : Bool) (s1 : Sequencer) (ev : List Event),
        s.init env synth (Controls.startup.run evs).beatsPerMinute call data =
          some (ok, s1, ev) ∧
        300 ≤ s1.msPerBeat ∧ s1.msPerBeat ≤ 2500) ∧
    (∀ (F : Type) (A : FloatOps F) (stripes : List (LayerStripe F)),
      0 < ((Controls.startup.run evs).toApp stripes).speed ∧
      (∀ now : Int, (((Controls.startup.run evs).toApp stripes).update A now).isSome = true) ∧
      (∀ ch position velocity distance duration : Int,
        stripes.length = 16 → 1 ≤ ch → ch ≤ 8 →
        (((Controls.startup.run evs).toApp stripes).noteHandler A ch position velocity
          distance duration).isSome = true)) := by
  have hb : (Controls.startup.run evs).Bounded :=
    run_bounded evs Controls.startup (by unfold Controls.Bounded Controls.startup; decide)
  generalize Controls.startup.run evs = c at hb
  obtain ⟨h1, h2, h3, h4, h5, h6, h7⟩ := hb
  have hne : c.beatsPerMinute ≠ 0 := by omega
  have hms := msPerBeat_bounds c.beatsPerMinute h1 h2
  refine ⟨⟨h1, h2⟩, ⟨h3, h4⟩, ⟨h5, h6⟩, fun key h => keyPressed_locked c key h, ?_, hne, hms,
    ?_, ?_⟩
  · intro key
    unfold Controls.keyReleased
    split_ifs <;> exact ⟨rfl, rfl⟩
  · intro s env synth call data hsynth hfresh
    obtain ⟨ok, s1, ev, hinit, hm⟩ := init_success s env synth c.beatsPerMinute call data
      hsynth hfresh hne
    exact ⟨ok, s1, ev, hinit, by rw [hm]; exact hms.1, by rw [hm]; exact hms.2⟩
  · intro F A stripes
    have hspeed : 0 < (c.toApp stripes).speed := by
      unfold ofApp.speed Controls.toApp
      simp only [h7]
      have hpos : 0 < (60000 : Int).tdiv c.beatsPerMinute := by omega
      positivity
    refine ⟨hspeed, ?_, ?_⟩
    · intro now
      rw [update_eq A (c.toApp stripes) now hne]
      rfl
    · intro ch position velocity distance duration hlen hc1 hc8
      have hi : (ch - 1).toNat < stripes.length := by omega
      have hj : (ch - 1 + 8).toNat < stripes.length := by omega
      have hneg : ¬ (ch - 1 < 0) := by omega
      have hne2 : ¬ ((c.toApp stripes).beatsPerMinute = 0) := hne
      unfold ofApp.noteHandler
      rw [if_neg hne2]
      simp only [if_neg hneg]
      have hA : (c.toApp stripes).stripes[(ch - 1).toNat]? = some stripes[(ch - 1).toNat] :=
        List.getElem?_eq_getElem hi
      have hB : (c.toApp stripes).stripes[(ch - 1 + 8).toNat]? =
          some stripes[(ch - 1 + 8).toNat] := List.getElem?_eq_getElem hj
      simp only [hA, hB]
      rfl

/-- C20, witness: after two tempo decrements, a shorter measure and a softer velocity, a
sequencer is built, and the next tempo decrement and longer measure change nothing: the
state is 118 beats per minute, 3 beats per measure, velocity 126.  Five presses of the
opening parenthesis from the startup state stop at 1 beat per measure, and the extreme
tempos 24 and 200 give `msPerBeat` 2500 and 300. -/
theorem tempo_bounds_invariant_witness :
    Controls.startup.run sampleKeys =
      { beatsPerMinute := 118, beatsPerMeasure := 3, currentVelocity := 126, screenSize := 2,
        seqIsNull := false } ∧
    ((Controls.startup.run sampleKeys).keyPressed 48).beatsPerMinute = 118 ∧
    (Controls.startup.run (List.replicate 5 (KeyEvent.pressed 40))).beatsPerMeasure = 1 ∧
    ((60000 : Int).tdiv 24 = 2500 ∧ (60000 : Int).tdiv 200 = 300) ∧
    (300 ≤ (60000 : Int).tdiv (Controls.startup.run sampleKeys).beatsPerMinute ∧
      (60000 : Int).tdiv (Controls.startup.run sampleKeys).beatsPerMinute ≤ 2500) := by
  have h := tempo_bounds_invariant sampleKeys
  refine ⟨by decide, ?_, by decide, by decide, h.2.2.2.2.2.2.1⟩
  have h2 := (h.2.2.2.1 48 (by decide)).1
  rw [h2]
  decide

end Protostripe
